import Mathlib

/-!
Verification development for the shuttleSquadsPro analytics core.

The Python source is shallowly embedded: machine floats are modelled as real
numbers (`ℝ`) where the source computes with transcendental functions, and as
rationals (`ℚ`) where the source only performs field arithmetic on integers;
Python `None` becomes `Option`; Python dicts keyed by team name become
association lists that preserve insertion order, mirroring CPython dict
semantics.  Randomness (`random.random()`) is modelled as an explicit stream
of draws `ℕ → ℝ` consumed in program order.  Database fetches are modelled by
passing the fetched rows as explicit list arguments.
-/

namespace ShuttleSquads

/-! ## Embedding of `engine.py` (margin-of-victory Elo) -/

/-- Python truthiness test for an optional string: `None` and `""` are falsy
(`not team_a` in the source). -/
def strFalsy : Option String → Bool
  | none => true
  | some s => s = ""

/-- Decidable list-prefix test used to express Python's substring operator. -/
def listPrefixOf : List Char → List Char → Bool
  | [], _ => true
  | _ :: _, [] => false
  | a :: as, b :: bs => a = b && listPrefixOf as bs

/-- Decidable substring test on character lists. -/
def listSubstr (p : List Char) : List Char → Bool
  | [] => listPrefixOf p []
  | c :: rest => listPrefixOf p (c :: rest) || listSubstr p rest

/-- Python `'TBD' in s` (substring containment). -/
def containsTBD (s : String) : Bool := listSubstr "TBD".data s.data

/-- One row of the `matches` table as consumed by `generate_power_rankings`:
the query in `engine.py` already filters `status = "finished"` and orders by
`match_index`, so the match history is passed as an ordered list of these
records; the fields not read by the algorithm are omitted. -/
structure EloMatch where
  team_a : Option String
  team_b : Option String
  score_a : Option ℤ
  score_b : Option ℤ
  winner : Option String

/-- `calculate_expected_score` from `engine.py`:
probability (0 to 1) of Team A beating Team B. -/
noncomputable def calculate_expected_score (rating_a rating_b : ℝ) : ℝ :=
  1 / (1 + (10 : ℝ) ^ ((rating_b - rating_a) / 400))

/-- `calculate_mov_multiplier` from `engine.py`.  Python's `score_a or 0`
coerces `None` (and `0`) to `0`, hence `Option.getD 0`. -/
noncomputable def calculate_mov_multiplier (score_a score_b : Option ℤ) : ℝ :=
  if 0 < |score_a.getD 0 - score_b.getD 0| then
    Real.log (((|score_a.getD 0 - score_b.getD 0| : ℤ) : ℝ) + 1) * 0.8
  else 1

/-- The guard at the top of the per-match loop in `generate_power_rankings`:
`if not team_a or not team_b or 'TBD' in team_a or 'TBD' in team_b or not
winner: continue`.  Note that the scores are not consulted. -/
def skipMatch (m : EloMatch) : Bool :=
  strFalsy m.team_a || strFalsy m.team_b ||
    containsTBD (m.team_a.getD "") || containsTBD (m.team_b.getD "") ||
    strFalsy m.winner

/-- Python dict insertion `if team not in ratings: ratings[team] = 1500`:
appends at the end when absent, preserving insertion order. -/
def ensureTeam (ratings : List (String × ℤ)) (t : String) : List (String × ℤ) :=
  if (List.lookup t ratings).isSome then ratings else ratings ++ [(t, 1500)]

/-- Python dict assignment `ratings[team] = v` for a key already present:
updates the value in place, keeping the key's position. -/
def setRating (ratings : List (String × ℤ)) (t : String) (v : ℤ) : List (String × ℤ) :=
  ratings.map fun p => if p.1 = t then (t, v) else p

/-- The body of the `for match in matches` loop of `generate_power_rankings`:
one Elo update step over the running ratings dict. -/
noncomputable def eloUpdateMatch (ratings : List (String × ℤ)) (m : EloMatch) :
    List (String × ℤ) :=
  if skipMatch m then ratings
  else
    let a := m.team_a.getD ""
    let b := m.team_b.getD ""
    let r1 := ensureTeam ratings a
    let r2 := ensureTeam r1 b
    let rA : ℤ := (List.lookup a r2).getD 1500
    let rB : ℤ := (List.lookup b r2).getD 1500
    let expected_a := calculate_expected_score (rA : ℝ) (rB : ℝ)
    let expected_b := calculate_expected_score (rB : ℝ) (rA : ℝ)
    let actual_a : ℝ := if m.winner = some a then 1 else 0
    let actual_b : ℝ := if m.winner = some b then 1 else 0
    let adjusted_k := 32 * calculate_mov_multiplier m.score_a m.score_b
    let r3 := setRating r2 a (round ((rA : ℝ) + adjusted_k * (actual_a - expected_a)))
    setRating r3 b (round ((rB : ℝ) + adjusted_k * (actual_b - expected_b)))

/-- `generate_power_rankings` from `engine.py`, over an explicit fetched
match history: fold the Elo update chronologically, then sort descending by
rating (Python's `sorted` is stable, ties keep insertion order). -/
noncomputable def generate_power_rankings (history : List EloMatch) :
    List (String × ℤ) :=
  let ratings := history.foldl eloUpdateMatch []
  ratings.mergeSort fun x y => decide (y.2 ≤ x.2)

end ShuttleSquads

namespace ShuttleSquads

/-! ## Claim C2: margin-of-victory multiplier -/

/-- C2 (counterexample).  The claim asserts the multiplier is strictly
increasing in `|score_a - score_b|` over all non-negative score pairs, but a
score difference of 1 yields `ln 2 * 0.8 < 1`, strictly below the multiplier 1
returned for a difference of 0. -/
theorem c2_counterexample :
    |(1 : ℤ) - 0| > |(0 : ℤ) - 0| ∧
      calculate_mov_multiplier (some 1) (some 0) <
        calculate_mov_multiplier (some 0) (some 0) := by
  refine ⟨by decide, ?_⟩
  unfold calculate_mov_multiplier
  norm_num
  nlinarith [Real.log_two_lt_d9]

/-- C2 (amended).  `calculate_mov_multiplier` returns 1 when the score
difference is 0, and is strictly increasing in `|score_a - score_b|` over
score pairs whose absolute difference is at least 1; strictness fails only
across the 0-to-1 difference boundary exhibited by the counterexample. -/
theorem c2_amended :
    (∀ score_a score_b : Option ℤ, score_a.getD 0 = score_b.getD 0 →
      calculate_mov_multiplier score_a score_b = 1) ∧
    (∀ sa sb ta tb : Option ℤ,
      1 ≤ |sa.getD 0 - sb.getD 0| →
      |sa.getD 0 - sb.getD 0| < |ta.getD 0 - tb.getD 0| →
      calculate_mov_multiplier sa sb < calculate_mov_multiplier ta tb) := by
  constructor
  · intro sa sb h
    unfold calculate_mov_multiplier
    rw [h]
    simp
  · intro sa sb ta tb h1 h2
    unfold calculate_mov_multiplier
    set d1 := |sa.getD 0 - sb.getD 0| with hd1
    set d2 := |ta.getD 0 - tb.getD 0| with hd2
    rw [if_pos (by omega), if_pos (by omega)]
    have hlog : Real.log ((d1 : ℝ) + 1) < Real.log ((d2 : ℝ) + 1) := by
      apply Real.log_lt_log
      · have : (1 : ℝ) ≤ (d1 : ℝ) := by exact_mod_cast h1
        linarith
      · have : (d1 : ℝ) < (d2 : ℝ) := by exact_mod_cast h2
        linarith
    nlinarith [hlog]

/-- C2 (witness for the amended theorem): instantiates both conjuncts at
concrete scores. -/
theorem c2_amended_witness :
    calculate_mov_multiplier (some 3) (some 3) = 1 ∧
      calculate_mov_multiplier (some 2) (some 0) <
        calculate_mov_multiplier (some 21) (some 10) :=
  ⟨c2_amended.1 (some 3) (some 3) (by decide),
   c2_amended.2 (some 2) (some 0) (some 21) (some 10) (by decide) (by decide)⟩

end ShuttleSquads

namespace ShuttleSquads

/-! ## Embedding of `monte_carlo.py` -/

/-- One entry of the ranked team list fed to the simulator. -/
structure SimTeam where
  team : String
  power_rating : ℝ

/-- `get_win_prob` from `monte_carlo.py`: standard logistic curve. -/
noncomputable def get_win_prob (rating_a rating_b : ℝ) : ℝ :=
  1 / (1 + (10 : ℝ) ^ ((rating_b - rating_a) / 400))

/-- Per-team tally record of the `results` tracking dictionary. -/
structure SimStats where
  power_rating : ℝ
  semis : ℕ
  finals : ℕ
  championships : ℕ

/-- One binding step of the `results` dict comprehension: a repeated name
overwrites the value but keeps the first occurrence's position (CPython dict
semantics); a fresh name is appended. -/
def initStep (acc : List (String × SimStats)) (t : SimTeam) : List (String × SimStats) :=
  if (List.lookup t.team acc).isSome then
    acc.map fun p =>
      if p.1 = t.team then (t.team, ⟨t.power_rating, 0, 0, 0⟩) else p
  else acc ++ [(t.team, ⟨t.power_rating, 0, 0, 0⟩)]

/-- The `results` dict comprehension: one entry per bracket team, keyed by
team name, initialised to zero tallies. -/
def initResults (bracket : List SimTeam) : List (String × SimStats) :=
  bracket.foldl initStep []

/-- Increment the semi-final tally when the guard holds. -/
def semisBump (c : Prop) [Decidable c] (v : SimStats) : SimStats :=
  if c then { v with semis := v.semis + 1 } else v

/-- Increment the final tally when the guard holds. -/
def finalsBump (c : Prop) [Decidable c] (v : SimStats) : SimStats :=
  if c then { v with finals := v.finals + 1 } else v

/-- Increment the championship tally when the guard holds. -/
def champsBump (c : Prop) [Decidable c] (v : SimStats) : SimStats :=
  if c then { v with championships := v.championships + 1 } else v

/-- `results[name]['semis'] += 1`. -/
def bumpSemis (res : List (String × SimStats)) (k : String) : List (String × SimStats) :=
  res.map fun p => (p.1, semisBump (p.1 = k) p.2)

/-- `results[name]['finals'] += 1`. -/
def bumpFinals (res : List (String × SimStats)) (k : String) : List (String × SimStats) :=
  res.map fun p => (p.1, finalsBump (p.1 = k) p.2)

/-- `results[name]['championships'] += 1`. -/
def bumpChamps (res : List (String × SimStats)) (k : String) : List (String × SimStats) :=
  res.map fun p => (p.1, champsBump (p.1 = k) p.2)

/-- The weighted random roll `x if random.random() < get_win_prob(...) else y`. -/
noncomputable def pickWinner (r : ℝ) (x y : SimTeam) : SimTeam :=
  if r < get_win_prob x.power_rating y.power_rating then x else y

/-- One iteration of the simulation loop; `base` is the position in the random
stream of this iteration's first draw (seven draws are consumed, in the order
the source makes them: four quarter-finals, two semi-finals, one final). -/
noncomputable def simIteration (bracket : List SimTeam) (rand : ℕ → ℝ) (base : ℕ)
    (res : List (String × SimStats)) : List (String × SimStats) :=
  let t := fun i => bracket.getD i ⟨"", 0⟩
  let sf1 := pickWinner (rand base) (t 0) (t 7)
  let sf2 := pickWinner (rand (base + 1)) (t 3) (t 4)
  let sf3 := pickWinner (rand (base + 2)) (t 1) (t 6)
  let sf4 := pickWinner (rand (base + 3)) (t 2) (t 5)
  let res1 := bumpSemis (bumpSemis (bumpSemis (bumpSemis res sf1.team) sf2.team) sf3.team) sf4.team
  let f1 := pickWinner (rand (base + 4)) sf1 sf2
  let f2 := pickWinner (rand (base + 5)) sf3 sf4
  let res2 := bumpFinals (bumpFinals res1 f1.team) f2.team
  let champ := pickWinner (rand (base + 6)) f1 f2
  bumpChamps res2 champ.team

/-- The `for _ in range(iterations)` loop: iteration `n` consumes random draws
`7n .. 7n+6`. -/
noncomputable def runIterations (bracket : List SimTeam) (rand : ℕ → ℝ) :
    ℕ → List (String × SimStats)
  | 0 => initResults bracket
  | n + 1 => simIteration bracket rand (7 * n) (runIterations bracket rand n)

/-- One entry of the final telemetry report. -/
structure ForecastEntry where
  team : String
  power_rating : ℝ
  make_semis : ℝ
  make_finals : ℝ
  win_championship : ℝ

/-- Python `round(x, 1)`. -/
noncomputable def round1dp (x : ℝ) : ℝ := ((round (x * 10) : ℤ) : ℝ) / 10

/-- The percentage-formatting loop over the `results` dict. -/
noncomputable def formatForecast (results : List (String × SimStats)) (iterations : ℕ) :
    List ForecastEntry :=
  results.map fun p =>
    { team := p.1
      power_rating := p.2.power_rating
      make_semis := round1dp ((p.2.semis : ℝ) / (iterations : ℝ) * 100)
      make_finals := round1dp ((p.2.finals : ℝ) / (iterations : ℝ) * 100)
      win_championship := round1dp ((p.2.championships : ℝ) / (iterations : ℝ) * 100) }

/-- `run_tournament_simulation` from `monte_carlo.py`.  The `raise ValueError`
becomes `Except.error`; the final report is sorted descending by championship
percentage (stable). -/
noncomputable def run_tournament_simulation (teams : List SimTeam) (iterations : ℕ)
    (rand : ℕ → ℝ) : Except String (List ForecastEntry) :=
  let bracket_teams := teams.take 8
  if bracket_teams.length < 8 then
    Except.error "Need at least 8 teams to run the Quarter-Finals Monte Carlo."
  else
    Except.ok ((formatForecast (runIterations bracket_teams rand iterations) iterations).mergeSort
      fun x y => decide (y.win_championship ≤ x.win_championship))

/-- Total semi-final tallies across the results dict. -/
def totalSemis (res : List (String × SimStats)) : ℕ := (res.map (·.2.semis)).sum

/-- Total final tallies across the results dict. -/
def totalFinals (res : List (String × SimStats)) : ℕ := (res.map (·.2.finals)).sum

/-- Total championship tallies across the results dict. -/
def totalChamps (res : List (String × SimStats)) : ℕ := (res.map (·.2.championships)).sum

end ShuttleSquads

namespace ShuttleSquads

/-! ## Association-list facts for the simulator's results dictionary -/

theorem lookup_isSome_iff {β : Type} (k : String) (l : List (String × β)) :
    (List.lookup k l).isSome ↔ k ∈ l.map Prod.fst := by
  induction l with
  | nil => simp [List.lookup]
  | cons p rest ih =>
    by_cases h : k = p.1
    · simp [List.lookup, h]
    · have hbeq : (k == p.1) = false := by simpa using h
      simp [List.lookup, hbeq, ih, h]

theorem getD_mem {α : Type} (l : List α) (i : ℕ) (d : α) (h : i < l.length) :
    l.getD i d ∈ l := by
  rw [List.getD_eq_getElem l d h]
  exact List.getElem_mem h

theorem keys_bumpSemis (res : List (String × SimStats)) (k : String) :
    (bumpSemis res k).map Prod.fst = res.map Prod.fst := by
  simp only [bumpSemis, List.map_map]
  apply List.map_congr_left
  intro p _
  by_cases h : p.1 = k <;> simp [semisBump, finalsBump, champsBump, h]

theorem keys_bumpFinals (res : List (String × SimStats)) (k : String) :
    (bumpFinals res k).map Prod.fst = res.map Prod.fst := by
  simp only [bumpFinals, List.map_map]
  apply List.map_congr_left
  intro p _
  by_cases h : p.1 = k <;> simp [semisBump, finalsBump, champsBump, h]

theorem keys_bumpChamps (res : List (String × SimStats)) (k : String) :
    (bumpChamps res k).map Prod.fst = res.map Prod.fst := by
  simp only [bumpChamps, List.map_map]
  apply List.map_congr_left
  intro p _
  by_cases h : p.1 = k <;> simp [semisBump, finalsBump, champsBump, h]

theorem totalSemis_bumpSemis (res : List (String × SimStats)) (k : String) :
    totalSemis (bumpSemis res k) = totalSemis res + (res.map Prod.fst).count k := by
  induction res with
  | nil => rfl
  | cons p rest ih =>
    by_cases h : p.1 = k <;>
      simp only [bumpSemis, totalSemis, List.map_cons, List.map_map, List.sum_cons,
        List.count_cons] at ih ⊢ <;>
      simp only [h, if_pos, if_neg, ite_true, ite_false] <;>
      simp_all [bumpSemis, semisBump, totalSemis, List.map_map] <;> omega

theorem totalFinals_bumpFinals (res : List (String × SimStats)) (k : String) :
    totalFinals (bumpFinals res k) = totalFinals res + (res.map Prod.fst).count k := by
  induction res with
  | nil => rfl
  | cons p rest ih =>
    by_cases h : p.1 = k <;>
      simp only [bumpFinals, totalFinals, List.map_cons, List.map_map, List.sum_cons,
        List.count_cons] at ih ⊢ <;>
      simp only [h, if_pos, if_neg, ite_true, ite_false] <;>
      simp_all [bumpFinals, finalsBump, totalFinals, List.map_map] <;> omega

theorem totalChamps_bumpChamps (res : List (String × SimStats)) (k : String) :
    totalChamps (bumpChamps res k) = totalChamps res + (res.map Prod.fst).count k := by
  induction res with
  | nil => rfl
  | cons p rest ih =>
    by_cases h : p.1 = k <;>
      simp only [bumpChamps, totalChamps, List.map_cons, List.map_map, List.sum_cons,
        List.count_cons] at ih ⊢ <;>
      simp only [h, if_pos, if_neg, ite_true, ite_false] <;>
      simp_all [bumpChamps, champsBump, totalChamps, List.map_map] <;> omega

theorem totalSemis_bumpFinals (res : List (String × SimStats)) (k : String) :
    totalSemis (bumpFinals res k) = totalSemis res := by
  simp only [totalSemis, bumpFinals, List.map_map]
  congr 1
  apply List.map_congr_left
  intro p _
  by_cases h : p.1 = k <;> simp [semisBump, finalsBump, champsBump, h]

theorem totalSemis_bumpChamps (res : List (String × SimStats)) (k : String) :
    totalSemis (bumpChamps res k) = totalSemis res := by
  simp only [totalSemis, bumpChamps, List.map_map]
  congr 1
  apply List.map_congr_left
  intro p _
  by_cases h : p.1 = k <;> simp [semisBump, finalsBump, champsBump, h]

theorem totalFinals_bumpSemis (res : List (String × SimStats)) (k : String) :
    totalFinals (bumpSemis res k) = totalFinals res := by
  simp only [totalFinals, bumpSemis, List.map_map]
  congr 1
  apply List.map_congr_left
  intro p _
  by_cases h : p.1 = k <;> simp [semisBump, finalsBump, champsBump, h]

theorem totalFinals_bumpChamps (res : List (String × SimStats)) (k : String) :
    totalFinals (bumpChamps res k) = totalFinals res := by
  simp only [totalFinals, bumpChamps, List.map_map]
  congr 1
  apply List.map_congr_left
  intro p _
  by_cases h : p.1 = k <;> simp [semisBump, finalsBump, champsBump, h]

theorem totalChamps_bumpSemis (res : List (String × SimStats)) (k : String) :
    totalChamps (bumpSemis res k) = totalChamps res := by
  simp only [totalChamps, bumpSemis, List.map_map]
  congr 1
  apply List.map_congr_left
  intro p _
  by_cases h : p.1 = k <;> simp [semisBump, finalsBump, champsBump, h]

theorem totalChamps_bumpFinals (res : List (String × SimStats)) (k : String) :
    totalChamps (bumpFinals res k) = totalChamps res := by
  simp only [totalChamps, bumpFinals, List.map_map]
  congr 1
  apply List.map_congr_left
  intro p _
  by_cases h : p.1 = k <;> simp [semisBump, finalsBump, champsBump, h]

theorem pickWinner_or (r : ℝ) (x y : SimTeam) :
    pickWinner r x y = x ∨ pickWinner r x y = y := by
  unfold pickWinner
  split <;> simp

end ShuttleSquads

namespace ShuttleSquads

/-! ## Claim C7: insufficient-teams failure and top-8 truncation -/

/-- C7.  `run_tournament_simulation` fails (with the descriptive error string,
and by the `Except` return type with no partial result) exactly when fewer
than 8 teams are supplied, and its result depends only on the first 8 entries
of the input sequence. -/
theorem c7_insufficient_teams (teams : List SimTeam) (iterations : ℕ) (rand : ℕ → ℝ) :
    ((∃ e, run_tournament_simulation teams iterations rand = Except.error e) ↔
      teams.length < 8) ∧
    (∀ teams' : List SimTeam, teams.take 8 = teams'.take 8 →
      run_tournament_simulation teams iterations rand =
        run_tournament_simulation teams' iterations rand) := by
  constructor
  · unfold run_tournament_simulation
    by_cases h : (teams.take 8).length < 8
    · rw [if_pos h]
      simp only [List.length_take] at h
      exact ⟨fun _ => by omega, fun _ => ⟨_, rfl⟩⟩
    · rw [if_neg h]
      simp only [List.length_take] at h
      constructor
      · rintro ⟨e, he⟩
        exact absurd he (by simp)
      · intro hlen
        omega
  · intro teams' hT
    unfold run_tournament_simulation
    rw [hT]

/-- C7 (witness): the simulator's output at a concrete 9-team input equals its
output on the same input truncated to 8 teams. -/
theorem c7_witness :
    run_tournament_simulation
        [⟨"t1", 1600⟩, ⟨"t2", 1590⟩, ⟨"t3", 1580⟩, ⟨"t4", 1570⟩,
         ⟨"t5", 1560⟩, ⟨"t6", 1550⟩, ⟨"t7", 1540⟩, ⟨"t8", 1530⟩] 10 (fun _ => 1 / 2) =
      run_tournament_simulation
        [⟨"t1", 1600⟩, ⟨"t2", 1590⟩, ⟨"t3", 1580⟩, ⟨"t4", 1570⟩,
         ⟨"t5", 1560⟩, ⟨"t6", 1550⟩, ⟨"t7", 1540⟩, ⟨"t8", 1530⟩, ⟨"t9", 1520⟩] 10
        (fun _ => 1 / 2) :=
  (c7_insufficient_teams _ 10 (fun _ => 1 / 2)).2 _ rfl

end ShuttleSquads

namespace ShuttleSquads

/-! ## Tally-conservation lemmas for the simulator -/

theorem keys_initStep (acc : List (String × SimStats)) (t : SimTeam) :
    (initStep acc t).map Prod.fst =
      if (List.lookup t.team acc).isSome then acc.map Prod.fst
      else acc.map Prod.fst ++ [t.team] := by
  unfold initStep
  split
  · simp only [List.map_map]
    apply List.map_congr_left
    intro p _
    by_cases h : p.1 = t.team <;> simp [h]
  · simp

theorem zeros_initStep (acc : List (String × SimStats)) (t : SimTeam)
    (h : ∀ p ∈ acc, p.2.semis = 0 ∧ p.2.finals = 0 ∧ p.2.championships = 0) :
    ∀ p ∈ initStep acc t, p.2.semis = 0 ∧ p.2.finals = 0 ∧ p.2.championships = 0 := by
  unfold initStep
  split
  · intro p hp
    obtain ⟨q, hq, rfl⟩ := List.mem_map.mp hp
    by_cases hk : q.1 = t.team
    · simp [hk]
    · simpa [hk] using h q hq
  · intro p hp
    rcases List.mem_append.mp hp with hp | hp
    · exact h p hp
    · simp only [List.mem_singleton] at hp
      simp [hp]

theorem initFold_spec (l : List SimTeam) : ∀ acc : List (String × SimStats),
    (acc.map Prod.fst).Nodup →
    (∀ p ∈ acc, p.2.semis = 0 ∧ p.2.finals = 0 ∧ p.2.championships = 0) →
    ((l.foldl initStep acc).map Prod.fst).Nodup ∧
    (∀ k ∈ acc.map Prod.fst, k ∈ (l.foldl initStep acc).map Prod.fst) ∧
    (∀ t ∈ l, t.team ∈ (l.foldl initStep acc).map Prod.fst) ∧
    (∀ p ∈ l.foldl initStep acc, p.2.semis = 0 ∧ p.2.finals = 0 ∧ p.2.championships = 0) := by
  induction l with
  | nil => intro acc h1 h2; exact ⟨h1, fun k hk => hk, by simp, h2⟩
  | cons t rest ih =>
    intro acc h1 h2
    have hstepkeys := keys_initStep acc t
    have hstepnodup : ((initStep acc t).map Prod.fst).Nodup := by
      rw [hstepkeys]
      split
      · exact h1
      · rename_i habs
        have : t.team ∉ acc.map Prod.fst := by
          rw [← lookup_isSome_iff]
          simpa using habs
        simp [List.nodup_append, h1, this]
    have hstepzeros := zeros_initStep acc t h2
    obtain ⟨ih1, ih2, ih3, ih4⟩ := ih (initStep acc t) hstepnodup hstepzeros
    have hsub : ∀ k ∈ acc.map Prod.fst, k ∈ (initStep acc t).map Prod.fst := by
      intro k hk
      rw [hstepkeys]
      split <;> simp [hk]
    have htmem : t.team ∈ (initStep acc t).map Prod.fst := by
      rw [hstepkeys]
      by_cases hp : (List.lookup t.team acc).isSome
      · rw [if_pos hp]
        rw [← lookup_isSome_iff]
        exact hp
      · rw [if_neg hp]
        simp
    refine ⟨ih1, ?_, ?_, ih4⟩
    · intro k hk
      exact ih2 k (hsub k hk)
    · intro u hu
      rcases List.mem_cons.mp hu with rfl | hu
      · exact ih2 _ htmem
      · exact ih3 u hu

theorem initResults_spec (bracket : List SimTeam) :
    ((initResults bracket).map Prod.fst).Nodup ∧
    (∀ t ∈ bracket, t.team ∈ (initResults bracket).map Prod.fst) ∧
    (∀ p ∈ initResults bracket, p.2.semis = 0 ∧ p.2.finals = 0 ∧ p.2.championships = 0) := by
  obtain ⟨h1, _, h3, h4⟩ := initFold_spec bracket [] (by simp) (by simp)
  exact ⟨h1, h3, h4⟩

theorem totalSemis_bumpSemis_one (res : List (String × SimStats)) (k : String)
    (hnodup : (res.map Prod.fst).Nodup) (hk : k ∈ res.map Prod.fst) :
    totalSemis (bumpSemis res k) = totalSemis res + 1 := by
  rw [totalSemis_bumpSemis, List.count_eq_one_of_mem hnodup hk]

theorem totalFinals_bumpFinals_one (res : List (String × SimStats)) (k : String)
    (hnodup : (res.map Prod.fst).Nodup) (hk : k ∈ res.map Prod.fst) :
    totalFinals (bumpFinals res k) = totalFinals res + 1 := by
  rw [totalFinals_bumpFinals, List.count_eq_one_of_mem hnodup hk]

theorem totalChamps_bumpChamps_one (res : List (String × SimStats)) (k : String)
    (hnodup : (res.map Prod.fst).Nodup) (hk : k ∈ res.map Prod.fst) :
    totalChamps (bumpChamps res k) = totalChamps res + 1 := by
  rw [totalChamps_bumpChamps, List.count_eq_one_of_mem hnodup hk]

theorem bumpChain_spec (res : List (String × SimStats)) (k1 k2 k3 k4 k5 k6 k7 : String)
    (hnodup : (res.map Prod.fst).Nodup)
    (m1 : k1 ∈ res.map Prod.fst) (m2 : k2 ∈ res.map Prod.fst) (m3 : k3 ∈ res.map Prod.fst)
    (m4 : k4 ∈ res.map Prod.fst) (m5 : k5 ∈ res.map Prod.fst) (m6 : k6 ∈ res.map Prod.fst)
    (m7 : k7 ∈ res.map Prod.fst) :
    ((bumpChamps (bumpFinals (bumpFinals (bumpSemis (bumpSemis (bumpSemis (bumpSemis res k1)
        k2) k3) k4) k5) k6) k7).map Prod.fst = res.map Prod.fst) ∧
    totalSemis (bumpChamps (bumpFinals (bumpFinals (bumpSemis (bumpSemis (bumpSemis
        (bumpSemis res k1) k2) k3) k4) k5) k6) k7) = totalSemis res + 4 ∧
    totalFinals (bumpChamps (bumpFinals (bumpFinals (bumpSemis (bumpSemis (bumpSemis
        (bumpSemis res k1) k2) k3) k4) k5) k6) k7) = totalFinals res + 2 ∧
    totalChamps (bumpChamps (bumpFinals (bumpFinals (bumpSemis (bumpSemis (bumpSemis
        (bumpSemis res k1) k2) k3) k4) k5) k6) k7) = totalChamps res + 1 := by
  have e1 : (bumpSemis res k1).map Prod.fst = res.map Prod.fst := keys_bumpSemis res k1
  have e2 : (bumpSemis (bumpSemis res k1) k2).map Prod.fst = res.map Prod.fst := by
    rw [keys_bumpSemis, e1]
  have e3 : (bumpSemis (bumpSemis (bumpSemis res k1) k2) k3).map Prod.fst = res.map Prod.fst := by
    rw [keys_bumpSemis, e2]
  have e4 : (bumpSemis (bumpSemis (bumpSemis (bumpSemis res k1) k2) k3) k4).map Prod.fst =
      res.map Prod.fst := by
    rw [keys_bumpSemis, e3]
  have e5 : (bumpFinals (bumpSemis (bumpSemis (bumpSemis (bumpSemis res k1) k2) k3) k4)
      k5).map Prod.fst = res.map Prod.fst := by
    rw [keys_bumpFinals, e4]
  have e6 : (bumpFinals (bumpFinals (bumpSemis (bumpSemis (bumpSemis (bumpSemis res k1) k2)
      k3) k4) k5) k6).map Prod.fst = res.map Prod.fst := by
    rw [keys_bumpFinals, e5]
  have e7 : (bumpChamps (bumpFinals (bumpFinals (bumpSemis (bumpSemis (bumpSemis
      (bumpSemis res k1) k2) k3) k4) k5) k6) k7).map Prod.fst = res.map Prod.fst := by
    rw [keys_bumpChamps, e6]
  refine ⟨e7, ?_, ?_, ?_⟩
  · rw [totalSemis_bumpChamps, totalSemis_bumpFinals, totalSemis_bumpFinals,
      totalSemis_bumpSemis_one _ _ (by rw [e3]; exact hnodup) (by rw [e3]; exact m4),
      totalSemis_bumpSemis_one _ _ (by rw [e2]; exact hnodup) (by rw [e2]; exact m3),
      totalSemis_bumpSemis_one _ _ (by rw [e1]; exact hnodup) (by rw [e1]; exact m2),
      totalSemis_bumpSemis_one _ _ hnodup m1]
  · rw [totalFinals_bumpChamps,
      totalFinals_bumpFinals_one _ _ (by rw [e5]; exact hnodup) (by rw [e5]; exact m6),
      totalFinals_bumpFinals_one _ _ (by rw [e4]; exact hnodup) (by rw [e4]; exact m5),
      totalFinals_bumpSemis, totalFinals_bumpSemis, totalFinals_bumpSemis,
      totalFinals_bumpSemis]
  · rw [totalChamps_bumpChamps_one _ _ (by rw [e6]; exact hnodup) (by rw [e6]; exact m7),
      totalChamps_bumpFinals, totalChamps_bumpFinals, totalChamps_bumpSemis,
      totalChamps_bumpSemis, totalChamps_bumpSemis, totalChamps_bumpSemis]

theorem simIteration_spec (bracket : List SimTeam) (rand : ℕ → ℝ) (base : ℕ)
    (res : List (String × SimStats))
    (hnodup : (res.map Prod.fst).Nodup)
    (hmem : ∀ i : ℕ, i < 8 → (bracket.getD i ⟨"", 0⟩).team ∈ res.map Prod.fst) :
    (simIteration bracket rand base res).map Prod.fst = res.map Prod.fst ∧
    totalSemis (simIteration bracket rand base res) = totalSemis res + 4 ∧
    totalFinals (simIteration bracket rand base res) = totalFinals res + 2 ∧
    totalChamps (simIteration bracket rand base res) = totalChamps res + 1 := by
  have hpick : ∀ (x y : SimTeam), x.team ∈ res.map Prod.fst → y.team ∈ res.map Prod.fst →
      ∀ r : ℝ, (pickWinner r x y).team ∈ res.map Prod.fst := by
    intro x y hx hy r
    rcases pickWinner_or r x y with h | h <;> rw [h] <;> assumption
  have h0 := hmem 0 (by norm_num)
  have h1 := hmem 1 (by norm_num)
  have h2 := hmem 2 (by norm_num)
  have h3 := hmem 3 (by norm_num)
  have h4 := hmem 4 (by norm_num)
  have h5 := hmem 5 (by norm_num)
  have h6 := hmem 6 (by norm_num)
  have h7 := hmem 7 (by norm_num)
  have m1 := hpick _ _ h0 h7 (rand base)
  have m2 := hpick _ _ h3 h4 (rand (base + 1))
  have m3 := hpick _ _ h1 h6 (rand (base + 2))
  have m4 := hpick _ _ h2 h5 (rand (base + 3))
  have m5 := hpick _ _ m1 m2 (rand (base + 4))
  have m6 := hpick _ _ m3 m4 (rand (base + 5))
  have m7 := hpick _ _ m5 m6 (rand (base + 6))
  simp only [simIteration]
  exact bumpChain_spec res _ _ _ _ _ _ _ hnodup m1 m2 m3 m4 m5 m6 m7

end ShuttleSquads

namespace ShuttleSquads

theorem runIterations_spec (bracket : List SimTeam) (rand : ℕ → ℝ)
    (hmem0 : ∀ i : ℕ, i < 8 →
      (bracket.getD i ⟨"", 0⟩).team ∈ (initResults bracket).map Prod.fst) :
    ∀ n : ℕ,
      (runIterations bracket rand n).map Prod.fst = (initResults bracket).map Prod.fst ∧
      totalSemis (runIterations bracket rand n) = 4 * n ∧
      totalFinals (runIterations bracket rand n) = 2 * n ∧
      totalChamps (runIterations bracket rand n) = n := by
  intro n
  induction n with
  | zero =>
    obtain ⟨-, -, hz⟩ := initResults_spec bracket
    refine ⟨rfl, ?_, ?_, ?_⟩
    · simp only [runIterations, Nat.mul_zero, totalSemis]
      apply List.sum_eq_zero
      intro x hx
      obtain ⟨p, hp, rfl⟩ := List.mem_map.mp hx
      exact (hz p hp).1
    · simp only [runIterations, Nat.mul_zero, totalFinals]
      apply List.sum_eq_zero
      intro x hx
      obtain ⟨p, hp, rfl⟩ := List.mem_map.mp hx
      exact (hz p hp).2.1
    · simp only [runIterations, totalChamps]
      apply List.sum_eq_zero
      intro x hx
      obtain ⟨p, hp, rfl⟩ := List.mem_map.mp hx
      exact (hz p hp).2.2
  | succ n ih =>
    obtain ⟨ihk, ihs, ihf, ihc⟩ := ih
    have hnodup : ((runIterations bracket rand n).map Prod.fst).Nodup := by
      rw [ihk]
      exact (initResults_spec bracket).1
    have hmem : ∀ i : ℕ, i < 8 →
        (bracket.getD i ⟨"", 0⟩).team ∈ (runIterations bracket rand n).map Prod.fst := by
      intro i hi
      rw [ihk]
      exact hmem0 i hi
    obtain ⟨sk, ss, sf, sc⟩ :=
      simIteration_spec bracket rand (7 * n) (runIterations bracket rand n) hnodup hmem
    refine ⟨?_, ?_, ?_, ?_⟩
    · simp only [runIterations]
      rw [sk, ihk]
    · simp only [runIterations]
      rw [ss, ihs]
      ring
    · simp only [runIterations]
      rw [sf, ihf]
      ring
    · simp only [runIterations]
      rw [sc, ihc]

theorem sum_map_natCast (l : List (String × SimStats)) (f : String × SimStats → ℕ) :
    (l.map fun p => ((f p : ℕ) : ℝ)).sum = (((l.map f).sum : ℕ) : ℝ) := by
  induction l with
  | nil => simp
  | cons p rest ih => simp [ih]

theorem sum_map_mul_const {α : Type} (l : List α) (f : α → ℝ) (r : ℝ) :
    (l.map fun x => f x * r).sum = (l.map f).sum * r := by
  induction l with
  | nil => simp
  | cons a t ih => simp [ih, add_mul]

end ShuttleSquads

namespace ShuttleSquads

/-! ## Claim C8: per-iteration tallies and conservation of championships -/

/-- C8.  With at least 8 teams, each simulation iteration adds exactly 4
semi-final, 2 final and 1 championship tallies to the results dictionary;
hence after `iterations ≥ 1` iterations the championship tallies sum to
`iterations` and the unrounded `win_championship` percentages
(`championships / iterations * 100`) sum to exactly 100. -/
theorem c8_championship_conservation (teams : List SimTeam) (iterations : ℕ)
    (rand : ℕ → ℝ) (hlen : 8 ≤ teams.length) (hit : 1 ≤ iterations) :
    (∀ n : ℕ,
      totalSemis (runIterations (teams.take 8) rand (n + 1)) =
        totalSemis (runIterations (teams.take 8) rand n) + 4 ∧
      totalFinals (runIterations (teams.take 8) rand (n + 1)) =
        totalFinals (runIterations (teams.take 8) rand n) + 2 ∧
      totalChamps (runIterations (teams.take 8) rand (n + 1)) =
        totalChamps (runIterations (teams.take 8) rand n) + 1) ∧
    totalChamps (runIterations (teams.take 8) rand iterations) = iterations ∧
    ((runIterations (teams.take 8) rand iterations).map
      (fun p => (p.2.championships : ℝ) / (iterations : ℝ) * 100)).sum = 100 ∧
    run_tournament_simulation teams iterations rand =
      Except.ok ((formatForecast (runIterations (teams.take 8) rand iterations)
        iterations).mergeSort fun x y => decide (y.win_championship ≤ x.win_championship)) := by
  have hblen : (teams.take 8).length = 8 := by
    rw [List.length_take]
    omega
  have hmem0 : ∀ i : ℕ, i < 8 →
      ((teams.take 8).getD i ⟨"", 0⟩).team ∈ (initResults (teams.take 8)).map Prod.fst := by
    intro i hi
    exact (initResults_spec (teams.take 8)).2.1 _ (getD_mem _ _ _ (by omega))
  have hspec := runIterations_spec (teams.take 8) rand hmem0
  refine ⟨?_, ?_, ?_, ?_⟩
  · intro n
    obtain ⟨-, hs, hf, hc⟩ := hspec n
    obtain ⟨-, hs1, hf1, hc1⟩ := hspec (n + 1)
    refine ⟨?_, ?_, ?_⟩ <;> omega
  · exact (hspec iterations).2.2.2
  · have htotal : totalChamps (runIterations (teams.take 8) rand iterations) = iterations :=
      (hspec iterations).2.2.2
    have hne : ((iterations : ℕ) : ℝ) ≠ 0 := by
      have : (1 : ℝ) ≤ ((iterations : ℕ) : ℝ) := by exact_mod_cast hit
      linarith
    have hmapeq : (runIterations (teams.take 8) rand iterations).map
        (fun p => (p.2.championships : ℝ) / (iterations : ℝ) * 100) =
      (runIterations (teams.take 8) rand iterations).map
        (fun p => (p.2.championships : ℝ) * (100 / (iterations : ℝ))) := by
      apply List.map_congr_left
      intro p _
      field_simp
    rw [hmapeq, sum_map_mul_const, sum_map_natCast]
    show ((totalChamps (runIterations (teams.take 8) rand iterations) : ℕ) : ℝ) *
      (100 / (iterations : ℝ)) = 100
    rw [htotal]
    field_simp
  · unfold run_tournament_simulation
    rw [if_neg (by omega)]

/-- C8 (witness): at a concrete 8-team input with one iteration, the
championship tallies sum to 1. -/
theorem c8_witness :
    totalChamps (runIterations
      (([⟨"t1", 1600⟩, ⟨"t2", 1590⟩, ⟨"t3", 1580⟩, ⟨"t4", 1570⟩,
         ⟨"t5", 1560⟩, ⟨"t6", 1550⟩, ⟨"t7", 1540⟩, ⟨"t8", 1530⟩] : List SimTeam).take 8)
      (fun _ => 1 / 2) 1) = 1 :=
  (c8_championship_conservation
    [⟨"t1", 1600⟩, ⟨"t2", 1590⟩, ⟨"t3", 1580⟩, ⟨"t4", 1570⟩,
     ⟨"t5", 1560⟩, ⟨"t6", 1550⟩, ⟨"t7", 1540⟩, ⟨"t8", 1530⟩] 1 (fun _ => 1 / 2)
    (by simp) (le_refl 1)).2.1

end ShuttleSquads

namespace ShuttleSquads

/-! ## Claim C10: stage monotonicity of the forecast -/

/-- Every entry's tallies respect the stage order semis ≥ finals ≥ championships. -/
def statsMono (res : List (String × SimStats)) : Prop :=
  ∀ p ∈ res, p.2.finals ≤ p.2.semis ∧ p.2.championships ≤ p.2.finals

theorem statsMono_init (bracket : List SimTeam) : statsMono (initResults bracket) := by
  intro p hp
  obtain ⟨-, -, hz⟩ := initResults_spec bracket
  obtain ⟨h1, h2, h3⟩ := hz p hp
  omega

theorem semisBump_semis (c : Prop) [Decidable c] (v : SimStats) :
    (semisBump c v).semis = v.semis + (if c then 1 else 0) := by
  unfold semisBump
  split <;> simp

theorem semisBump_finals (c : Prop) [Decidable c] (v : SimStats) :
    (semisBump c v).finals = v.finals := by
  unfold semisBump
  split <;> simp

theorem semisBump_champs (c : Prop) [Decidable c] (v : SimStats) :
    (semisBump c v).championships = v.championships := by
  unfold semisBump
  split <;> simp

theorem finalsBump_finals (c : Prop) [Decidable c] (v : SimStats) :
    (finalsBump c v).finals = v.finals + (if c then 1 else 0) := by
  unfold finalsBump
  split <;> simp

theorem finalsBump_semis (c : Prop) [Decidable c] (v : SimStats) :
    (finalsBump c v).semis = v.semis := by
  unfold finalsBump
  split <;> simp

theorem finalsBump_champs (c : Prop) [Decidable c] (v : SimStats) :
    (finalsBump c v).championships = v.championships := by
  unfold finalsBump
  split <;> simp

theorem champsBump_champs (c : Prop) [Decidable c] (v : SimStats) :
    (champsBump c v).championships = v.championships + (if c then 1 else 0) := by
  unfold champsBump
  split <;> simp

theorem champsBump_semis (c : Prop) [Decidable c] (v : SimStats) :
    (champsBump c v).semis = v.semis := by
  unfold champsBump
  split <;> simp

theorem champsBump_finals (c : Prop) [Decidable c] (v : SimStats) :
    (champsBump c v).finals = v.finals := by
  unfold champsBump
  split <;> simp

set_option maxHeartbeats 1000000 in
theorem statsMono_simIteration (bracket : List SimTeam) (rand : ℕ → ℝ) (base : ℕ)
    (res : List (String × SimStats)) (h : statsMono res) :
    statsMono (simIteration bracket rand base res) := by
  intro p' hp'
  simp only [simIteration, bumpSemis, bumpFinals, bumpChamps, List.map_map,
    Function.comp, List.mem_map] at hp'
  obtain ⟨p, hp, rfl⟩ := hp'
  obtain ⟨hfs, hcf⟩ := h p hp
  set sf1 := pickWinner (rand base) (bracket.getD 0 ⟨"", 0⟩) (bracket.getD 7 ⟨"", 0⟩) with hsf1
  set sf2 := pickWinner (rand (base + 1)) (bracket.getD 3 ⟨"", 0⟩) (bracket.getD 4 ⟨"", 0⟩)
    with hsf2
  set sf3 := pickWinner (rand (base + 2)) (bracket.getD 1 ⟨"", 0⟩) (bracket.getD 6 ⟨"", 0⟩)
    with hsf3
  set sf4 := pickWinner (rand (base + 3)) (bracket.getD 2 ⟨"", 0⟩) (bracket.getD 5 ⟨"", 0⟩)
    with hsf4
  set f1 := pickWinner (rand (base + 4)) sf1 sf2 with hf1d
  set f2 := pickWinner (rand (base + 5)) sf3 sf4 with hf2d
  set champ := pickWinner (rand (base + 6)) f1 f2 with hchd
  have b1 : (if p.1 = f1.team then (1 : ℕ) else 0) ≤
      (if p.1 = sf1.team then 1 else 0) + (if p.1 = sf2.team then 1 else 0) := by
    rcases pickWinner_or (rand (base + 4)) sf1 sf2 with hw | hw <;> rw [hf1d, hw] <;>
      split_ifs <;> omega
  have b2 : (if p.1 = f2.team then (1 : ℕ) else 0) ≤
      (if p.1 = sf3.team then 1 else 0) + (if p.1 = sf4.team then 1 else 0) := by
    rcases pickWinner_or (rand (base + 5)) sf3 sf4 with hw | hw <;> rw [hf2d, hw] <;>
      split_ifs <;> omega
  have b3 : (if p.1 = champ.team then (1 : ℕ) else 0) ≤
      (if p.1 = f1.team then 1 else 0) + (if p.1 = f2.team then 1 else 0) := by
    rcases pickWinner_or (rand (base + 6)) f1 f2 with hw | hw <;> rw [hchd, hw] <;>
      split_ifs <;> omega
  refine ⟨?_, ?_⟩ <;>
    simp only [semisBump_semis, semisBump_finals, semisBump_champs,
      finalsBump_finals, finalsBump_semis, finalsBump_champs,
      champsBump_champs, champsBump_semis, champsBump_finals] <;>
    omega

theorem statsMono_runIterations (bracket : List SimTeam) (rand : ℕ → ℝ) :
    ∀ n : ℕ, statsMono (runIterations bracket rand n) := by
  intro n
  induction n with
  | zero => exact statsMono_init bracket
  | succ n ih => exact statsMono_simIteration bracket rand (7 * n) _ ih

theorem round1dp_mono {x y : ℝ} (h : x ≤ y) : round1dp x ≤ round1dp y := by
  unfold round1dp
  have h1 : round (x * 10) ≤ round (y * 10) := by
    rw [round_eq, round_eq]
    exact Int.floor_le_floor (by linarith)
  have h2 : ((round (x * 10) : ℤ) : ℝ) ≤ ((round (y * 10) : ℤ) : ℝ) := by exact_mod_cast h1
  linarith

/-- C10.  Every forecast entry produced by `run_tournament_simulation`
satisfies `make_semis ≥ make_finals ≥ win_championship`: a team is never
tallied at a later stage of an iteration without being tallied at every
earlier one. -/
theorem c10_stage_monotonicity (teams : List SimTeam) (iterations : ℕ) (rand : ℕ → ℝ)
    (hlen : 8 ≤ teams.length) (hit : 1 ≤ iterations) :
    ∀ out : List ForecastEntry,
      run_tournament_simulation teams iterations rand = Except.ok out →
      ∀ e ∈ out, e.make_finals ≤ e.make_semis ∧ e.win_championship ≤ e.make_finals := by
  intro out hout e he
  unfold run_tournament_simulation at hout
  rw [if_neg (by rw [List.length_take]; omega)] at hout
  injection hout with hout'
  subst hout'
  have he' : e ∈ formatForecast (runIterations (teams.take 8) rand iterations) iterations :=
    (List.mergeSort_perm _ _).mem_iff.mp he
  obtain ⟨p, hp, rfl⟩ := List.mem_map.mp he'
  obtain ⟨hfs, hcf⟩ := statsMono_runIterations (teams.take 8) rand iterations p hp
  have hfs' : (p.2.finals : ℝ) ≤ (p.2.semis : ℝ) := by exact_mod_cast hfs
  have hcf' : (p.2.championships : ℝ) ≤ (p.2.finals : ℝ) := by exact_mod_cast hcf
  constructor
  · apply round1dp_mono
    gcongr
  · apply round1dp_mono
    gcongr

end ShuttleSquads

namespace ShuttleSquads

theorem pickWinner_const_two (x y : SimTeam) : pickWinner 2 x y = y := by
  unfold pickWinner get_win_prob
  rw [if_neg]
  have h10 : (0 : ℝ) < (10 : ℝ) ^ ((y.power_rating - x.power_rating) / 400) :=
    Real.rpow_pos_of_pos (by norm_num) _
  have hle : 1 / (1 + (10 : ℝ) ^ ((y.power_rating - x.power_rating) / 400)) ≤ 1 := by
    rw [div_le_one (by linarith)]
    linarith
  linarith

/-- C10 (witness): with a constant random draw of 2 every pick resolves to the
second team, the simulation is fully determined, and the forecast entry of the
idle top seed satisfies the stage-monotonicity inequalities. -/
theorem c10_witness :
    (⟨"t1", 1600, round1dp (0 / 1 * 100), round1dp (0 / 1 * 100),
        round1dp (0 / 1 * 100)⟩ : ForecastEntry).make_finals ≤
      (⟨"t1", 1600, round1dp (0 / 1 * 100), round1dp (0 / 1 * 100),
        round1dp (0 / 1 * 100)⟩ : ForecastEntry).make_semis ∧
    (⟨"t1", 1600, round1dp (0 / 1 * 100), round1dp (0 / 1 * 100),
        round1dp (0 / 1 * 100)⟩ : ForecastEntry).win_championship ≤
      (⟨"t1", 1600, round1dp (0 / 1 * 100), round1dp (0 / 1 * 100),
        round1dp (0 / 1 * 100)⟩ : ForecastEntry).make_finals := by
  apply c10_stage_monotonicity
    [⟨"t1", 1600⟩, ⟨"t2", 1590⟩, ⟨"t3", 1580⟩, ⟨"t4", 1570⟩,
     ⟨"t5", 1560⟩, ⟨"t6", 1550⟩, ⟨"t7", 1540⟩, ⟨"t8", 1530⟩] 1 (fun _ => 2)
    (by simp) le_rfl _ rfl
  rw [(List.mergeSort_perm _ _).mem_iff]
  have hrun : runIterations
      (([⟨"t1", 1600⟩, ⟨"t2", 1590⟩, ⟨"t3", 1580⟩, ⟨"t4", 1570⟩,
         ⟨"t5", 1560⟩, ⟨"t6", 1550⟩, ⟨"t7", 1540⟩, ⟨"t8", 1530⟩] : List SimTeam).take 8)
      (fun _ => 2) 1 =
      [("t1", ⟨1600, 0, 0, 0⟩), ("t2", ⟨1590, 0, 0, 0⟩), ("t3", ⟨1580, 0, 0, 0⟩),
       ("t4", ⟨1570, 0, 0, 0⟩), ("t5", ⟨1560, 1, 1, 0⟩), ("t6", ⟨1550, 1, 1, 1⟩),
       ("t7", ⟨1540, 1, 0, 0⟩), ("t8", ⟨1530, 1, 0, 0⟩)] := by
    simp [runIterations, simIteration, pickWinner_const_two, initResults, initStep,
      bumpSemis, bumpFinals, bumpChamps, semisBump, finalsBump, champsBump, List.lookup]
  rw [hrun]
  simp [formatForecast]

end ShuttleSquads

namespace ShuttleSquads

/-! ## Claim C1: which matches are skipped by the Elo pass -/

theorem keys_setRating (r : List (String × ℤ)) (t : String) (v : ℤ) :
    (setRating r t v).map Prod.fst = r.map Prod.fst := by
  simp only [setRating, List.map_map]
  apply List.map_congr_left
  intro p _
  by_cases h : p.1 = t <;> simp [h]

theorem mem_keys_ensureTeam_self (r : List (String × ℤ)) (t : String) :
    t ∈ (ensureTeam r t).map Prod.fst := by
  unfold ensureTeam
  by_cases h : (List.lookup t r).isSome
  · rw [if_pos h]
    rw [← lookup_isSome_iff]
    exact h
  · rw [if_neg h]
    simp

theorem mem_keys_ensureTeam_mono (r : List (String × ℤ)) (t k : String)
    (h : k ∈ r.map Prod.fst) : k ∈ (ensureTeam r t).map Prod.fst := by
  unfold ensureTeam
  split <;> simp [h]

/-- C1 (amended).  The Elo pass skips a match — leaving the ratings dict
untouched — exactly when a team is missing (Python-falsy), a team name
contains "TBD", or the winner is missing.  The scores are never consulted by
the guard (missing scores are coerced to 0) and the winner need not be one of
the two participants; any match passing the guard participates, initialising
both named teams in the ratings dict. -/
theorem c1_amended (ratings : List (String × ℤ)) (m : EloMatch) :
    ((strFalsy m.team_a || strFalsy m.team_b || containsTBD (m.team_a.getD "") ||
        containsTBD (m.team_b.getD "") || strFalsy m.winner) = true →
      eloUpdateMatch ratings m = ratings) ∧
    ((strFalsy m.team_a || strFalsy m.team_b || containsTBD (m.team_a.getD "") ||
        containsTBD (m.team_b.getD "") || strFalsy m.winner) = false →
      (m.team_a.getD "") ∈ (eloUpdateMatch ratings m).map Prod.fst ∧
      (m.team_b.getD "") ∈ (eloUpdateMatch ratings m).map Prod.fst) := by
  constructor
  · intro h
    unfold eloUpdateMatch
    rw [if_pos]
    exact h
  · intro h
    unfold eloUpdateMatch
    rw [if_neg (by rw [skipMatch, h]; exact Bool.false_ne_true)]
    rw [keys_setRating, keys_setRating]
    constructor
    · exact mem_keys_ensureTeam_mono _ _ _ (mem_keys_ensureTeam_self _ _)
    · exact mem_keys_ensureTeam_self _ _

/-- C1 (witness for the amended theorem): a match with a missing `team_a` is
skipped, and a match with both teams and a winner but missing scores is not. -/
theorem c1_amended_witness :
    eloUpdateMatch [] ⟨none, some "B", some 1, some 2, some "B"⟩ = [] ∧
    "A" ∈ (eloUpdateMatch [] ⟨some "A", some "B", none, none, some "A"⟩).map Prod.fst :=
  ⟨(c1_amended [] ⟨none, some "B", some 1, some 2, some "B"⟩).1 (by decide),
   ((c1_amended [] ⟨some "A", some "B", none, none, some "A"⟩).2 (by decide)).1⟩

end ShuttleSquads

namespace ShuttleSquads

/-- C1 (counterexample).  The claim lists "missing scores" among the skip
conditions and asserts a match participates only when its winner is one of the
two participants.  But a match with both scores missing (coerced to 0) and a
match whose winner is a third party both pass the guard and mutate the
ratings: the first moves a fresh pair 1500/1500 to 1516/1484, the second
(winner "C" not playing) demotes both teams to 1484. -/
theorem c1_counterexample :
    eloUpdateMatch [] ⟨some "A", some "B", none, none, some "A"⟩ =
      [("A", 1516), ("B", 1484)] ∧
    eloUpdateMatch [] ⟨some "A", some "B", some 5, some 5, some "C"⟩ =
      [("A", 1484), ("B", 1484)] := by
  have hexp : calculate_expected_score (1500 : ℝ) (1500 : ℝ) = 1 / 2 := by
    unfold calculate_expected_score
    have h0 : ((1500 : ℝ) - (1500 : ℝ)) / 400 = 0 := by norm_num
    rw [h0, Real.rpow_zero]
    norm_num
  constructor
  · unfold eloUpdateMatch
    rw [if_neg (by decide)]
    simp [List.lookup, ensureTeam, setRating, calculate_mov_multiplier, hexp]
    norm_num [round_eq]
  · unfold eloUpdateMatch
    rw [if_neg (by decide)]
    simp [List.lookup, ensureTeam, setRating, calculate_mov_multiplier, hexp]
    norm_num [round_eq]

end ShuttleSquads

namespace ShuttleSquads

/-! ## Embedding of the enrichment pass of `get_power_rankings` (`api.py`)

The endpoint fetches `team_ratings` rows (ordered by rating descending) and
the finished matches, both passed here as explicit lists.  Python floats
appearing here only undergo field arithmetic on integer scores, so they are
modelled as rationals. -/

/-- The per-team accumulator of the `team_stats` dictionary.  The `upsets`
counter is initialised by the source but never incremented nor reported. -/
structure TeamStats where
  scored : ℤ
  conceded : ℤ
  clutch_games : ℕ
  clutch_wins : ℕ
  upsets : ℕ

/-- One `team_ratings` row as read by the endpoint: `rating` is always
present, `volatility` is read with `r.get("volatility", 0.06)`. -/
structure RatingRow where
  team_name : String
  rating : ℚ
  volatility : Option ℚ

/-- Adding a missing `team_stats` key with zeroed counters. -/
def ensureStats (st : List (String × TeamStats)) (t : String) : List (String × TeamStats) :=
  if (List.lookup t st).isSome then st else st ++ [(t, ⟨0, 0, 0, 0, 0⟩)]

/-- In-place update of the stats stored under key `t`. -/
def addStats (st : List (String × TeamStats)) (t : String) (f : TeamStats → TeamStats) :
    List (String × TeamStats) :=
  st.map fun p => (p.1, if p.1 = t then f p.2 else p.2)

/-- The body of the `for m in matches` loop of `get_power_rankings`: skip when
a team is falsy or a score is `None`; otherwise accumulate dominance and
clutch statistics for both teams (the api rows carry the same fields the Elo
engine reads, so `EloMatch` is reused). -/
def apiMatchStep (st : List (String × TeamStats)) (m : EloMatch) :
    List (String × TeamStats) :=
  if strFalsy m.team_a || strFalsy m.team_b || m.score_a.isNone || m.score_b.isNone then st
  else
    let t1 := m.team_a.getD ""
    let t2 := m.team_b.getD ""
    let s1 := m.score_a.getD 0
    let s2 := m.score_b.getD 0
    let st1 := ensureStats (ensureStats st t1) t2
    let st2 := addStats st1 t1 fun v => { v with scored := v.scored + s1, conceded := v.conceded + s2 }
    let st3 := addStats st2 t2 fun v => { v with scored := v.scored + s2, conceded := v.conceded + s1 }
    if |s1 - s2| ≤ 3 then
      let st4 := addStats st3 t1 fun v => { v with clutch_games := v.clutch_games + 1 }
      let st5 := addStats st4 t2 fun v => { v with clutch_games := v.clutch_games + 1 }
      let st6 := if m.winner = some t1 then
        addStats st5 t1 fun v => { v with clutch_wins := v.clutch_wins + 1 } else st5
      if m.winner = some t2 then
        addStats st6 t2 fun v => { v with clutch_wins := v.clutch_wins + 1 } else st6
    else st3

/-- Python `round(x, 2)` on the exact rational value. -/
def round2q (q : ℚ) : ℚ := ((round (q * 100) : ℤ) : ℚ) / 100

/-- Python `round(x, 1)` on the exact rational value. -/
def round1q (q : ℚ) : ℚ := ((round (q * 10) : ℤ) : ℚ) / 10

/-- Python `round(x, 3)` on the exact rational value. -/
def round3q (q : ℚ) : ℚ := ((round (q * 1000) : ℤ) : ℚ) / 1000

/-- One row of the enriched payload returned by `/api/power-rankings`. -/
structure EnrichedEntry where
  team : String
  power_rating : ℤ
  volatility : ℚ
  dominance_quotient : ℚ
  clutch_win_rate : ℚ
  giant_killer : Bool

/-- The enrichment of one `team_ratings` row: missing `team_stats` entries
default to the `{"scored": 1, "conceded": 1, ...}` placeholder, the dominance
denominator is floored at 1, and the giant-killer flag is
`dq > 1.0 and round(rating) < 1550`. -/
def enrichRow (stats : List (String × TeamStats)) (r : RatingRow) : EnrichedEntry :=
  let st := (List.lookup r.team_name stats).getD ⟨1, 1, 0, 0, 0⟩
  let conceded := if 0 < st.conceded then st.conceded else 1
  let dq := round2q ((st.scored : ℚ) / (conceded : ℚ))
  { team := r.team_name
    power_rating := round r.rating
    volatility := round3q (r.volatility.getD (6 / 100))
    dominance_quotient := dq
    clutch_win_rate := if 0 < st.clutch_games then
        round1q (((st.clutch_wins : ℚ) / (st.clutch_games : ℚ)) * 100) else 0
    giant_killer := decide (1 < dq) && decide (round r.rating < 1550) }

/-- The enriched ranking payload of `get_power_rankings` over explicit fetched
rows. -/
def get_power_rankings_enriched (matches_rows : List EloMatch)
    (rating_rows : List RatingRow) : List EnrichedEntry :=
  rating_rows.map (enrichRow (matches_rows.foldl apiMatchStep []))

end ShuttleSquads

namespace ShuttleSquads

/-! ## Claim C9: giant-killer flag and cold-start defaults -/

theorem keys_addStats (st : List (String × TeamStats)) (t : String) (f : TeamStats → TeamStats) :
    (addStats st t f).map Prod.fst = st.map Prod.fst := by
  simp only [addStats, List.map_map]
  apply List.map_congr_left
  intro p _
  simp

theorem keys_ite_addStats (b : Prop) [Decidable b] (st : List (String × TeamStats))
    (t : String) (f : TeamStats → TeamStats) :
    ((if b then addStats st t f else st).map Prod.fst) = st.map Prod.fst := by
  split
  · exact keys_addStats st t f
  · rfl

theorem mem_keys_ensureStats (st : List (String × TeamStats)) (t k : String)
    (h : k ∈ (ensureStats st t).map Prod.fst) : k ∈ st.map Prod.fst ∨ k = t := by
  unfold ensureStats at h
  split at h
  · exact Or.inl h
  · simp only [List.map_append, List.mem_append, List.map_cons, List.map_nil,
      List.mem_singleton] at h
    exact h

theorem strFalsy_false_eq_some (o : Option String) (h : strFalsy o = false) :
    o = some (o.getD "") := by
  cases o with
  | none => simp [strFalsy] at h
  | some s => rfl

theorem mem_keys_apiMatchStep (st : List (String × TeamStats)) (m : EloMatch) (k : String)
    (h : k ∈ (apiMatchStep st m).map Prod.fst) :
    k ∈ st.map Prod.fst ∨ m.team_a = some k ∨ m.team_b = some k := by
  simp only [apiMatchStep] at h
  split at h
  · exact Or.inl h
  · rename_i hcond
    simp only [Bool.or_eq_true, not_or, Bool.not_eq_true] at hcond
    obtain ⟨⟨⟨hfa, hfb⟩, hsa⟩, hsb⟩ := hcond
    have hta := strFalsy_false_eq_some _ hfa
    have htb := strFalsy_false_eq_some _ hfb
    have hfin : k ∈ (ensureStats (ensureStats st (m.team_a.getD ""))
        (m.team_b.getD "")).map Prod.fst := by
      split at h
      · rw [keys_ite_addStats, keys_ite_addStats, keys_addStats, keys_addStats,
          keys_addStats, keys_addStats] at h
        exact h
      · rw [keys_addStats, keys_addStats] at h
        exact h
    rcases mem_keys_ensureStats _ _ _ hfin with h1 | h1
    · rcases mem_keys_ensureStats _ _ _ h1 with h2 | h2
      · exact Or.inl h2
      · exact Or.inr (Or.inl (h2 ▸ hta))
    · exact Or.inr (Or.inr (h1 ▸ htb))

theorem mem_keys_apiFold (rows : List EloMatch) :
    ∀ (st : List (String × TeamStats)) (k : String),
      k ∈ (rows.foldl apiMatchStep st).map Prod.fst →
      k ∈ st.map Prod.fst ∨ ∃ m ∈ rows, m.team_a = some k ∨ m.team_b = some k := by
  induction rows with
  | nil => simp
  | cons m rest ih =>
    intro st k h
    rcases ih (apiMatchStep st m) k h with h1 | h1
    · rcases mem_keys_apiMatchStep st m k h1 with h2 | h2
      · exact Or.inl h2
      · exact Or.inr ⟨m, by simp, h2⟩
    · obtain ⟨u, hu, hw⟩ := h1
      exact Or.inr ⟨u, by simp [hu], hw⟩

/-- C9.  A team's `giant_killer` flag is set exactly when its dominance
quotient exceeds 1.0 and its rounded rating is below 1550; a team that
appears in no processed finished match receives the `1/1` placeholder
(dominance quotient exactly 1), zero clutch rate, and hence a false
giant-killer flag regardless of rating. -/
theorem c9_giant_killer (matches_rows : List EloMatch) (rating_rows : List RatingRow) :
    get_power_rankings_enriched matches_rows rating_rows =
      rating_rows.map (enrichRow (matches_rows.foldl apiMatchStep [])) ∧
    (∀ r : RatingRow,
      ((enrichRow (matches_rows.foldl apiMatchStep []) r).giant_killer = true ↔
        (1 < (enrichRow (matches_rows.foldl apiMatchStep []) r).dominance_quotient ∧
          (enrichRow (matches_rows.foldl apiMatchStep []) r).power_rating < 1550))) ∧
    (∀ r : RatingRow,
      (∀ m ∈ matches_rows, m.team_a ≠ some r.team_name ∧ m.team_b ≠ some r.team_name) →
      (enrichRow (matches_rows.foldl apiMatchStep []) r).dominance_quotient = 1 ∧
      (enrichRow (matches_rows.foldl apiMatchStep []) r).clutch_win_rate = 0 ∧
      (enrichRow (matches_rows.foldl apiMatchStep []) r).giant_killer = false) := by
  refine ⟨rfl, ?_, ?_⟩
  · intro r
    simp only [enrichRow]
    simp [Bool.and_eq_true, decide_eq_true_iff]
  · intro r hr
    have hlk : List.lookup r.team_name (matches_rows.foldl apiMatchStep []) = none := by
      cases hx : List.lookup r.team_name (matches_rows.foldl apiMatchStep []) with
      | none => rfl
      | some v =>
        exfalso
        have hsome : (List.lookup r.team_name (matches_rows.foldl apiMatchStep [])).isSome := by
          rw [hx]
          rfl
        rw [lookup_isSome_iff] at hsome
        rcases mem_keys_apiFold matches_rows [] r.team_name hsome with h1 | ⟨m, hm, hw⟩
        · simp at h1
        · rcases hw with hw | hw
          · exact (hr m hm).1 hw
          · exact (hr m hm).2 hw
    simp only [enrichRow, hlk, Option.getD_none]
    norm_num [round2q, round_eq]

/-- C9 (witness): a rating row with no recorded matches gets dominance 1,
clutch rate 0 and a false giant-killer flag. -/
theorem c9_witness :
    (enrichRow (([] : List EloMatch).foldl apiMatchStep []) ⟨"X", 1500, none⟩).dominance_quotient = 1 ∧
    (enrichRow (([] : List EloMatch).foldl apiMatchStep []) ⟨"X", 1500, none⟩).clutch_win_rate = 0 ∧
    (enrichRow (([] : List EloMatch).foldl apiMatchStep []) ⟨"X", 1500, none⟩).giant_killer = false :=
  (c9_giant_killer [] []).2.2 ⟨"X", 1500, none⟩ (by simp)

end ShuttleSquads

namespace ShuttleSquads

/-! ## Embedding of `tournament_builder.py`

`TournamentGraphGenerator` is a stateless class: its constructor only stores
the configuration, so the methods are embedded as functions of the
configuration.  `str(uuid.uuid4())[:8]` — external randomness — is abstracted
as an injected id generator indexed by group and position.  Python dict
mutation of nodes held in lists (`feeding_match["next_match_id"] = ...`) is
modelled by functional updates (`modifyAt`) threaded through the
construction. -/

/-- A knockout/playoff bracket node (the dicts built by
`generate_knockout_graph`). -/
structure BNode where
  match_id : String
  stage : String
  round : String
  participant_a : String
  participant_b : String
  next_match_id : Option String
deriving DecidableEq, Inhabited

/-- The id scheme `f"R{round}-M{index}"`. -/
def mkId (r k : ℕ) : String := "R" ++ Nat.repr r ++ "-M" ++ Nat.repr k

/-- `node["next_match_id"] = mid`. -/
def setNextTo (mid : String) (n : BNode) : BNode := { n with next_match_id := some mid }

/-- In-place update of the node at one list position. -/
def modifyAt : List BNode → ℕ → (BNode → BNode) → List BNode
  | [], _, _ => []
  | x :: xs, 0, f => f x :: xs
  | x :: xs, Nat.succ i, f => x :: modifyAt xs i f

/-- The match id stored at a list position. -/
def nthId (l : List BNode) (i : ℕ) : String := (l.getD i default).match_id

/-- Doubling loop computing the least power of two that is at least `n`
reachable from `p` in at most `f` doublings. -/
def nextPow2Aux (n : ℕ) : ℕ → ℕ → ℕ
  | 0, p => p
  | Nat.succ f, p => if n ≤ p then p else nextPow2Aux n f (2 * p)

/-- `_get_next_power_of_2`: `2 ** ceil(log2(n))` is the least power of two
that is at least `n` (and 1 for `n = 0`); `n` doublings always suffice since
`n < 2 ^ n`. -/
def nextPow2 (n : ℕ) : ℕ := if n = 0 then 1 else nextPow2Aux n n 1

/-- Round 1 ("Wildcard"): pair the `cnt = round_1_teams // 2` highest
remaining seeds against the lowest (`playing_teams[i]` vs
`playing_teams[-(i+1)]`). -/
def round1Nodes (playing : List String) (cnt : ℕ) : List BNode :=
  (List.range cnt).map fun i =>
    { match_id := mkId 1 (i + 1)
      stage := "Knockouts"
      round := "Round 1 (Wildcard)"
      participant_a := playing.getD i ""
      participant_b := playing.getD (playing.length - 1 - i) ""
      next_match_id := none }

/-- The Round-2 construction loop (`for i in range(bracket_size // 4)`):
`team_b` is the winner of the Round-1 match taken from the back
(`round_1_matches[-(i+1)]`, "TBD" when exhausted), `team_a` is a bye seed
while they last, then the winner of the Round-1 match `i - len(bye_teams)`
from the front; the feeding matches' `next_match_id` are set to the new
node's id.  Returns the updated Round-1 list and the Round-2 list. -/
def round2Loop (byeTeams : List String) : List BNode → ℕ → ℕ → List BNode × List BNode
  | r1, _, 0 => (r1, [])
  | r1, i, Nat.succ c =>
    let mid := mkId 2 (i + 1)
    let team_b := if i < r1.length then "Winner of " ++ nthId r1 (r1.length - 1 - i) else "TBD"
    let pairA : String × List BNode :=
      if i < byeTeams.length then (byeTeams.getD i "", r1)
      else ("Winner of " ++ nthId r1 (i - byeTeams.length),
            modifyAt r1 (i - byeTeams.length) (setNextTo mid))
    let r1b := if i < pairA.2.length then
        modifyAt pairA.2 (pairA.2.length - 1 - i) (setNextTo mid)
      else pairA.2
    let node : BNode :=
      { match_id := mid, stage := "Knockouts", round := "Round 2",
        participant_a := pairA.1, participant_b := team_b, next_match_id := none }
    let res := round2Loop byeTeams r1b (i + 1) c
    (res.1, node :: res.2)

/-- Pairing pass of the standard knockout track: consume the current round
two nodes at a time, emit the next round's node (the final when two matches
remain) and point both feeders at it. -/
def pairRound : List BNode → ℕ → ℕ → Bool → List BNode × List BNode
  | [], _, _, _ => ([], [])
  | [a], _, _, _ => ([a], [])
  | a :: b :: rest, rnum, idx, isFinal =>
    let mid := if isFinal then "Final-M1" else mkId rnum idx
    let node : BNode :=
      { match_id := mid
        stage := "Knockouts"
        round := if isFinal then "Final Match" else "Round " ++ Nat.repr rnum
        participant_a := "Winner of " ++ a.match_id
        participant_b := "Winner of " ++ b.match_id
        next_match_id := none }
    let res := pairRound rest rnum (idx + 1) isFinal
    (setNextTo mid a :: setNextTo mid b :: res.1, node :: res.2)

/-- The third-place match appended in the standard track. -/
def bronzeNode (cur : List BNode) : BNode :=
  { match_id := "Bronze-M1"
    stage := "Knockouts"
    round := "3rd Place Match"
    participant_a := "Loser of " ++ nthId cur 0
    participant_b := "Loser of " ++ nthId cur 1
    next_match_id := none }

/-- The four IPL page-playoff nodes emitted when four matches remain. -/
def iplNodes (cur : List BNode) : List BNode :=
  [{ match_id := "Q1", stage := "Playoffs", round := "Q1 & Eliminator",
     participant_a := "Winner of " ++ nthId cur 0,
     participant_b := "Winner of " ++ nthId cur 1,
     next_match_id := some "Final-M1" },
   { match_id := "Elim-1", stage := "Playoffs", round := "Q1 & Eliminator",
     participant_a := "Winner of " ++ nthId cur 2,
     participant_b := "Winner of " ++ nthId cur 3,
     next_match_id := some "Q2" },
   { match_id := "Q2", stage := "Playoffs", round := "Qualifier 2",
     participant_a := "Loser of Q1", participant_b := "Winner of Elim-1",
     next_match_id := some "Final-M1" },
   { match_id := "Final-M1", stage := "Playoffs", round := "Championship Final",
     participant_a := "Winner of Q1", participant_b := "Winner of Q2",
     next_match_id := none }]

/-- Connecting the four remaining quarter-finals into the page playoff. -/
def iplConnect (cur : List BNode) : List BNode :=
  modifyAt (modifyAt (modifyAt (modifyAt cur 0 (setNextTo "Q1")) 1 (setNextTo "Q1"))
    2 (setNextTo "Elim-1")) 3 (setNextTo "Elim-1")

theorem pairRound_snd_length (l : List BNode) (rnum idx : ℕ) (isFinal : Bool) :
    (pairRound l rnum idx isFinal).2.length = l.length / 2 := by
  induction l, rnum, idx, isFinal using pairRound.induct with
  | case1 => simp [pairRound]
  | case2 => simp [pairRound]
  | case3 a b rest rnum idx isFinal ih =>
    show ((pairRound rest rnum (idx + 1) isFinal).2.length + 1) = (rest.length + 2) / 2
    rw [ih]
    omega

/-- The `while len(current_round_matches) > 1` loop: returns the final
contents of the suffix of `nodes` from the current round onward.  When four
matches remain and the IPL style is selected the page playoff terminates the
construction; in the standard track the final pairing also appends the
third-place match after the final.  The recursion carries an explicit bound
`f` on the number of iterations; each iteration halves the round size, so the
`f = cur.length` used by `roundsLoop` can never be exhausted. -/
def roundsLoopF (ipl : Bool) : ℕ → List BNode → ℕ → List BNode
  | 0, cur, _ => cur
  | Nat.succ f, cur, rnum =>
    if cur.length ≤ 1 then cur
    else if cur.length = 4 ∧ ipl = true then iplConnect cur ++ iplNodes cur
    else
      let isFinal := decide (cur.length = 2)
      let res := pairRound cur rnum 1 isFinal
      res.1 ++ roundsLoopF ipl f res.2 (rnum + 1) ++
        (if isFinal = true ∧ ipl = false then [bronzeNode cur] else [])

def roundsLoop (ipl : Bool) (cur : List BNode) (rnum : ℕ) : List BNode :=
  roundsLoopF ipl cur.length cur rnum

/-- `generate_knockout_graph` of `TournamentGraphGenerator`, as a function of
`total_advancing = num_groups * advancing_per_group` and the playoff style. -/
def generate_knockout_graph (total_advancing : ℕ) (playoff_style : String) : List BNode :=
  let bracket_size := nextPow2 total_advancing
  let byes := bracket_size - total_advancing
  let round_1_teams := total_advancing - byes
  let seeds := (List.range total_advancing).map fun i => "Seed " ++ Nat.repr (i + 1)
  let r1 := round1Nodes (seeds.drop byes) (round_1_teams / 2)
  let res := round2Loop (seeds.take byes) r1 0 (bracket_size / 4)
  res.1 ++ roundsLoop (playoff_style == "ipl") res.2 3

/-- `itertools.combinations(l, 2)` in emitted order. -/
def combPairs {α : Type} : List α → List (α × α)
  | [] => []
  | x :: xs => (xs.map fun y => (x, y)) ++ combPairs xs

/-- A group-stage match dict. -/
structure GroupMatch where
  match_id : String
  stage : String
  group : String
  participant_a : String
  participant_b : String
  next_match_id : Option String

/-- `generate_groups`: split `total_teams // num_groups` placeholder teams
into lettered pools and emit every pool's full round-robin.  (Python raises
`ZeroDivisionError` when `num_groups = 0`; `build` only calls this with
`num_groups > 1`.) -/
def generate_groups (total_teams num_groups : ℕ) (uuidGen : ℕ → ℕ → String) :
    List GroupMatch :=
  let teams_per_group := total_teams / num_groups
  (List.range num_groups).flatMap fun group_idx =>
    let group_name := (Char.ofNat (65 + group_idx)).toString
    let group_teams := (List.range teams_per_group).map fun i =>
      "Pool " ++ group_name ++ " - Slot " ++ Nat.repr (i + 1)
    (combPairs group_teams).enum.map fun q =>
      { match_id := uuidGen group_idx q.1
        stage := "Groups"
        group := group_name
        participant_a := q.2.1
        participant_b := q.2.2
        next_match_id := none }

/-- The payload assembled by `build` (metadata flattened into fields). -/
structure TournamentBuild where
  total_teams : ℕ
  groups : ℕ
  advancing_total : ℕ
  group_stage : List GroupMatch
  knockout_stage : List BNode

/-- `build`: group stage only when `num_groups > 1`, plus the knockout
graph. -/
def build (total_teams num_groups advancing_per_group : ℕ) (uuidGen : ℕ → ℕ → String)
    (playoff_style : String) : TournamentBuild :=
  let total_advancing := num_groups * advancing_per_group
  { total_teams := total_teams
    groups := num_groups
    advancing_total := total_advancing
    group_stage := if 1 < num_groups then generate_groups total_teams num_groups uuidGen
      else []
    knockout_stage := generate_knockout_graph total_advancing playoff_style }

end ShuttleSquads

namespace ShuttleSquads

/-! ## Claim C6: group-stage match counts -/

theorem combPairs_length {α : Type} (l : List α) :
    (combPairs l).length = Nat.choose l.length 2 := by
  induction l with
  | nil => rfl
  | cons x xs ih =>
    rw [combPairs, List.length_append, List.length_map, ih, List.length_cons,
      Nat.choose_succ_succ]
    show xs.length + Nat.choose xs.length 2 = Nat.choose xs.length 1 + Nat.choose xs.length 2
    rw [Nat.choose_one_right]

theorem sum_eq_length_mul (l : List ℕ) (c : ℕ) (h : ∀ x ∈ l, x = c) :
    l.sum = l.length * c := by
  induction l with
  | nil => simp
  | cons a t ih =>
    rw [List.sum_cons, List.length_cons, ih (fun x hx => h x (by simp [hx])), h a (by simp)]
    ring

theorem generate_groups_length (total_teams num_groups : ℕ) (uuidGen : ℕ → ℕ → String) :
    (generate_groups total_teams num_groups uuidGen).length =
      num_groups * Nat.choose (total_teams / num_groups) 2 := by
  unfold generate_groups
  rw [List.length_flatMap]
  refine (sum_eq_length_mul _ (Nat.choose (total_teams / num_groups) 2) ?_).trans ?_
  · intro x hx
    simp only [List.mem_map] at hx
    obtain ⟨gi, hgi, rfl⟩ := hx
    simp [List.enum_length, combPairs_length]
  · simp [Nat.mul_comm]

/-- C6 (counterexample).  The claim covers every `num_groups ≥ 1`, but
`build` emits an empty group stage when `num_groups = 1`: a single group of 4
teams yields 0 matches, not `C(4,2) = 6`. -/
theorem c6_counterexample :
    (build 4 1 4 (fun _ _ => "") "standard").group_stage.length = 0 ∧
    1 * Nat.choose (4 / 1) 2 = 6 := by
  constructor
  · rfl
  · decide

/-- C6 (amended).  `generate_groups` always produces
`num_groups * C(total_teams / num_groups, 2)` matches, and `build` exposes
that group stage exactly when `num_groups ≥ 2`, emitting an empty group stage
for a single group. -/
theorem c6_amended (total_teams num_groups advancing_per_group : ℕ)
    (uuidGen : ℕ → ℕ → String) (playoff_style : String) :
    (generate_groups total_teams num_groups uuidGen).length =
      num_groups * Nat.choose (total_teams / num_groups) 2 ∧
    (2 ≤ num_groups →
      (build total_teams num_groups advancing_per_group uuidGen playoff_style).group_stage.length =
        num_groups * Nat.choose (total_teams / num_groups) 2) ∧
    (num_groups = 1 →
      (build total_teams num_groups advancing_per_group uuidGen playoff_style).group_stage = []) := by
  refine ⟨generate_groups_length total_teams num_groups uuidGen, ?_, ?_⟩
  · intro h
    show (if 1 < num_groups then generate_groups total_teams num_groups uuidGen else []).length = _
    rw [if_pos (by omega)]
    exact generate_groups_length total_teams num_groups uuidGen
  · intro h
    subst h
    rfl

/-- C6 (witness for the amended theorem): two groups of four teams produce
`2 * C(4,2) = 12` group matches. -/
theorem c6_amended_witness :
    (build 8 2 2 (fun _ _ => "") "standard").group_stage.length =
      2 * Nat.choose (8 / 2) 2 :=
  (c6_amended 8 2 2 (fun _ _ => "") "standard").2.1 (by norm_num)

end ShuttleSquads

namespace ShuttleSquads

/-! ## Claims C4 and C5: knockout-graph structure -/

/-- Whether node `m`'s participant strings reference the match `id`
("Winner of id" / "Loser of id"). -/
def referencesId (m : BNode) (id : String) : Bool :=
  m.participant_a == "Winner of " ++ id || m.participant_b == "Winner of " ++ id ||
    m.participant_a == "Loser of " ++ id || m.participant_b == "Loser of " ++ id

/-- A node with no outgoing reference: no `next_match_id` and no downstream
participant string referring to it. -/
def isTerminal (nodes : List BNode) (n : BNode) : Bool :=
  n.next_match_id.isNone && !(nodes.any fun m => referencesId m n.match_id)

/-- C4 (counterexample).  The standard track appends a third-place match with
no outgoing reference, so the 8-team knockout graph has two terminal nodes
(the final and the bronze match), not exactly one; and `total_advancing = 1`
yields an empty graph with no terminal at all. -/
theorem c4_counterexample :
    ((generate_knockout_graph 8 "standard").filter
        (isTerminal (generate_knockout_graph 8 "standard"))).map BNode.match_id =
      ["Final-M1", "Bronze-M1"] ∧
    generate_knockout_graph 1 "standard" = [] := by decide

/-- C5 (code bug).  At `total_advancing = 5` (bracket 8, byes 3) only
`bracket_size // 4 = 2` Round-2 slots exist, so bye seed "Seed 3" appears in
no node at all — it can never play — while a literal "TBD" fills the orphaned
slot; seeds 1, 2, 4, 5 each appear exactly once. -/
theorem c5_seed_dropped :
    nextPow2 5 - 5 = 3 ∧
    ((generate_knockout_graph 5 "standard").countP
      (fun n => n.participant_a == "Seed 3" || n.participant_b == "Seed 3")) = 0 ∧
    ((generate_knockout_graph 5 "standard").countP
      (fun n => n.participant_a == "Seed 1" || n.participant_b == "Seed 1")) = 1 ∧
    ((generate_knockout_graph 5 "standard").countP
      (fun n => n.participant_a == "Seed 2" || n.participant_b == "Seed 2")) = 1 ∧
    ((generate_knockout_graph 5 "standard").countP
      (fun n => n.participant_a == "Seed 4" || n.participant_b == "Seed 4")) = 1 ∧
    ((generate_knockout_graph 5 "standard").countP
      (fun n => n.participant_a == "Seed 5" || n.participant_b == "Seed 5")) = 1 ∧
    ((generate_knockout_graph 5 "standard").countP
      (fun n => n.participant_b == "TBD")) = 1 := by decide

end ShuttleSquads

namespace ShuttleSquads

/-! ## Claim C3: the single-match Glicko-2 update -/

/-- A `team_ratings` snapshot row as passed to the Glicko-2 update
(`matches_played` is bumped by the caller, not the update). -/
structure GlickoState where
  rating : ℝ
  rd : ℝ
  volatility : ℝ

/-- Python `round(x, 2)` on a real value. -/
noncomputable def round2r (x : ℝ) : ℝ := ((round (x * 100) : ℤ) : ℝ) / 100

/-- Modelled from the spec: `api.py` imports `calculate_glicko2_match` from
`engine`, but no module under `src/` defines it; §4.2 of the specification is
the only description.  Conversion to the internal scale:
`μ = (R - 1500)/173.7178`, `φ = RD/173.7178`. -/
noncomputable def glickoMu (s : GlickoState) : ℝ := (s.rating - 1500) / 173.7178

/-- Modelled from the spec: internal-scale rating deviation. -/
noncomputable def glickoPhi (s : GlickoState) : ℝ := s.rd / 173.7178

/-- Modelled from the spec: `g(φ) = 1/√(1 + 3φ²/π²)`. -/
noncomputable def gFun (phi : ℝ) : ℝ := 1 / Real.sqrt (1 + 3 * phi ^ 2 / Real.pi ^ 2)

/-- Modelled from the spec: expected score
`E = 1/(1 + e^(−g(φ_opp)·(μ_self − μ_opp)))`. -/
noncomputable def eFun (mu_self mu_opp phi_opp : ℝ) : ℝ :=
  1 / (1 + Real.exp (-(gFun phi_opp) * (mu_self - mu_opp)))

/-- Modelled from the spec: one team's update from the pre-match snapshot of
both teams.  `v` is guarded by the `9999` sentinel when its denominator is
not positive; volatility is carried forward unchanged; the returned rating
and rd are rounded to 2 decimal places. -/
noncomputable def glickoUpdateOne (self opp : GlickoState) (outcome : ℝ) : GlickoState :=
  let mu := glickoMu self
  let muOpp := glickoMu opp
  let phi := glickoPhi self
  let phiOpp := glickoPhi opp
  let g := gFun phiOpp
  let e := eFun mu muOpp phiOpp
  let denom := g ^ 2 * e * (1 - e)
  let v := if denom ≤ 0 then 9999 else 1 / denom
  let phiStar := Real.sqrt (phi ^ 2 + self.volatility ^ 2)
  let phiNew := 1 / Real.sqrt (1 / phiStar ^ 2 + 1 / v)
  let muNew := mu + phiNew ^ 2 * g * (outcome - e)
  { rating := round2r (muNew * 173.7178 + 1500)
    rd := round2r (phiNew * 173.7178)
    volatility := self.volatility }

/-- Modelled from the spec: `calculate_glicko2_match(state_a, state_b,
winner)` with the winner key `"team_a"`/`"team_b"` computed by the webhook;
both teams' new states are computed from the pre-match snapshot. -/
noncomputable def calculate_glicko2_match (state_a state_b : GlickoState)
    (winner : String) : GlickoState × GlickoState :=
  (glickoUpdateOne state_a state_b (if winner = "team_a" then 1 else 0),
   glickoUpdateOne state_b state_a (if winner = "team_a" then 0 else 1))

/-- C3.  For every pair of team states and winner key, the Glicko-2 match
update returns exactly the two per-team updates computed from the pre-match
snapshot (neither side observes the other's post-match state), passes each
team's volatility through unchanged, and returns ratings and rating
deviations that are multiples of 1/100 (rounded to 2 decimal places). -/
theorem c3_glicko_symmetric (a b : GlickoState) (winner : String) :
    calculate_glicko2_match a b winner =
      (glickoUpdateOne a b (if winner = "team_a" then 1 else 0),
       glickoUpdateOne b a (if winner = "team_a" then 0 else 1)) ∧
    (calculate_glicko2_match a b winner).1.volatility = a.volatility ∧
    (calculate_glicko2_match a b winner).2.volatility = b.volatility ∧
    (∃ m : ℤ, (calculate_glicko2_match a b winner).1.rating = (m : ℝ) / 100) ∧
    (∃ m : ℤ, (calculate_glicko2_match a b winner).1.rd = (m : ℝ) / 100) ∧
    (∃ m : ℤ, (calculate_glicko2_match a b winner).2.rating = (m : ℝ) / 100) ∧
    (∃ m : ℤ, (calculate_glicko2_match a b winner).2.rd = (m : ℝ) / 100) :=
  ⟨rfl, rfl, rfl, ⟨_, rfl⟩, ⟨_, rfl⟩, ⟨_, rfl⟩, ⟨_, rfl⟩⟩

end ShuttleSquads

namespace ShuttleSquads

/-! ## Decimal representation facts for the match-id scheme -/

theorem toDigitsCore_eq_digits (fuel : ℕ) : ∀ (n : ℕ) (ds : List Char), 1 ≤ n → n ≤ fuel →
    Nat.toDigitsCore 10 fuel n ds =
      ((Nat.digits 10 n).reverse.map Nat.digitChar) ++ ds := by
  induction fuel with
  | zero => intro n ds h1 h2; omega
  | succ f ih =>
    intro n ds h1 h2
    have hdig : Nat.digits 10 n = n % 10 :: Nat.digits 10 (n / 10) :=
      Nat.digits_def' (by norm_num) (by omega)
    by_cases hq : n / 10 = 0
    · have : Nat.toDigitsCore 10 (f + 1) n ds = Nat.digitChar (n % 10) :: ds := by
        show (if n / 10 = 0 then Nat.digitChar (n % 10) :: ds
          else Nat.toDigitsCore 10 f (n / 10) (Nat.digitChar (n % 10) :: ds)) = _
        rw [if_pos hq]
      rw [this, hdig, hq]
      simp
    · have hstep : Nat.toDigitsCore 10 (f + 1) n ds =
          Nat.toDigitsCore 10 f (n / 10) (Nat.digitChar (n % 10) :: ds) := by
        show (if n / 10 = 0 then Nat.digitChar (n % 10) :: ds
          else Nat.toDigitsCore 10 f (n / 10) (Nat.digitChar (n % 10) :: ds)) = _
        rw [if_neg hq]
      have hlt : n / 10 < n := Nat.div_lt_self (by omega) (by norm_num)
      rw [hstep, ih (n / 10) (Nat.digitChar (n % 10) :: ds) (by omega) (by omega), hdig]
      simp

theorem natRepr_eq_digits (n : ℕ) (h : 1 ≤ n) :
    Nat.repr n = ((Nat.digits 10 n).reverse.map Nat.digitChar).asString := by
  show (Nat.toDigitsCore 10 (n + 1) n []).asString = _
  rw [toDigitsCore_eq_digits (n + 1) n [] h (by omega)]
  simp

theorem digitChar_digit_mem (d : ℕ) (h : d < 10) : Nat.digitChar d ∈ "0123456789".data := by
  interval_cases d <;> decide

theorem digitChar_inj_on_digits (a b : ℕ) (ha : a < 10) (hb : b < 10)
    (h : Nat.digitChar a = Nat.digitChar b) : a = b := by
  interval_cases a <;> interval_cases b <;> first | rfl | (exfalso; exact absurd h (by decide))

theorem natRepr_data_digits (n : ℕ) :
    ∀ c ∈ (Nat.repr n).data, c ∈ "0123456789".data := by
  intro c hc
  by_cases h : n = 0
  · subst h
    have h00 : (Nat.repr 0).data = ['0'] := rfl
    rw [h00] at hc
    have : c = '0' := by simpa using hc
    subst this
    decide
  · rw [natRepr_eq_digits n (by omega)] at hc
    rw [List.asString] at hc
    simp only [List.mem_map, List.mem_reverse] at hc
    obtain ⟨d, hd, rfl⟩ := hc
    exact digitChar_digit_mem d (Nat.digits_lt_base (by norm_num) hd)

theorem natRepr_no_dash (n : ℕ) : '-' ∉ (Nat.repr n).data := by
  intro hc
  have := natRepr_data_digits n '-' hc
  simp at this

theorem map_digitChar_inj (l1 : List ℕ) : ∀ l2 : List ℕ,
    (∀ d ∈ l1, d < 10) → (∀ d ∈ l2, d < 10) →
    l1.map Nat.digitChar = l2.map Nat.digitChar → l1 = l2 := by
  induction l1 with
  | nil => intro l2 _ _ h; cases l2 <;> simp_all
  | cons a t ih =>
    intro l2 h1 h2 h
    cases l2 with
    | nil => simp at h
    | cons b u =>
      simp only [List.map_cons, List.cons.injEq] at h
      have hab : a = b := digitChar_inj_on_digits a b (h1 a (by simp)) (h2 b (by simp)) h.1
      rw [hab, ih u (fun d hd => h1 d (by simp [hd])) (fun d hd => h2 d (by simp [hd])) h.2]

theorem natRepr_pos_ne_repr_zero (n : ℕ) (hn : 1 ≤ n) (h : Nat.repr n = Nat.repr 0) :
    False := by
  rw [natRepr_eq_digits n hn] at h
  have h0 : Nat.repr 0 = (['0'] : List Char).asString := rfl
  rw [h0, List.asString_inj] at h
  have hdigs := map_digitChar_inj _ [0]
    (fun d hd => Nat.digits_lt_base (by norm_num) (List.mem_reverse.mp hd)) (by simp) h
  have hrev := congrArg List.reverse hdigs
  simp only [List.reverse_reverse] at hrev
  have h1 := Nat.ofDigits_digits 10 n
  rw [hrev] at h1
  simp [Nat.ofDigits] at h1
  omega

theorem natRepr_injective (m n : ℕ) (h : Nat.repr m = Nat.repr n) : m = n := by
  rcases Nat.eq_zero_or_pos m with hm | hm <;> rcases Nat.eq_zero_or_pos n with hn | hn
  · omega
  · exact absurd (h.symm.trans (by rw [hm])) (fun hx => natRepr_pos_ne_repr_zero n hn hx)
  · exact absurd (h.trans (by rw [hn])) (fun hx => natRepr_pos_ne_repr_zero m hm hx)
  · rw [natRepr_eq_digits m hm, natRepr_eq_digits n hn, List.asString_inj] at h
    have hdigs := map_digitChar_inj ((Nat.digits 10 m).reverse) ((Nat.digits 10 n).reverse)
      (fun d hd => Nat.digits_lt_base (by norm_num) (List.mem_reverse.mp hd))
      (fun d hd => Nat.digits_lt_base (by norm_num) (List.mem_reverse.mp hd)) h
    have hrev := congrArg List.reverse hdigs
    simp only [List.reverse_reverse] at hrev
    have h1 := Nat.ofDigits_digits 10 m
    have h2 := Nat.ofDigits_digits 10 n
    rw [← h1, ← h2, hrev]

end ShuttleSquads

namespace ShuttleSquads

/-! ## Match-id and participant-string facts -/

theorem str_data_inj {s t : String} (h : s.data = t.data) : s = t :=
  congrArg String.mk h

theorem append_dash_split (l1 : List Char) : ∀ (l2 t1 t2 : List Char),
    '-' ∉ l1 → '-' ∉ l2 → l1 ++ '-' :: t1 = l2 ++ '-' :: t2 → l1 = l2 ∧ t1 = t2 := by
  induction l1 with
  | nil =>
    intro l2 t1 t2 h1 h2 h
    cases l2 with
    | nil => simpa using h
    | cons c l2' =>
      exfalso
      simp only [List.nil_append, List.cons_append, List.cons.injEq] at h
      exact h2 (by simp [← h.1])
  | cons c l1' ih =>
    intro l2 t1 t2 h1 h2 h
    cases l2 with
    | nil =>
      exfalso
      simp only [List.cons_append, List.nil_append, List.cons.injEq] at h
      exact h1 (by simp [h.1])
    | cons d l2' =>
      simp only [List.cons_append, List.cons.injEq] at h
      obtain ⟨rfl, h'⟩ := h
      obtain ⟨he, ht⟩ := ih l2' t1 t2 (fun hx => h1 (by simp [hx]))
        (fun hx => h2 (by simp [hx])) h'
      exact ⟨by rw [he], ht⟩

theorem mkId_data (r k : ℕ) :
    (mkId r k).data = 'R' :: ((Nat.repr r).data ++ '-' :: 'M' :: (Nat.repr k).data) := by
  show ((("R" ++ Nat.repr r) ++ "-M") ++ Nat.repr k).data = _
  rw [String.data_append, String.data_append, String.data_append]
  simp [List.append_assoc]

theorem mkId_inj (r k r' k' : ℕ) (h : mkId r k = mkId r' k') : r = r' ∧ k = k' := by
  have hd := congrArg String.data h
  rw [mkId_data, mkId_data] at hd
  simp only [List.cons.injEq, true_and] at hd
  obtain ⟨h1, h2⟩ := append_dash_split _ _ _ _ (natRepr_no_dash r) (natRepr_no_dash r') hd
  simp only [List.cons.injEq, true_and] at h2
  exact ⟨natRepr_injective _ _ (str_data_inj h1), natRepr_injective _ _ (str_data_inj h2)⟩

/-- The fixed names used outside the `R{n}-M{m}` scheme. -/
def specialIds : List String := ["Final-M1", "Bronze-M1", "Q1", "Elim-1", "Q2"]

theorem mkId_head (r k : ℕ) : (mkId r k).data.head? = some 'R' := by
  rw [mkId_data]
  rfl

theorem mkId_notin_special (r k : ℕ) : mkId r k ∉ specialIds := by
  have hh : (mkId r k).data.head? = some 'R' := mkId_head r k
  intro h
  simp only [specialIds, List.mem_cons, List.not_mem_nil, or_false] at h
  rcases h with h | h | h | h | h <;> rw [h] at hh <;> exact absurd hh (by decide)

/-- Ids generated from round `rnum` onward, or one of the fixed names. -/
def isGenId (rnum : ℕ) (id : String) : Prop :=
  (∃ r, rnum ≤ r ∧ ∃ k, id = mkId r k) ∨ id ∈ specialIds

theorem isGenId_mono (r r' : ℕ) (id : String) (h : r ≤ r') :
    isGenId r' id → isGenId r id := by
  rintro (⟨u, hu, k, rfl⟩ | hs)
  · exact Or.inl ⟨u, by omega, k, rfl⟩
  · exact Or.inr hs

theorem not_isGenId_mkId (rnum r k : ℕ) (h : r < rnum) : ¬ isGenId rnum (mkId r k) := by
  rintro (⟨u, hu, k', he⟩ | hs)
  · obtain ⟨rfl, -⟩ := mkId_inj r k u k' he
    omega
  · exact mkId_notin_special r k hs

theorem winner_str_inj (t t' : String) (h : "Winner of " ++ t = "Winner of " ++ t') :
    t = t' := by
  have := congrArg String.data h
  rw [String.data_append, String.data_append] at this
  exact str_data_inj (List.append_cancel_left this)

theorem loser_str_inj (t t' : String) (h : "Loser of " ++ t = "Loser of " ++ t') :
    t = t' := by
  have := congrArg String.data h
  rw [String.data_append, String.data_append] at this
  exact str_data_inj (List.append_cancel_left this)

theorem winner_ne_loser (t t' : String) : "Winner of " ++ t ≠ "Loser of " ++ t' := by
  intro h
  have h2 : ("Winner of " ++ t).data.head? = ("Loser of " ++ t').data.head? := by rw [h]
  have e1 : ("Winner of " ++ t).data.head? = some 'W' := by rw [String.data_append]; rfl
  have e2 : ("Loser of " ++ t').data.head? = some 'L' := by rw [String.data_append]; rfl
  rw [e1, e2] at h2
  exact absurd h2 (by decide)

theorem seed_str_not_ref (j : ℕ) (t : String) :
    "Seed " ++ Nat.repr j ≠ "Winner of " ++ t ∧ "Seed " ++ Nat.repr j ≠ "Loser of " ++ t := by
  have e0 : ("Seed " ++ Nat.repr j).data.head? = some 'S' := by rw [String.data_append]; rfl
  have e1 : ("Winner of " ++ t).data.head? = some 'W' := by rw [String.data_append]; rfl
  have e2 : ("Loser of " ++ t).data.head? = some 'L' := by rw [String.data_append]; rfl
  constructor
  · intro h
    have h2 : ("Seed " ++ Nat.repr j).data.head? = ("Winner of " ++ t).data.head? := by rw [h]
    rw [e0, e1] at h2
    exact absurd h2 (by decide)
  · intro h
    have h2 : ("Seed " ++ Nat.repr j).data.head? = ("Loser of " ++ t).data.head? := by rw [h]
    rw [e0, e2] at h2
    exact absurd h2 (by decide)

theorem referencesId_iff (m : BNode) (id : String) :
    referencesId m id = true ↔
      (m.participant_a = "Winner of " ++ id ∨ m.participant_b = "Winner of " ++ id ∨
        m.participant_a = "Loser of " ++ id ∨ m.participant_b = "Loser of " ++ id) := by
  simp [referencesId, Bool.or_eq_true, or_assoc]

end ShuttleSquads

namespace ShuttleSquads

/-! ## Structural facts about the knockout construction -/

theorem nextPow2Aux_pow (n : ℕ) : ∀ (f k : ℕ), n ≤ 2 ^ k * 2 ^ f →
    ∃ j, k ≤ j ∧ nextPow2Aux n f (2 ^ k) = 2 ^ j ∧ n ≤ 2 ^ j ∧
      (k < j → 2 ^ (j - 1) < n) := by
  intro f
  induction f with
  | zero =>
    intro k h
    exact ⟨k, le_refl k, rfl, by simpa using h, by omega⟩
  | succ f ih =>
    intro k h
    by_cases hn : n ≤ 2 ^ k
    · exact ⟨k, le_refl k, by simp [nextPow2Aux, hn], hn, by omega⟩
    · have hstep : nextPow2Aux n (f + 1) (2 ^ k) = nextPow2Aux n f (2 ^ (k + 1)) := by
        show (if n ≤ 2 ^ k then 2 ^ k else nextPow2Aux n f (2 * 2 ^ k)) = _
        rw [if_neg hn]
        congr 1
        ring
      have h' : n ≤ 2 ^ (k + 1) * 2 ^ f := by
        calc n ≤ 2 ^ k * 2 ^ (f + 1) := h
        _ = 2 ^ (k + 1) * 2 ^ f := by ring
      obtain ⟨j, hkj, heq, hle, hmin⟩ := ih (k + 1) h'
      refine ⟨j, by omega, by rw [hstep, heq], hle, ?_⟩
      intro hkj'
      by_cases hj : k + 1 < j
      · exact hmin hj
      · have : j = k + 1 := by omega
        subst this
        simpa using (by omega : 2 ^ k < n)

theorem nextPow2_spec (n : ℕ) (h : 1 ≤ n) :
    ∃ j, nextPow2 n = 2 ^ j ∧ n ≤ 2 ^ j ∧ (0 < j → 2 ^ (j - 1) < n) := by
  unfold nextPow2
  rw [if_neg (by omega)]
  have hlt : n ≤ 2 ^ 0 * 2 ^ n := by
    have := Nat.lt_two_pow n
    simpa using this.le
  obtain ⟨j, h0j, heq, hle, hmin⟩ := nextPow2Aux_pow n n 0 hlt
  refine ⟨j, ?_, hle, fun hj => hmin (by omega)⟩
  rw [← heq]
  norm_num

theorem modifyAt_length (l : List BNode) : ∀ (i : ℕ) (f : BNode → BNode),
    (modifyAt l i f).length = l.length := by
  induction l with
  | nil => intro i f; rfl
  | cons x xs ih =>
    intro i f
    cases i with
    | zero => rfl
    | succ i => simp [modifyAt, ih]

theorem getD_modifyAt_ne (l : List BNode) : ∀ (i j : ℕ) (f : BNode → BNode) (d : BNode),
    j ≠ i → (modifyAt l i f).getD j d = l.getD j d := by
  induction l with
  | nil => intro i j f d _; cases i <;> rfl
  | cons x xs ih =>
    intro i j f d hne
    cases i with
    | zero =>
      cases j with
      | zero => omega
      | succ j => rfl
    | succ i =>
      cases j with
      | zero => rfl
      | succ j => exact ih i j f d (by omega)

theorem getD_modifyAt_self (l : List BNode) : ∀ (i : ℕ) (f : BNode → BNode) (d : BNode),
    i < l.length → (modifyAt l i f).getD i d = f (l.getD i d) := by
  induction l with
  | nil => intro i f d h; simp at h
  | cons x xs ih =>
    intro i f d h
    cases i with
    | zero => rfl
    | succ i => exact ih i f d (by simpa using h)

/-- Equality of everything except the mutable `next_match_id` field. -/
def sameCore (a b : BNode) : Prop :=
  a.match_id = b.match_id ∧ a.stage = b.stage ∧ a.round = b.round ∧
    a.participant_a = b.participant_a ∧ a.participant_b = b.participant_b

theorem sameCore_refl (a : BNode) : sameCore a a := ⟨rfl, rfl, rfl, rfl, rfl⟩

theorem sameCore_trans {a b c : BNode} (h1 : sameCore a b) (h2 : sameCore b c) :
    sameCore a c := by
  obtain ⟨e1, e2, e3, e4, e5⟩ := h1
  obtain ⟨f1, f2, f3, f4, f5⟩ := h2
  exact ⟨e1.trans f1, e2.trans f2, e3.trans f3, e4.trans f4, e5.trans f5⟩

theorem sameCore_setNextTo (mid : String) (a : BNode) : sameCore a (setNextTo mid a) :=
  ⟨rfl, rfl, rfl, rfl, rfl⟩

/-- The match ids of a node list, in order. -/
def idsOf (l : List BNode) : List String := l.map BNode.match_id

end ShuttleSquads

namespace ShuttleSquads

theorem pairRound_spec (l : List BNode) (rnum idx : ℕ) (isFinal : Bool)
    (heven : l.length % 2 = 0) :
    (pairRound l rnum idx isFinal).1.length = l.length ∧
    (∀ j, j < l.length →
      sameCore (l.getD j default) ((pairRound l rnum idx isFinal).1.getD j default)) ∧
    (∀ j, j < l.length → ((pairRound l rnum idx isFinal).1.getD j default).next_match_id =
      some (if isFinal then "Final-M1" else mkId rnum (idx + j / 2))) ∧
    idsOf (pairRound l rnum idx isFinal).2 = (List.range (l.length / 2)).map
      (fun m => if isFinal then "Final-M1" else mkId rnum (idx + m)) ∧
    (∀ n ∈ (pairRound l rnum idx isFinal).2, n.next_match_id = none) ∧
    (∀ n ∈ (pairRound l rnum idx isFinal).2, ∀ t, referencesId n t = true → t ∈ idsOf l) := by
  induction l, rnum, idx, isFinal using pairRound.induct with
  | case1 rnum idx isFinal =>
    refine ⟨rfl, ?_, ?_, rfl, ?_, ?_⟩ <;> simp [pairRound]
  | case2 a rnum idx isFinal =>
    exfalso
    simp at heven
  | case3 a b rest rnum idx isFinal ih =>
    have heven' : rest.length % 2 = 0 := by
      simp only [List.length_cons] at heven
      omega
    obtain ⟨ih1, ih2, ih3, ih4, ih5, ih6⟩ := ih heven'
    have hfst : (pairRound (a :: b :: rest) rnum idx isFinal).1 =
        setNextTo (if isFinal then "Final-M1" else mkId rnum idx) a ::
        setNextTo (if isFinal then "Final-M1" else mkId rnum idx) b ::
        (pairRound rest rnum (idx + 1) isFinal).1 := rfl
    have hsnd : (pairRound (a :: b :: rest) rnum idx isFinal).2 =
        { match_id := if isFinal then "Final-M1" else mkId rnum idx
          stage := "Knockouts"
          round := if isFinal then "Final Match" else "Round " ++ Nat.repr rnum
          participant_a := "Winner of " ++ a.match_id
          participant_b := "Winner of " ++ b.match_id
          next_match_id := none } :: (pairRound rest rnum (idx + 1) isFinal).2 := rfl
    refine ⟨?_, ?_, ?_, ?_, ?_, ?_⟩
    · rw [hfst]
      simp [ih1]
    · intro j hj
      rw [hfst]
      match j with
      | 0 => exact sameCore_setNextTo _ a
      | 1 => exact sameCore_setNextTo _ b
      | Nat.succ (Nat.succ j') =>
        show sameCore (rest.getD j' default) _
        exact ih2 j' (by simp at hj; omega)
    · intro j hj
      rw [hfst]
      match j with
      | 0 => rfl
      | 1 => rfl
      | Nat.succ (Nat.succ j') =>
        show ((pairRound rest rnum (idx + 1) isFinal).1.getD j' default).next_match_id = _
        rw [ih3 j' (by simp at hj; omega)]
        have e : idx + 1 + j' / 2 = idx + (j' + 1 + 1) / 2 := by omega
        rw [e]
    · rw [hsnd]
      show (if isFinal then "Final-M1" else mkId rnum idx) ::
        idsOf (pairRound rest rnum (idx + 1) isFinal).2 = _
      rw [ih4]
      have hlen : (a :: b :: rest).length / 2 = rest.length / 2 + 1 := by
        simp only [List.length_cons]
        omega
      rw [hlen, List.range_succ_eq_map, List.map_cons, List.map_map]
      congr 1
      apply List.map_congr_left
      intro m hm
      simp only [Function.comp_apply]
      have e : idx + 1 + m = idx + (m + 1) := by omega
      rw [e]
    · intro n hn
      rw [hsnd] at hn
      rcases List.mem_cons.mp hn with rfl | hn
      · rfl
      · exact ih5 n hn
    · intro n hn t ht
      rw [hsnd] at hn
      rcases List.mem_cons.mp hn with rfl | hn
      · rw [referencesId_iff] at ht
        simp only at ht
        rcases ht with ht | ht | ht | ht
        · rw [winner_str_inj _ _ ht.symm]
          show a.match_id ∈ idsOf (a :: b :: rest)
          simp [idsOf]
        · rw [winner_str_inj _ _ ht.symm]
          show b.match_id ∈ idsOf (a :: b :: rest)
          simp [idsOf]
        · exact absurd ht (winner_ne_loser _ _)
        · exact absurd ht (winner_ne_loser _ _)
      · have := ih6 n hn t ht
        simp only [idsOf, List.map_cons, List.mem_cons]
        right
        right
        exact this

end ShuttleSquads

namespace ShuttleSquads

theorem idsOf_modifyAt (l : List BNode) : ∀ (i : ℕ) (mid : String),
    idsOf (modifyAt l i (setNextTo mid)) = idsOf l := by
  induction l with
  | nil => intro i mid; cases i <;> rfl
  | cons x xs ih =>
    intro i mid
    cases i with
    | zero => rfl
    | succ i =>
      show (x.match_id :: idsOf (modifyAt xs i (setNextTo mid))) = x.match_id :: idsOf xs
      rw [ih]

theorem sameCore_modifyAt_setNext (l : List BNode) (i : ℕ) (mid : String) (j : ℕ)
    (hj : j < l.length) :
    sameCore (l.getD j default) ((modifyAt l i (setNextTo mid)).getD j default) := by
  by_cases h : j = i
  · subst h
    rw [getD_modifyAt_self l j (setNextTo mid) default hj]
    exact sameCore_setNextTo mid _
  · rw [getD_modifyAt_ne l i j (setNextTo mid) default h]
    exact sameCore_refl _

theorem mem_idsOf_getD (l : List BNode) (j : ℕ) (hj : j < l.length) :
    (l.getD j default).match_id ∈ idsOf l := by
  exact List.mem_map_of_mem BNode.match_id (getD_mem l j default hj)

theorem tbd_not_ref (t : String) :
    "TBD" ≠ "Winner of " ++ t ∧ "TBD" ≠ "Loser of " ++ t := by
  have e1 : ("Winner of " ++ t).data.head? = some 'W' := by rw [String.data_append]; rfl
  have e2 : ("Loser of " ++ t).data.head? = some 'L' := by rw [String.data_append]; rfl
  constructor
  · intro h
    have h2 : ("TBD" : String).data.head? = ("Winner of " ++ t).data.head? := by rw [h]
    rw [e1] at h2
    exact absurd h2 (by decide)
  · intro h
    have h2 : ("TBD" : String).data.head? = ("Loser of " ++ t).data.head? := by rw [h]
    rw [e2] at h2
    exact absurd h2 (by decide)

theorem next_getD_modifyAt_setNext (l : List BNode) (i : ℕ) (mid : String) (j : ℕ)
    (hl : i < l.length) :
    ((modifyAt l i (setNextTo mid)).getD j default).next_match_id =
      (if j = i then some mid else (l.getD j default).next_match_id) := by
  by_cases h : j = i
  · subst h
    rw [getD_modifyAt_self l j (setNextTo mid) default hl, if_pos rfl]
    rfl
  · rw [getD_modifyAt_ne l i j (setNextTo mid) default h, if_neg h]

end ShuttleSquads

namespace ShuttleSquads

/-! ## Further list and id helpers for the knockout analysis -/

theorem getD_append_left {α : Type} (l1 l2 : List α) (d : α) : ∀ j, j < l1.length →
    (l1 ++ l2).getD j d = l1.getD j d := by
  induction l1 with
  | nil => intro j h; simp at h
  | cons x xs ih =>
    intro j h
    cases j with
    | zero => rfl
    | succ j => exact ih j (by simpa using h)

theorem getD_append_right {α : Type} (l1 l2 : List α) (d : α) : ∀ j, l1.length ≤ j →
    (l1 ++ l2).getD j d = l2.getD (j - l1.length) d := by
  induction l1 with
  | nil => intro j h; simp
  | cons x xs ih =>
    intro j h
    cases j with
    | zero => simp at h
    | succ j => simpa using ih j (by simpa using h)

theorem mem_getD {α : Type} [Inhabited α] (l : List α) (n : α) (h : n ∈ l) :
    ∃ j, j < l.length ∧ l.getD j default = n := by
  obtain ⟨j, hj, he⟩ := List.mem_iff_getElem.mp h
  exact ⟨j, hj, by rw [List.getD_eq_getElem l default hj]; exact he⟩

theorem roundsLoopF_short (ipl : Bool) (f : ℕ) (l : List BNode) (r : ℕ)
    (h : l.length ≤ 1) : roundsLoopF ipl f l r = l := by
  cases f with
  | zero => rfl
  | succ f =>
    show (if l.length ≤ 1 then l else _) = l
    rw [if_pos h]

theorem isGenId_special (rnum : ℕ) (id : String) (h : id ∈ specialIds) : isGenId rnum id :=
  Or.inr h

theorem isGenId_mkId_ge (rnum r k : ℕ) (h : rnum ≤ r) : isGenId rnum (mkId r k) :=
  Or.inl ⟨r, h, k, rfl⟩

theorem referencesId_sameCore {a b : BNode} (h : sameCore a b) (t : String) :
    referencesId b t = referencesId a t := by
  obtain ⟨-, -, -, h4, h5⟩ := h
  unfold referencesId
  rw [← h4, ← h5]

theorem referencesId_false (m : BNode)
    (ha : ∀ t, m.participant_a ≠ "Winner of " ++ t ∧ m.participant_a ≠ "Loser of " ++ t)
    (hb : ∀ t, m.participant_b ≠ "Winner of " ++ t ∧ m.participant_b ≠ "Loser of " ++ t) :
    ∀ t, referencesId m t = false := by
  intro t
  rw [← Bool.not_eq_true]
  intro hc
  rcases (referencesId_iff m t).mp hc with h | h | h | h
  · exact (ha t).1 h
  · exact (hb t).1 h
  · exact (ha t).2 h
  · exact (hb t).2 h

theorem transGen_irrefl_of_forward {R : ℕ → ℕ → Prop} (h : ∀ i j, R i j → i < j) (a : ℕ) :
    ¬ Relation.TransGen R a a := by
  have key : ∀ i j, Relation.TransGen R i j → i < j := by
    intro i j hij
    induction hij with
    | single h1 => exact h _ _ h1
    | tail _ h2 ih => exact ih.trans (h _ _ h2)
  intro hc
  exact lt_irrefl _ (key a a hc)

theorem countP_pair (l : List String) (a b : String) (hab : a ≠ b) :
    l.countP (fun x => x == a || x == b) = l.count a + l.count b := by
  induction l with
  | nil => rfl
  | cons x xs ih =>
    simp only [List.countP_cons, List.count_cons, ih]
    by_cases hxa : x = a <;> by_cases hxb : x = b
    · exact absurd (hxa.symm.trans hxb) hab
    · simp [hxa, hxb, hab, Ne.symm hab]
      omega
    · simp [hxa, hxb, hab, Ne.symm hab]
      omega
    · simp [hxa, hxb]

end ShuttleSquads

namespace ShuttleSquads

/-! ## Step equations for the Round-2 construction loop -/

theorem round2Step_A (b : List String) (r1 : List BNode) (i c : ℕ)
    (hbye : i < b.length) (hi : i < r1.length) :
    round2Loop b r1 i (c + 1) =
      ((round2Loop b (modifyAt r1 (r1.length - 1 - i) (setNextTo (mkId 2 (i + 1))))
          (i + 1) c).1,
        { match_id := mkId 2 (i + 1), stage := "Knockouts", round := "Round 2",
          participant_a := b.getD i "",
          participant_b := "Winner of " ++ nthId r1 (r1.length - 1 - i),
          next_match_id := none } ::
        (round2Loop b (modifyAt r1 (r1.length - 1 - i) (setNextTo (mkId 2 (i + 1))))
          (i + 1) c).2) := by
  simp only [round2Loop]
  rw [if_pos hbye]
  simp [hi]

theorem round2Step_B (b : List String) (r1 : List BNode) (i c : ℕ)
    (hbye : i < b.length) (hi : ¬ i < r1.length) :
    round2Loop b r1 i (c + 1) =
      ((round2Loop b r1 (i + 1) c).1,
        { match_id := mkId 2 (i + 1), stage := "Knockouts", round := "Round 2",
          participant_a := b.getD i "", participant_b := "TBD",
          next_match_id := none } :: (round2Loop b r1 (i + 1) c).2) := by
  simp only [round2Loop]
  rw [if_pos hbye]
  simp [hi]

theorem round2Step_C (b : List String) (r1 : List BNode) (i c : ℕ)
    (hbye : ¬ i < b.length) (hi : i < r1.length) :
    round2Loop b r1 i (c + 1) =
      ((round2Loop b
          (modifyAt (modifyAt r1 (i - b.length) (setNextTo (mkId 2 (i + 1))))
            (r1.length - 1 - i) (setNextTo (mkId 2 (i + 1)))) (i + 1) c).1,
        { match_id := mkId 2 (i + 1), stage := "Knockouts", round := "Round 2",
          participant_a := "Winner of " ++ nthId r1 (i - b.length),
          participant_b := "Winner of " ++ nthId r1 (r1.length - 1 - i),
          next_match_id := none } ::
        (round2Loop b
          (modifyAt (modifyAt r1 (i - b.length) (setNextTo (mkId 2 (i + 1))))
            (r1.length - 1 - i) (setNextTo (mkId 2 (i + 1)))) (i + 1) c).2) := by
  simp only [round2Loop]
  rw [if_neg hbye]
  simp [hi, modifyAt_length]

theorem round2Step_D (b : List String) (r1 : List BNode) (i c : ℕ)
    (hbye : ¬ i < b.length) (hi : ¬ i < r1.length) :
    round2Loop b r1 i (c + 1) =
      ((round2Loop b (modifyAt r1 (i - b.length) (setNextTo (mkId 2 (i + 1))))
          (i + 1) c).1,
        { match_id := mkId 2 (i + 1), stage := "Knockouts", round := "Round 2",
          participant_a := "Winner of " ++ nthId r1 (i - b.length), participant_b := "TBD",
          next_match_id := none } ::
        (round2Loop b (modifyAt r1 (i - b.length) (setNextTo (mkId 2 (i + 1))))
          (i + 1) c).2) := by
  simp only [round2Loop]
  rw [if_neg hbye]
  simp [hi, modifyAt_length]

end ShuttleSquads

namespace ShuttleSquads

/-! ## Full specification of the Round-2 construction loop -/

/-- What `round2Loop byeTeams r1 i c` guarantees about its two outputs (the
updated Round-1 list and the emitted Round-2 nodes): lengths and identities
are preserved on the Round-1 side, the new ids are `R2-M(i+1) .. R2-M(i+c)`,
Round-1 `next_match_id`s evolve only by being pointed at a new Round-2 id,
the back/front feeding rules set the expected positions, and the new nodes
have no `next_match_id` and reference only Round-1 ids. -/
structure R2Spec (byeTeams : List String) (r1 : List BNode) (i c : ℕ)
    (r1out r2out : List BNode) : Prop where
  len1 : r1out.length = r1.length
  len2 : r2out.length = c
  core : ∀ j, j < r1.length → sameCore (r1.getD j default) (r1out.getD j default)
  ids1 : idsOf r1out = idsOf r1
  ids2 : idsOf r2out = (List.range c).map (fun m => mkId 2 (i + m + 1))
  nextEvolve : ∀ j, j < r1.length → (r1out.getD j default).next_match_id =
      (r1.getD j default).next_match_id ∨
      ∃ k, i < k ∧ k ≤ i + c ∧ (r1out.getD j default).next_match_id = some (mkId 2 k)
  coverBack : ∀ u, i ≤ u → u < i + c → u < r1.length →
      ∃ k, i < k ∧ k ≤ i + c ∧
        (r1out.getD (r1.length - 1 - u) default).next_match_id = some (mkId 2 k)
  coverFront : ∀ u, i ≤ u → u < i + c → byeTeams.length ≤ u →
      ∃ k, i < k ∧ k ≤ i + c ∧
        (r1out.getD (u - byeTeams.length) default).next_match_id = some (mkId 2 k)
  next2 : ∀ n ∈ r2out, n.next_match_id = none
  refs2 : ∀ n ∈ r2out, ∀ t, referencesId n t = true → t ∈ idsOf r1

/-- Composing one loop step with the specification of the remaining
iterations. -/
theorem R2Spec_step (byeTeams : List String) (r1 r1b : List BNode) (i c : ℕ)
    (node : BNode) (out1 out2 : List BNode)
    (hD : i + (c + 1) ≤ byeTeams.length + r1.length)
    (hlen : r1b.length = r1.length)
    (hids : idsOf r1b = idsOf r1)
    (hcore : ∀ j, j < r1.length → sameCore (r1.getD j default) (r1b.getD j default))
    (hnext : ∀ j, j < r1.length → (r1b.getD j default).next_match_id =
        (r1.getD j default).next_match_id ∨
        (r1b.getD j default).next_match_id = some (mkId 2 (i + 1)))
    (hback : i < r1.length → (r1b.getD (r1.length - 1 - i) default).next_match_id =
        some (mkId 2 (i + 1)))
    (hfront : byeTeams.length ≤ i → i - byeTeams.length < r1.length →
        (r1b.getD (i - byeTeams.length) default).next_match_id = some (mkId 2 (i + 1)))
    (hnodeid : node.match_id = mkId 2 (i + 1))
    (hnodenext : node.next_match_id = none)
    (hnoderefs : ∀ t, referencesId node t = true → t ∈ idsOf r1)
    (S : R2Spec byeTeams r1b (i + 1) c out1 out2) :
    R2Spec byeTeams r1 i (c + 1) out1 (node :: out2) := by
  refine {
    len1 := S.len1.trans hlen
    len2 := by simp [S.len2]
    core := ?_
    ids1 := S.ids1.trans hids
    ids2 := ?_
    nextEvolve := ?_
    coverBack := ?_
    coverFront := ?_
    next2 := ?_
    refs2 := ?_ }
  · intro j hj
    exact sameCore_trans (hcore j hj) (S.core j (by rw [hlen]; exact hj))
  · show node.match_id :: idsOf out2 = _
    rw [hnodeid, S.ids2, List.range_succ_eq_map, List.map_cons, List.map_map]
    congr 1
    apply List.map_congr_left
    intro m hm
    show mkId 2 (i + 1 + m + 1) = mkId 2 (i + (m + 1) + 1)
    congr 1
    omega
  · intro j hj
    rcases S.nextEvolve j (by rw [hlen]; exact hj) with h | ⟨k, h1, h2, h3⟩
    · rw [h]
      rcases hnext j hj with h' | h'
      · exact Or.inl h'
      · exact Or.inr ⟨i + 1, by omega, by omega, h'⟩
    · exact Or.inr ⟨k, by omega, by omega, h3⟩
  · intro u h1 h2 h3
    by_cases hu : u = i
    · subst hu
      have hpos : r1.length - 1 - u < r1.length := by omega
      rcases S.nextEvolve (r1.length - 1 - u) (by rw [hlen]; exact hpos) with h | ⟨k, k1, k2, k3⟩
      · exact ⟨u + 1, by omega, by omega, by rw [h]; exact hback h3⟩
      · exact ⟨k, by omega, by omega, k3⟩
    · have := S.coverBack u (by omega) (by omega) (by rw [hlen]; omega)
      rw [hlen] at this
      obtain ⟨k, k1, k2, k3⟩ := this
      exact ⟨k, by omega, by omega, k3⟩
  · intro u h1 h2 h3
    by_cases hu : u = i
    · subst hu
      have hpos : u - byeTeams.length < r1.length := by omega
      rcases S.nextEvolve (u - byeTeams.length) (by rw [hlen]; exact hpos) with h | ⟨k, k1, k2, k3⟩
      · exact ⟨u + 1, by omega, by omega, by rw [h]; exact hfront h3 hpos⟩
      · exact ⟨k, by omega, by omega, k3⟩
    · obtain ⟨k, k1, k2, k3⟩ := S.coverFront u (by omega) (by omega) h3
      exact ⟨k, by omega, by omega, k3⟩
  · intro n hn
    rcases List.mem_cons.mp hn with rfl | hn
    · exact hnodenext
    · exact S.next2 n hn
  · intro n hn t ht
    rcases List.mem_cons.mp hn with rfl | hn
    · exact hnoderefs t ht
    · have := S.refs2 n hn t ht
      rw [hids] at this
      exact this

end ShuttleSquads

namespace ShuttleSquads

theorem round2Loop_spec (byeTeams : List String)
    (hBye : ∀ s ∈ byeTeams, ∀ t, s ≠ "Winner of " ++ t ∧ s ≠ "Loser of " ++ t) :
    ∀ (c i : ℕ) (r1 : List BNode), i + c ≤ byeTeams.length + r1.length →
    R2Spec byeTeams r1 i c (round2Loop byeTeams r1 i c).1 (round2Loop byeTeams r1 i c).2 := by
  intro c
  induction c with
  | zero =>
    intro i r1 hD
    exact {
      len1 := rfl
      len2 := rfl
      core := fun j hj => sameCore_refl _
      ids1 := rfl
      ids2 := rfl
      nextEvolve := fun j hj => Or.inl rfl
      coverBack := fun u h1 h2 _ => absurd h2 (by omega)
      coverFront := fun u h1 h2 _ => absurd h2 (by omega)
      next2 := by intro n hn; exact absurd hn (by simp [round2Loop])
      refs2 := by intro n hn; exact absurd hn (by simp [round2Loop]) }
  | succ c ih =>
    intro i r1 hD
    by_cases hbye : i < byeTeams.length
    · by_cases hi : i < r1.length
      · -- bye seed vs back Round-1 winner
        rw [round2Step_A byeTeams r1 i c hbye hi]
        have hP : r1.length - 1 - i < r1.length := by omega
        refine R2Spec_step byeTeams r1 _ i c _ _ _ hD
          (modifyAt_length r1 _ _) (idsOf_modifyAt r1 _ _)
          (fun j hj => sameCore_modifyAt_setNext r1 _ _ j hj)
          (fun j hj => ?_) (fun _ => ?_) (fun hble _ => absurd hble (by omega))
          rfl rfl ?_
          (ih (i + 1) _ (by rw [modifyAt_length]; omega))
        · rw [next_getD_modifyAt_setNext r1 _ _ j hP]
          by_cases hjp : j = r1.length - 1 - i
          · rw [if_pos hjp]
            exact Or.inr rfl
          · rw [if_neg hjp]
            exact Or.inl rfl
        · rw [getD_modifyAt_self r1 _ _ default hP]
          rfl
        · intro t ht
          rcases (referencesId_iff _ t).mp ht with h | h | h | h
          · exact absurd h (hBye _ (getD_mem byeTeams i "" hbye) t).1
          · rw [winner_str_inj _ _ h.symm]
            exact mem_idsOf_getD r1 _ hP
          · exact absurd h (hBye _ (getD_mem byeTeams i "" hbye) t).2
          · exact absurd h (winner_ne_loser _ _)
      · -- bye seed vs "TBD"
        rw [round2Step_B byeTeams r1 i c hbye hi]
        refine R2Spec_step byeTeams r1 r1 i c _ _ _ hD rfl rfl
          (fun j hj => sameCore_refl _) (fun j hj => Or.inl rfl)
          (fun hi' => absurd hi' hi) (fun hble _ => absurd hble (by omega))
          rfl rfl ?_ (ih (i + 1) r1 (by omega))
        intro t ht
        rcases (referencesId_iff _ t).mp ht with h | h | h | h
        · exact absurd h (hBye _ (getD_mem byeTeams i "" hbye) t).1
        · exact absurd h ((tbd_not_ref t).1)
        · exact absurd h (hBye _ (getD_mem byeTeams i "" hbye) t).2
        · exact absurd h ((tbd_not_ref t).2)
    · by_cases hi : i < r1.length
      · -- front Round-1 winner vs back Round-1 winner
        rw [round2Step_C byeTeams r1 i c hbye hi]
        have hQ : i - byeTeams.length < r1.length := by omega
        have hP : r1.length - 1 - i < r1.length := by omega
        have hlen1 : (modifyAt r1 (i - byeTeams.length)
            (setNextTo (mkId 2 (i + 1)))).length = r1.length := modifyAt_length r1 _ _
        have hP' : r1.length - 1 - i <
            (modifyAt r1 (i - byeTeams.length) (setNextTo (mkId 2 (i + 1)))).length := by
          rw [hlen1]; exact hP
        refine R2Spec_step byeTeams r1 _ i c _ _ _ hD
          (by rw [modifyAt_length, hlen1]) (by rw [idsOf_modifyAt, idsOf_modifyAt])
          (fun j hj => ?_) (fun j hj => ?_) (fun _ => ?_) (fun _ _ => ?_)
          rfl rfl ?_
          (ih (i + 1) _ (by rw [modifyAt_length, hlen1]; omega))
        · exact sameCore_trans (sameCore_modifyAt_setNext r1 _ _ j hj)
            (sameCore_modifyAt_setNext _ _ _ j (by rw [hlen1]; exact hj))
        · rw [next_getD_modifyAt_setNext _ _ _ j hP']
          by_cases hjp : j = r1.length - 1 - i
          · rw [if_pos hjp]
            exact Or.inr rfl
          · rw [if_neg hjp, next_getD_modifyAt_setNext r1 _ _ j hQ]
            by_cases hjq : j = i - byeTeams.length
            · rw [if_pos hjq]
              exact Or.inr rfl
            · rw [if_neg hjq]
              exact Or.inl rfl
        · rw [getD_modifyAt_self _ _ _ default hP']
          rfl
        · by_cases hqp : i - byeTeams.length = r1.length - 1 - i
          · rw [hqp, getD_modifyAt_self _ _ _ default (by rw [modifyAt_length]; exact hP)]
            rfl
          · rw [getD_modifyAt_ne _ _ _ _ default hqp,
              getD_modifyAt_self r1 _ _ default hQ]
            rfl
        · intro t ht
          rcases (referencesId_iff _ t).mp ht with h | h | h | h
          · rw [winner_str_inj _ _ h.symm]
            exact mem_idsOf_getD r1 _ hQ
          · rw [winner_str_inj _ _ h.symm]
            exact mem_idsOf_getD r1 _ hP
          · exact absurd h (winner_ne_loser _ _)
          · exact absurd h (winner_ne_loser _ _)
      · -- front Round-1 winner vs "TBD"
        rw [round2Step_D byeTeams r1 i c hbye hi]
        have hQ : i - byeTeams.length < r1.length := by omega
        refine R2Spec_step byeTeams r1 _ i c _ _ _ hD
          (modifyAt_length r1 _ _) (idsOf_modifyAt r1 _ _)
          (fun j hj => sameCore_modifyAt_setNext r1 _ _ j hj)
          (fun j hj => ?_) (fun hi' => absurd hi' hi) (fun _ _ => ?_)
          rfl rfl ?_
          (ih (i + 1) _ (by rw [modifyAt_length]; omega))
        · rw [next_getD_modifyAt_setNext r1 _ _ j hQ]
          by_cases hjq : j = i - byeTeams.length
          · rw [if_pos hjq]
            exact Or.inr rfl
          · rw [if_neg hjq]
            exact Or.inl rfl
        · rw [getD_modifyAt_self r1 _ _ default hQ]
          rfl
        · intro t ht
          rcases (referencesId_iff _ t).mp ht with h | h | h | h
          · rw [winner_str_inj _ _ h.symm]
            exact mem_idsOf_getD r1 _ hQ
          · exact absurd h ((tbd_not_ref t).1)
          · exact absurd h (winner_ne_loser _ _)
          · exact absurd h ((tbd_not_ref t).2)

end ShuttleSquads

namespace ShuttleSquads


/-! ## Facts about the Round-1 node list -/

theorem round1Nodes_length (p : List String) (cnt : ℕ) :
    (round1Nodes p cnt).length = cnt := by
  simp [round1Nodes]

theorem round1Nodes_getD (p : List String) (cnt j : ℕ) (h : j < cnt) :
    (round1Nodes p cnt).getD j default =
      { match_id := mkId 1 (j + 1), stage := "Knockouts", round := "Round 1 (Wildcard)",
        participant_a := p.getD j "", participant_b := p.getD (p.length - 1 - j) "",
        next_match_id := none } := by
  unfold round1Nodes
  rw [List.getD_eq_getElem _ default (by simpa using h)]
  simp

theorem round1Nodes_ids (p : List String) (cnt : ℕ) :
    idsOf (round1Nodes p cnt) = (List.range cnt).map (fun m => mkId 1 (m + 1)) := by
  simp [idsOf, round1Nodes]

theorem round1Nodes_ids_nodup (p : List String) (cnt : ℕ) :
    (idsOf (round1Nodes p cnt)).Nodup := by
  rw [round1Nodes_ids]
  refine List.Nodup.map ?_ (List.nodup_range cnt)
  intro a b hab
  have := mkId_inj 1 (a + 1) 1 (b + 1) hab
  omega

theorem round1Nodes_next (p : List String) (cnt : ℕ) :
    ∀ n ∈ round1Nodes p cnt, n.next_match_id = none := by
  intro n hn
  simp only [round1Nodes, List.mem_map] at hn
  obtain ⟨m, hm, rfl⟩ := hn
  rfl

theorem empty_not_ref (t : String) :
    "" ≠ "Winner of " ++ t ∧ "" ≠ "Loser of " ++ t := by
  have e1 : ("Winner of " ++ t).data.head? = some 'W' := by rw [String.data_append]; rfl
  have e2 : ("Loser of " ++ t).data.head? = some 'L' := by rw [String.data_append]; rfl
  constructor
  · intro h
    have h2 : ("" : String).data.head? = ("Winner of " ++ t).data.head? := by rw [h]
    rw [e1] at h2
    exact absurd h2 (by decide)
  · intro h
    have h2 : ("" : String).data.head? = ("Loser of " ++ t).data.head? := by rw [h]
    rw [e2] at h2
    exact absurd h2 (by decide)

theorem round1Nodes_refs (p : List String) (cnt : ℕ)
    (hp : ∀ s ∈ p, ∀ t, s ≠ "Winner of " ++ t ∧ s ≠ "Loser of " ++ t) :
    ∀ n ∈ round1Nodes p cnt, ∀ t, referencesId n t = false := by
  intro n hn
  simp only [round1Nodes, List.mem_map] at hn
  obtain ⟨m, hm, rfl⟩ := hn
  apply referencesId_false
  · intro t
    show p.getD m "" ≠ "Winner of " ++ t ∧ p.getD m "" ≠ "Loser of " ++ t
    by_cases hm' : m < p.length
    · exact hp _ (getD_mem p m "" hm') t
    · rw [List.getD_eq_default _ _ (by omega)]
      exact empty_not_ref t
  · intro t
    show p.getD (p.length - 1 - m) "" ≠ "Winner of " ++ t ∧
      p.getD (p.length - 1 - m) "" ≠ "Loser of " ++ t
    by_cases hp0 : p.length = 0
    · rw [List.getD_eq_default _ _ (by omega)]
      exact empty_not_ref t
    · exact hp _ (getD_mem p _ "" (by omega)) t

theorem idsOf_eq_of_sameCore (a b : List BNode) (hlen : a.length = b.length)
    (h : ∀ j, j < b.length → sameCore (b.getD j default) (a.getD j default)) :
    idsOf a = idsOf b := by
  apply List.ext_getElem (by simp [idsOf, hlen])
  intro i h1 h2
  simp only [idsOf, List.getElem_map]
  have h1' : i < a.length := by simpa [idsOf] using h1
  have h2' : i < b.length := by simpa [idsOf] using h2
  have := (h i h2').1
  rw [List.getD_eq_getElem a default h1', List.getD_eq_getElem b default h2'] at this
  exact this.symm

theorem bronzeNode_refs (cur : List BNode) (h2 : 2 ≤ cur.length) :
    ∀ t, referencesId (bronzeNode cur) t = true → t ∈ idsOf cur := by
  intro t ht
  rcases (referencesId_iff _ t).mp ht with h | h | h | h
  · exact absurd h.symm (winner_ne_loser _ _)
  · exact absurd h.symm (winner_ne_loser _ _)
  · rw [← loser_str_inj _ _ h]
    exact mem_idsOf_getD cur 0 (by omega)
  · rw [← loser_str_inj _ _ h]
    exact mem_idsOf_getD cur 1 (by omega)

end ShuttleSquads

namespace ShuttleSquads

/-! ## Specification of the remaining-rounds loop -/

/-- Invariant of the current-round list fed into the remaining-rounds loop:
distinct ids, none of them of a form the loop may still generate, no
`next_match_id` set yet, and participant references staying clear of both the
current list's ids and all ids the loop may still generate. -/
structure LoopPre (rnum : ℕ) (cur : List BNode) : Prop where
  nodup : (idsOf cur).Nodup
  notGen : ∀ id ∈ idsOf cur, ¬ isGenId rnum id
  nextNone : ∀ n ∈ cur, n.next_match_id = none
  refSafe : ∀ j, j < cur.length → ∀ t, referencesId (cur.getD j default) t = true →
      t ∉ idsOf cur ∧ ¬ isGenId rnum t

/-- What the remaining-rounds loop guarantees about its output: the current
round survives as a prefix with only `next_match_id` fields filled in (all of
them set, pointing at later-generated nodes), all ids are distinct, every
`next_match_id` and every participant reference points at a strictly earlier
position of the list than the node carrying the pointed-at id (respectively a
strictly later one), and the nodes without any outgoing reference are exactly
the championship final plus, in the standard track, the third-place match. -/
structure LoopSpec (ipl : Bool) (cur : List BNode) (rnum : ℕ) (out : List BNode) : Prop where
  len : cur.length ≤ out.length
  core : ∀ j, j < cur.length → sameCore (cur.getD j default) (out.getD j default)
  nextSet : ∀ j, j < cur.length → (out.getD j default).next_match_id ≠ none
  nextFwd : ∀ i, i < out.length → ∀ id, (out.getD i default).next_match_id = some id →
      isGenId rnum id ∧ ∀ j, j < out.length → (out.getD j default).match_id = id → i < j
  newGen : ∀ j, cur.length ≤ j → j < out.length →
      isGenId rnum ((out.getD j default).match_id)
  nodup : (idsOf out).Nodup
  refFwd : ∀ j, j < out.length → ∀ t, referencesId (out.getD j default) t = true →
      ∀ i, i < out.length → (out.getD i default).match_id = t → i < j
  terminalIff : ∀ n ∈ out,
      (n.next_match_id = none ∧ ∀ m ∈ out, referencesId m n.match_id = false) ↔
      (n.match_id = "Final-M1" ∨ (ipl = false ∧ n.match_id = "Bronze-M1"))
  finalMem : "Final-M1" ∈ idsOf out
  bronzeMem : ipl = false → "Bronze-M1" ∈ idsOf out

/-- The last pairing pass (two matches left): the final is emitted and, in the
standard track, the third-place match. -/
theorem loopFinal_spec (ipl : Bool) (cur : List BNode) (rnum : ℕ)
    (hlen : cur.length = 2) (pre : LoopPre rnum cur) :
    LoopSpec ipl cur rnum
      ((pairRound cur rnum 1 true).1 ++ (pairRound cur rnum 1 true).2 ++
        (if ipl = false then [bronzeNode cur] else [])) := by
  obtain ⟨p1, p2, p3, p4, p5, p6⟩ := pairRound_spec cur rnum 1 true (by rw [hlen])
  set A := (pairRound cur rnum 1 true).1 with hA
  set B := (pairRound cur rnum 1 true).2 with hB
  set C := (if ipl = false then [bronzeNode cur] else []) with hC
  have p3' : ∀ j, j < cur.length → (A.getD j default).next_match_id = some "Final-M1" := by
    intro j hj
    have := p3 j hj
    simpa using this
  have p4' : idsOf B = ["Final-M1"] := by
    rw [p4, hlen]
    rfl
  have hA2 : A.length = 2 := p1.trans hlen
  have hB1 : B.length = 1 := by
    have := congrArg List.length p4'
    simpa [idsOf] using this
  have houtlen : (A ++ B ++ C).length = 3 + C.length := by
    simp only [List.length_append, hA2, hB1]
  have hpos0 : ∀ j, j < 2 → (A ++ B ++ C).getD j default = A.getD j default := by
    intro j hj
    rw [getD_append_left _ _ _ j (by simp only [List.length_append, hA2, hB1]; omega)]
    exact getD_append_left _ _ _ j (by omega)
  have hpos2 : (A ++ B ++ C).getD 2 default = B.getD 0 default := by
    rw [getD_append_left _ _ _ 2 (by simp only [List.length_append, hA2, hB1]; omega)]
    rw [getD_append_right _ _ _ 2 hA2.le]
    rw [hA2]
  have hpos3 : ∀ j, 3 ≤ j → j < (A ++ B ++ C).length → (A ++ B ++ C).getD j default ∈ C := by
    intro j h3 hlt
    rw [getD_append_right _ _ _ j (by simp only [List.length_append, hA2, hB1]; omega)]
    apply getD_mem
    simp only [List.length_append, hA2, hB1] at hlt ⊢
    omega
  have hmem : ∀ n ∈ A ++ B ++ C, n ∈ A ∨ n ∈ B ∨ n ∈ C := by
    intro n hn
    simp only [List.mem_append] at hn
    tauto
  have hidsA : idsOf A = idsOf cur := idsOf_eq_of_sameCore A cur p1 p2
  have hAid : ∀ j, j < 2 → (A.getD j default).match_id = (cur.getD j default).match_id := by
    intro j hj
    exact ((p2 j (by omega)).1).symm
  have hBid : ∀ n ∈ B, n.match_id = "Final-M1" := by
    intro n hn
    have : n.match_id ∈ idsOf B := List.mem_map_of_mem BNode.match_id hn
    rw [p4'] at this
    simpa using this
  have hCcase : ∀ n ∈ C, ipl = false ∧ n = bronzeNode cur := by
    intro n hn
    rw [hC] at hn
    by_cases hip : ipl = false
    · rw [if_pos hip] at hn
      simp only [List.mem_singleton] at hn
      exact ⟨hip, hn⟩
    · rw [if_neg hip] at hn
      exact absurd hn (by simp)
  have hCid : ∀ n ∈ C, n.match_id = "Bronze-M1" := fun n hn => by
    rw [(hCcase n hn).2]
    rfl
  have hCnext : ∀ n ∈ C, n.next_match_id = none := fun n hn => by
    rw [(hCcase n hn).2]
    rfl
  have hCrefs : ∀ n ∈ C, ∀ t, referencesId n t = true → t ∈ idsOf cur := by
    intro n hn t ht
    exact bronzeNode_refs cur (by omega) t (by rwa [(hCcase n hn).2] at ht)
  have hidsC : idsOf C = if ipl = false then ["Bronze-M1"] else [] := by
    rw [hC]
    by_cases hip : ipl = false <;> simp [hip, idsOf, bronzeNode]
  have hFnotcur : "Final-M1" ∉ idsOf cur := fun hm =>
    pre.notGen _ hm (isGenId_special rnum _ (by simp [specialIds]))
  have hBnotcur : "Bronze-M1" ∉ idsOf cur := fun hm =>
    pre.notGen _ hm (isGenId_special rnum _ (by simp [specialIds]))
  have hcurid_mem : ∀ j, j < 2 → (cur.getD j default).match_id ∈ idsOf cur := by
    intro j hj
    exact mem_idsOf_getD cur j (by omega)
  have hArefs : ∀ j, j < 2 → ∀ t,
      referencesId (A.getD j default) t = referencesId (cur.getD j default) t := by
    intro j hj t
    exact referencesId_sameCore (p2 j (by omega)) t
  have hBrefs : ∀ n ∈ B, ∀ t, referencesId n t = true → t ∈ idsOf cur := p6
  have hidsout : idsOf (A ++ B ++ C) = idsOf cur ++ ["Final-M1"] ++ idsOf C := by
    show ((A ++ B) ++ C).map BNode.match_id = _
    rw [List.map_append, List.map_append]
    show idsOf A ++ idsOf B ++ idsOf C = _
    rw [hidsA, p4']
  have norefs : ∀ s, isGenId rnum s → ∀ m ∈ A ++ B ++ C, referencesId m s = false := by
    intro s hgen m hm
    rw [← Bool.not_eq_true]
    intro hc
    rcases hmem m hm with hmA | hmB | hmC
    · obtain ⟨j, hj, rfl⟩ := mem_getD A m hmA
      rw [hArefs j (by omega) s] at hc
      exact (pre.refSafe j (by omega) s hc).2 hgen
    · exact pre.notGen s (hBrefs m hmB s hc) hgen
    · exact pre.notGen s (hCrefs m hmC s hc) hgen
  refine {
    len := by omega
    core := ?_
    nextSet := ?_
    nextFwd := ?_
    newGen := ?_
    nodup := ?_
    refFwd := ?_
    terminalIff := ?_
    finalMem := ?_
    bronzeMem := ?_ }
  · intro j hj
    rw [hpos0 j (by omega)]
    exact p2 j hj
  · intro j hj
    rw [hpos0 j (by omega), p3' j hj]
    simp
  · intro i hi id hnext
    by_cases hi2 : i < 2
    · rw [hpos0 i hi2, p3' i (by omega)] at hnext
      have hid : id = "Final-M1" := (Option.some.inj hnext).symm
      subst hid
      refine ⟨isGenId_special rnum _ (by simp [specialIds]), ?_⟩
      intro j hj hjid
      by_cases hj2 : j < 2
      · exfalso
        rw [hpos0 j hj2, hAid j hj2] at hjid
        exact hFnotcur (hjid ▸ hcurid_mem j hj2)
      · omega
    · exfalso
      by_cases hi3 : i = 2
      · subst hi3
        rw [hpos2, p5 _ (getD_mem B 0 default (by omega))] at hnext
        exact Option.noConfusion hnext
      · rw [hCnext _ (hpos3 i (by omega) hi)] at hnext
        exact Option.noConfusion hnext
  · intro j hj2 hjlt
    rw [hlen] at hj2
    by_cases hj3 : j = 2
    · subst hj3
      rw [hpos2, hBid _ (getD_mem B 0 default (by omega))]
      exact isGenId_special rnum _ (by simp [specialIds])
    · rw [hCid _ (hpos3 j (by omega) hjlt)]
      exact isGenId_special rnum _ (by simp [specialIds])
  · rw [hidsout, hidsC]
    by_cases hip : ipl = false <;>
      simp [hip, List.nodup_append, pre.nodup, hFnotcur, hBnotcur]
  · intro j hj t ht i hi hid
    by_cases hj2 : j < 2
    · exfalso
      rw [hpos0 j hj2, hArefs j hj2 t] at ht
      obtain ⟨hnotin, hnotgen⟩ := pre.refSafe j (by omega) t ht
      by_cases hi2 : i < 2
      · rw [hpos0 i hi2, hAid i hi2] at hid
        exact hnotin (hid ▸ hcurid_mem i hi2)
      · by_cases hi3 : i = 2
        · subst hi3
          rw [hpos2, hBid _ (getD_mem B 0 default (by omega))] at hid
          exact hnotgen (hid ▸ isGenId_special rnum _ (by simp [specialIds]))
        · rw [hCid _ (hpos3 i (by omega) hi)] at hid
          exact hnotgen (hid ▸ isGenId_special rnum _ (by simp [specialIds]))
    · have htin : t ∈ idsOf cur := by
        by_cases hj3 : j = 2
        · subst hj3
          rw [hpos2] at ht
          exact hBrefs _ (getD_mem B 0 default (by omega)) t ht
        · exact hCrefs _ (hpos3 j (by omega) hj) t ht
      by_cases hi2 : i < 2
      · omega
      · exfalso
        by_cases hi3 : i = 2
        · subst hi3
          rw [hpos2, hBid _ (getD_mem B 0 default (by omega))] at hid
          exact hFnotcur (hid ▸ htin)
        · rw [hCid _ (hpos3 i (by omega) hi)] at hid
          exact hBnotcur (hid ▸ htin)
  · intro n hn
    rcases hmem n hn with hmA | hmB | hmC
    · obtain ⟨j, hj, rfl⟩ := mem_getD A n hmA
      constructor
      · rintro ⟨h1, -⟩
        exfalso
        rw [p3' j (by omega)] at h1
        exact Option.noConfusion h1
      · rintro (hF | ⟨-, hBz⟩) <;> exfalso
        · rw [hAid j (by omega)] at hF
          exact hFnotcur (hF ▸ hcurid_mem j (by omega))
        · rw [hAid j (by omega)] at hBz
          exact hBnotcur (hBz ▸ hcurid_mem j (by omega))
    · have hidF := hBid n hmB
      exact ⟨fun _ => Or.inl hidF,
        fun _ => ⟨p5 n hmB, fun m hm => by
          rw [hidF]
          exact norefs _ (isGenId_special rnum _ (by simp [specialIds])) m hm⟩⟩
    · have hidB := hCid n hmC
      exact ⟨fun _ => Or.inr ⟨(hCcase n hmC).1, hidB⟩,
        fun _ => ⟨hCnext n hmC, fun m hm => by
          rw [hidB]
          exact norefs _ (isGenId_special rnum _ (by simp [specialIds])) m hm⟩⟩
  · rw [hidsout]
    simp
  · intro hip
    rw [hidsout, hidsC, if_pos hip]
    simp

end ShuttleSquads

namespace ShuttleSquads

/-! ## The IPL page-playoff terminal case -/

theorem iplConnect_length (cur : List BNode) : (iplConnect cur).length = cur.length := by
  unfold iplConnect
  rw [modifyAt_length, modifyAt_length, modifyAt_length, modifyAt_length]

theorem iplConnect_ids (cur : List BNode) : idsOf (iplConnect cur) = idsOf cur := by
  unfold iplConnect
  rw [idsOf_modifyAt, idsOf_modifyAt, idsOf_modifyAt, idsOf_modifyAt]

theorem iplConnect_core (cur : List BNode) (j : ℕ) (hj : j < cur.length) :
    sameCore (cur.getD j default) ((iplConnect cur).getD j default) := by
  unfold iplConnect
  exact sameCore_trans (sameCore_trans (sameCore_trans
    (sameCore_modifyAt_setNext cur 0 _ j hj)
    (sameCore_modifyAt_setNext _ 1 _ j (by rw [modifyAt_length]; exact hj)))
    (sameCore_modifyAt_setNext _ 2 _ j (by rw [modifyAt_length, modifyAt_length]; exact hj)))
    (sameCore_modifyAt_setNext _ 3 _ j
      (by rw [modifyAt_length, modifyAt_length, modifyAt_length]; exact hj))

theorem iplConnect_next (cur : List BNode) (h4 : cur.length = 4) :
    ∀ j, j < 4 → ((iplConnect cur).getD j default).next_match_id =
      some (if j ≤ 1 then "Q1" else "Elim-1") := by
  intro j hj
  unfold iplConnect
  rw [next_getD_modifyAt_setNext _ 3 _ j
      (by rw [modifyAt_length, modifyAt_length, modifyAt_length, h4]; omega),
    next_getD_modifyAt_setNext _ 2 _ j
      (by rw [modifyAt_length, modifyAt_length, h4]; omega),
    next_getD_modifyAt_setNext _ 1 _ j (by rw [modifyAt_length, h4]; omega),
    next_getD_modifyAt_setNext _ 0 _ j (by rw [h4]; omega)]
  interval_cases j <;> simp

theorem loopPage_spec (cur : List BNode) (rnum : ℕ)
    (h4 : cur.length = 4) (pre : LoopPre rnum cur) :
    LoopSpec true cur rnum (iplConnect cur ++ iplNodes cur) := by
  have hclen : (iplConnect cur).length = 4 := (iplConnect_length cur).trans h4
  have houtlen : (iplConnect cur ++ iplNodes cur).length = 8 := by
    simp [List.length_append, hclen, iplNodes]
  have hpos : ∀ j, j < 4 →
      (iplConnect cur ++ iplNodes cur).getD j default = (iplConnect cur).getD j default := by
    intro j hj
    exact getD_append_left _ _ _ j (by omega)
  have hposR : ∀ j, 4 ≤ j →
      (iplConnect cur ++ iplNodes cur).getD j default = (iplNodes cur).getD (j - 4) default := by
    intro j hj
    rw [getD_append_right _ _ _ j (by omega), hclen]
  have hid : ∀ j, j < 4 →
      ((iplConnect cur ++ iplNodes cur).getD j default).match_id =
        (cur.getD j default).match_id := by
    intro j hj
    rw [hpos j hj]
    exact (iplConnect_core cur j (by omega)).1.symm
  have hidmem : ∀ j, j < 4 →
      ((iplConnect cur ++ iplNodes cur).getD j default).match_id ∈ idsOf cur := by
    intro j hj
    rw [hid j hj]
    exact mem_idsOf_getD cur j (by omega)
  have hspecial : ∀ s ∈ specialIds, isGenId rnum s := fun s hs => isGenId_special rnum s hs
  have hQ1gen : isGenId rnum "Q1" := hspecial _ (by simp [specialIds])
  have hElimgen : isGenId rnum "Elim-1" := hspecial _ (by simp [specialIds])
  have hQ2gen : isGenId rnum "Q2" := hspecial _ (by simp [specialIds])
  have hFgen : isGenId rnum "Final-M1" := hspecial _ (by simp [specialIds])
  have hnotcur : ∀ s, isGenId rnum s → s ∉ idsOf cur := fun s hg hm => pre.notGen s hm hg
  have hids4 : ∀ j, 4 ≤ j → j < 8 →
      ((iplConnect cur ++ iplNodes cur).getD j default).match_id =
        ["Q1", "Elim-1", "Q2", "Final-M1"].getD (j - 4) "" := by
    intro j h1 h2
    rw [hposR j h1]
    interval_cases j <;> rfl
  have hrefs4 : ∀ j, 4 ≤ j → j < 8 → ∀ t,
      referencesId ((iplConnect cur ++ iplNodes cur).getD j default) t = true →
      t ∈ idsOf cur ∨ t ∈ ["Q1", "Elim-1", "Q2"] := by
    intro j h1 h2 t ht
    rw [hposR j h1] at ht
    interval_cases j
    · rcases (referencesId_iff _ t).mp ht with h | h | h | h
      · rw [← winner_str_inj _ _ h]
        exact Or.inl (mem_idsOf_getD cur 0 (by omega))
      · rw [← winner_str_inj _ _ h]
        exact Or.inl (mem_idsOf_getD cur 1 (by omega))
      · exact absurd h (winner_ne_loser _ _)
      · exact absurd h (winner_ne_loser _ _)
    · rcases (referencesId_iff _ t).mp ht with h | h | h | h
      · rw [← winner_str_inj _ _ h]
        exact Or.inl (mem_idsOf_getD cur 2 (by omega))
      · rw [← winner_str_inj _ _ h]
        exact Or.inl (mem_idsOf_getD cur 3 (by omega))
      · exact absurd h (winner_ne_loser _ _)
      · exact absurd h (winner_ne_loser _ _)
    · rcases (referencesId_iff _ t).mp ht with h | h | h | h
      · exact absurd h.symm (winner_ne_loser _ _)
      · rw [← winner_str_inj _ _ h]
        exact Or.inr (by simp)
      · rw [← loser_str_inj _ _ h]
        exact Or.inr (by simp)
      · exact absurd h (winner_ne_loser _ _)
    · rcases (referencesId_iff _ t).mp ht with h | h | h | h
      · rw [← winner_str_inj _ _ h]
        exact Or.inr (by simp)
      · rw [← winner_str_inj _ _ h]
        exact Or.inr (by simp)
      · exact absurd h (winner_ne_loser _ _)
      · exact absurd h (winner_ne_loser _ _)
  refine {
    len := by omega
    core := ?_
    nextSet := ?_
    nextFwd := ?_
    newGen := ?_
    nodup := ?_
    refFwd := ?_
    terminalIff := ?_
    finalMem := ?_
    bronzeMem := fun h => absurd h (by simp) }
  · intro j hj
    rw [hpos j (by omega)]
    exact iplConnect_core cur j hj
  · intro j hj
    rw [hpos j (by omega), iplConnect_next cur h4 j (by omega)]
    simp
  · intro i hi id hnext
    rw [houtlen] at hi
    by_cases hi4 : i < 4
    · rw [hpos i hi4, iplConnect_next cur h4 i hi4] at hnext
      have hideq : id = (if i ≤ 1 then "Q1" else "Elim-1") := (Option.some.inj hnext).symm
      have hidgen : isGenId rnum id := by
        rw [hideq]
        split
        · exact hQ1gen
        · exact hElimgen
      refine ⟨hidgen, ?_⟩
      intro j hj hjid
      rw [houtlen] at hj
      by_cases hj4 : j < 4
      · exact absurd (hjid ▸ hidmem j hj4) (hnotcur id hidgen)
      · have := hids4 j (by omega) hj
        rw [this] at hjid
        rw [hideq] at hjid
        omega
    · have hnext' := hnext
      rw [hposR i (by omega)] at hnext'
      have hj7 : ∀ j, j < (iplConnect cur ++ iplNodes cur).length →
          ((iplConnect cur ++ iplNodes cur).getD j default).match_id = id → i < j → True :=
        fun _ _ _ _ => trivial
      interval_cases i
      · -- Q1 node: next is the final
        have hideq : id = "Final-M1" := (Option.some.inj hnext').symm
        subst hideq
        refine ⟨hFgen, ?_⟩
        intro j hj hjid
        rw [houtlen] at hj
        by_cases hj4 : j < 4
        · exact absurd (hjid ▸ hidmem j hj4) (hnotcur _ hFgen)
        · have := hids4 j (by omega) hj
          rw [this] at hjid
          interval_cases j <;> first | omega | exact absurd hjid (by decide)
      · -- Eliminator: next is Qualifier 2
        have hideq : id = "Q2" := (Option.some.inj hnext').symm
        subst hideq
        refine ⟨hQ2gen, ?_⟩
        intro j hj hjid
        rw [houtlen] at hj
        by_cases hj4 : j < 4
        · exact absurd (hjid ▸ hidmem j hj4) (hnotcur _ hQ2gen)
        · have := hids4 j (by omega) hj
          rw [this] at hjid
          interval_cases j <;> first | omega | exact absurd hjid (by decide)
      · -- Qualifier 2: next is the final
        have hideq : id = "Final-M1" := (Option.some.inj hnext').symm
        subst hideq
        refine ⟨hFgen, ?_⟩
        intro j hj hjid
        rw [houtlen] at hj
        by_cases hj4 : j < 4
        · exact absurd (hjid ▸ hidmem j hj4) (hnotcur _ hFgen)
        · have := hids4 j (by omega) hj
          rw [this] at hjid
          interval_cases j <;> first | omega | exact absurd hjid (by decide)
      · -- the final: no next
        exact absurd hnext' (by simp [iplNodes])
  · intro j hj4 hjlt
    rw [h4] at hj4
    rw [houtlen] at hjlt
    have := hids4 j (by omega) hjlt
    rw [this]
    interval_cases j
    · exact hQ1gen
    · exact hElimgen
    · exact hQ2gen
    · exact hFgen
  · show (idsOf (iplConnect cur ++ iplNodes cur)).Nodup
    have : idsOf (iplConnect cur ++ iplNodes cur) =
        idsOf cur ++ ["Q1", "Elim-1", "Q2", "Final-M1"] := by
      show (iplConnect cur ++ iplNodes cur).map BNode.match_id = _
      rw [List.map_append]
      show idsOf (iplConnect cur) ++ idsOf (iplNodes cur) = _
      rw [iplConnect_ids]
      rfl
    rw [this]
    rw [List.nodup_append]
    refine ⟨pre.nodup, by decide, ?_⟩
    intro s hs
    simp only [List.mem_cons, List.not_mem_nil, or_false] at *
    rintro (rfl | rfl | rfl | rfl)
    · exact hnotcur _ hQ1gen hs
    · exact hnotcur _ hElimgen hs
    · exact hnotcur _ hQ2gen hs
    · exact hnotcur _ hFgen hs
  · intro j hj t ht i hi hid
    rw [houtlen] at hj hi
    by_cases hj4 : j < 4
    · exfalso
      rw [hpos j hj4] at ht
      have ht' : referencesId (cur.getD j default) t = true := by
        rw [← referencesId_sameCore (iplConnect_core cur j (by omega)) t]
        exact ht
      obtain ⟨hnotin, hnotgen⟩ := pre.refSafe j (by omega) t ht'
      by_cases hi4 : i < 4
      · exact hnotin (hid ▸ hidmem i hi4)
      · have := hids4 i (by omega) hi
        rw [this] at hid
        interval_cases i <;> rw [← hid] at hnotgen
        · exact hnotgen hQ1gen
        · exact hnotgen hElimgen
        · exact hnotgen hQ2gen
        · exact hnotgen hFgen
    · rcases hrefs4 j (by omega) hj t ht with htcur | htsp
      · by_cases hi4 : i < 4
        · omega
        · exfalso
          have := hids4 i (by omega) hi
          rw [this] at hid
          interval_cases i <;> rw [← hid] at htcur
          · exact hnotcur _ hQ1gen htcur
          · exact hnotcur _ hElimgen htcur
          · exact hnotcur _ hQ2gen htcur
          · exact hnotcur _ hFgen htcur
      · -- the reference names Q1, Elim-1 or Q2: those sit at positions 4, 5, 6
        -- and are only referenced from positions 6 and 7
        have hjval : j = 6 ∨ j = 7 := by
          by_contra hc
          push_neg at hc
          have hj45 : j = 4 ∨ j = 5 := by omega
          rcases hj45 with rfl | rfl
          · rcases hrefs4 4 (by omega) (by omega) t ht with h | h
            · simp only [List.mem_cons, List.not_mem_nil, or_false] at htsp
              rcases htsp with rfl | rfl | rfl
              · exact hnotcur _ hQ1gen h
              · exact hnotcur _ hElimgen h
              · exact hnotcur _ hQ2gen h
            · -- a Q1-node reference lies in idsOf cur, contradiction with htsp
              rw [hposR 4 (by omega)] at ht
              rcases (referencesId_iff _ t).mp ht with hh | hh | hh | hh
              · rw [← winner_str_inj _ _ hh] at htsp
                exact absurd (mem_idsOf_getD cur 0 (by omega))
                  (fun hm => by
                    simp only [List.mem_cons, List.not_mem_nil, or_false] at htsp
                    rcases htsp with he | he | he
                    · exact hnotcur _ hQ1gen (he ▸ hm)
                    · exact hnotcur _ hElimgen (he ▸ hm)
                    · exact hnotcur _ hQ2gen (he ▸ hm))
              · rw [← winner_str_inj _ _ hh] at htsp
                exact absurd (mem_idsOf_getD cur 1 (by omega))
                  (fun hm => by
                    simp only [List.mem_cons, List.not_mem_nil, or_false] at htsp
                    rcases htsp with he | he | he
                    · exact hnotcur _ hQ1gen (he ▸ hm)
                    · exact hnotcur _ hElimgen (he ▸ hm)
                    · exact hnotcur _ hQ2gen (he ▸ hm))
              · exact absurd hh (winner_ne_loser _ _)
              · exact absurd hh (winner_ne_loser _ _)
          · rw [hposR 5 (by omega)] at ht
            rcases (referencesId_iff _ t).mp ht with hh | hh | hh | hh
            · rw [← winner_str_inj _ _ hh] at htsp
              exact absurd (mem_idsOf_getD cur 2 (by omega))
                (fun hm => by
                  simp only [List.mem_cons, List.not_mem_nil, or_false] at htsp
                  rcases htsp with he | he | he
                  · exact hnotcur _ hQ1gen (he ▸ hm)
                  · exact hnotcur _ hElimgen (he ▸ hm)
                  · exact hnotcur _ hQ2gen (he ▸ hm))
            · rw [← winner_str_inj _ _ hh] at htsp
              exact absurd (mem_idsOf_getD cur 3 (by omega))
                (fun hm => by
                  simp only [List.mem_cons, List.not_mem_nil, or_false] at htsp
                  rcases htsp with he | he | he
                  · exact hnotcur _ hQ1gen (he ▸ hm)
                  · exact hnotcur _ hElimgen (he ▸ hm)
                  · exact hnotcur _ hQ2gen (he ▸ hm))
            · exact absurd hh (winner_ne_loser _ _)
            · exact absurd hh (winner_ne_loser _ _)
        by_cases hi4 : i < 4
        · omega
        · have := hids4 i (by omega) hi
          rw [this] at hid
          -- which special id is referenced from position 6 resp. 7?
          rcases hjval with rfl | rfl
          · rw [hposR 6 (by omega)] at ht
            rcases (referencesId_iff _ t).mp ht with hh | hh | hh | hh
            · exact absurd hh.symm (winner_ne_loser _ _)
            · have : t = "Elim-1" := (winner_str_inj _ _ hh).symm
              subst this
              interval_cases i <;> first | omega | exact absurd hid (by decide)
            · have : t = "Q1" := (loser_str_inj _ _ hh).symm
              subst this
              interval_cases i <;> first | omega | exact absurd hid (by decide)
            · exact absurd hh (winner_ne_loser _ _)
          · rw [hposR 7 (by omega)] at ht
            rcases (referencesId_iff _ t).mp ht with hh | hh | hh | hh
            · have : t = "Q1" := (winner_str_inj _ _ hh).symm
              subst this
              interval_cases i <;> first | omega | exact absurd hid (by decide)
            · have : t = "Q2" := (winner_str_inj _ _ hh).symm
              subst this
              interval_cases i <;> first | omega | exact absurd hid (by decide)
            · exact absurd hh (winner_ne_loser _ _)
            · exact absurd hh (winner_ne_loser _ _)
  · intro n hn
    have hn' := mem_getD _ n hn
    obtain ⟨j, hj, rfl⟩ := hn'
    rw [houtlen] at hj
    by_cases hj4 : j < 4
    · constructor
      · rintro ⟨h1, -⟩
        exfalso
        rw [hpos j hj4, iplConnect_next cur h4 j hj4] at h1
        exact Option.noConfusion h1
      · rintro (hF | ⟨hip, -⟩)
        · exact absurd (hF ▸ hidmem j hj4) (hnotcur _ hFgen)
        · exact Bool.noConfusion hip
    · have hidj := hids4 j (by omega) hj
      interval_cases j
      · constructor
        · rintro ⟨h1, -⟩
          exfalso
          rw [hposR 4 (by omega)] at h1
          exact Option.noConfusion h1
        · rintro (hF | ⟨hip, -⟩)
          · rw [hidj] at hF
            exact absurd hF (by decide)
          · exact Bool.noConfusion hip
      · constructor
        · rintro ⟨h1, -⟩
          exfalso
          rw [hposR 5 (by omega)] at h1
          exact Option.noConfusion h1
        · rintro (hF | ⟨hip, -⟩)
          · rw [hidj] at hF
            exact absurd hF (by decide)
          · exact Bool.noConfusion hip
      · constructor
        · rintro ⟨h1, -⟩
          exfalso
          rw [hposR 6 (by omega)] at h1
          exact Option.noConfusion h1
        · rintro (hF | ⟨hip, -⟩)
          · rw [hidj] at hF
            exact absurd hF (by decide)
          · exact Bool.noConfusion hip
      · -- the final is terminal
        rw [hidj]
        refine ⟨fun _ => Or.inl rfl, fun _ => ⟨by rw [hposR 7 (by omega)]; rfl, ?_⟩⟩
        intro m hm
        rw [← Bool.not_eq_true]
        intro hc
        obtain ⟨i, hi, rfl⟩ := mem_getD _ m hm
        rw [houtlen] at hi
        by_cases hi4 : i < 4
        · rw [hpos i hi4] at hc
          have hc' : referencesId (cur.getD i default) "Final-M1" = true := by
            rw [← referencesId_sameCore (iplConnect_core cur i (by omega)) _]
            exact hc
          exact (pre.refSafe i (by omega) _ hc').2 hFgen
        · rcases hrefs4 i (by omega) hi _ hc with h | h
          · exact hnotcur _ hFgen h
          · exact absurd h (by decide)
  · show "Final-M1" ∈ idsOf (iplConnect cur ++ iplNodes cur)
    show "Final-M1" ∈ (iplConnect cur ++ iplNodes cur).map BNode.match_id
    rw [List.map_append]
    apply List.mem_append_right
    simp [iplNodes]

end ShuttleSquads

namespace ShuttleSquads

/-! ## The remaining-rounds loop: step shapes and the main induction -/

theorem roundsLoopF_step_page (ipl : Bool) (f : ℕ) (cur : List BNode) (rnum : ℕ)
    (h4 : cur.length = 4) (hipl : ipl = true) :
    roundsLoopF ipl (f + 1) cur rnum = iplConnect cur ++ iplNodes cur := by
  show (if cur.length ≤ 1 then cur
    else if cur.length = 4 ∧ ipl = true then iplConnect cur ++ iplNodes cur
    else _) = _
  rw [if_neg (by omega), if_pos ⟨h4, hipl⟩]

theorem roundsLoopF_step_pair (ipl : Bool) (f : ℕ) (cur : List BNode) (rnum : ℕ)
    (h2 : 2 ≤ cur.length) (hnot : ¬ (cur.length = 4 ∧ ipl = true)) :
    roundsLoopF ipl (f + 1) cur rnum =
      (pairRound cur rnum 1 (decide (cur.length = 2))).1 ++
        roundsLoopF ipl f (pairRound cur rnum 1 (decide (cur.length = 2))).2 (rnum + 1) ++
        (if decide (cur.length = 2) = true ∧ ipl = false then [bronzeNode cur] else []) := by
  show (if cur.length ≤ 1 then cur
    else if cur.length = 4 ∧ ipl = true then iplConnect cur ++ iplNodes cur
    else _) = _
  rw [if_neg (by omega), if_neg hnot]

theorem roundsLoopF_spec (ipl : Bool) :
    ∀ (e f : ℕ) (cur : List BNode) (rnum : ℕ), 1 ≤ e → cur.length = 2 ^ e →
    cur.length ≤ f → LoopPre rnum cur →
    LoopSpec ipl cur rnum (roundsLoopF ipl f cur rnum) := by
  intro e
  induction e with
  | zero => intro f cur rnum h1; omega
  | succ e ih =>
    intro f cur rnum h1 hlen hf pre
    have h2e : (2 : ℕ) ^ (e + 1) = 2 * 2 ^ e := by ring
    have h1e : 1 ≤ (2 : ℕ) ^ e := Nat.one_le_two_pow
    have hpow : 2 ≤ cur.length := by omega
    cases f with
    | zero => omega
    | succ f =>
      by_cases hfin : e = 0
      · -- the final pairing: exactly two matches left
        subst hfin
        have h2 : cur.length = 2 := by simpa using hlen
        have hnot : ¬ (cur.length = 4 ∧ ipl = true) := by
          rw [h2]
          rintro ⟨h, -⟩
          omega
        rw [roundsLoopF_step_pair ipl f cur rnum (by omega) hnot]
        have hdec : decide (cur.length = 2) = true := by rw [h2]; rfl
        rw [hdec]
        have hsnd1 : (pairRound cur rnum 1 true).2.length ≤ 1 := by
          rw [pairRound_snd_length, h2]
        rw [roundsLoopF_short ipl f _ (rnum + 1) hsnd1]
        have hbr : (if (true = true ∧ ipl = false) then [bronzeNode cur] else [])
            = (if ipl = false then [bronzeNode cur] else []) := by
          by_cases hip : ipl = false <;> simp [hip]
        rw [hbr]
        exact loopFinal_spec ipl cur rnum h2 pre
      · have h4le : 4 ≤ cur.length := by
          rw [hlen]
          calc 4 = 2 ^ 2 := by norm_num
          _ ≤ 2 ^ (e + 1) := Nat.pow_le_pow_right (by omega) (by omega)
        by_cases hpage : cur.length = 4 ∧ ipl = true
        · obtain ⟨h4, hipl⟩ := hpage
          rw [roundsLoopF_step_page ipl f cur rnum h4 hipl]
          subst hipl
          exact loopPage_spec cur rnum h4 pre
        · -- standard pairing pass, recurse on the next round
          rw [roundsLoopF_step_pair ipl f cur rnum (by omega) hpage]
          have hne2 : cur.length ≠ 2 := by omega
          have hdec : decide (cur.length = 2) = false := by simp [hne2]
          rw [hdec]
          have hbr : (if (false = true ∧ ipl = false) then [bronzeNode cur] else [])
              = [] := by simp
          rw [hbr, List.append_nil]
          have heven : cur.length % 2 = 0 := by omega
          obtain ⟨q1, q2, q3, q4, q5, q6⟩ := pairRound_spec cur rnum 1 false heven
          set A := (pairRound cur rnum 1 false).1 with hadef
          set R2 := (pairRound cur rnum 1 false).2 with hr2def
          have hR2len : R2.length = 2 ^ e := by
            rw [hr2def, pairRound_snd_length]
            omega
          have q3' : ∀ j, j < cur.length →
              (A.getD j default).next_match_id = some (mkId rnum (1 + j / 2)) := by
            intro j hj
            have := q3 j hj
            simpa using this
          have q4' : idsOf R2 = (List.range (cur.length / 2)).map
              (fun m => mkId rnum (1 + m)) := by
            rw [q4]
            apply List.map_congr_left
            intro m hm
            simp
          have hR2gen : ∀ id ∈ idsOf R2, isGenId rnum id := by
            intro id hid
            rw [q4'] at hid
            obtain ⟨m, -, rfl⟩ := List.mem_map.mp hid
            exact isGenId_mkId_ge rnum rnum _ (le_refl rnum)
          have preR2 : LoopPre (rnum + 1) R2 := by
            refine ⟨?_, ?_, q5, ?_⟩
            · rw [q4']
              refine List.Nodup.map ?_ (List.nodup_range _)
              intro a b hab
              have := mkId_inj rnum (1 + a) rnum (1 + b) hab
              omega
            · intro id hid
              rw [q4'] at hid
              obtain ⟨m, -, rfl⟩ := List.mem_map.mp hid
              exact not_isGenId_mkId (rnum + 1) rnum _ (by omega)
            · intro j hj t ht
              have htcur : t ∈ idsOf cur :=
                q6 _ (getD_mem R2 j default hj) t ht
              have hnotgen : ¬ isGenId rnum t := fun hg => pre.notGen t htcur hg
              constructor
              · intro hmem
                exact hnotgen (hR2gen t hmem)
              · intro hg
                exact hnotgen (isGenId_mono rnum (rnum + 1) t (by omega) hg)
          have hfuel : R2.length ≤ f := by omega
          have S := ih f R2 (rnum + 1) (by omega) hR2len hfuel preR2
          set inner := roundsLoopF ipl f R2 (rnum + 1) with hindef
          have hAlen : A.length = cur.length := q1
          have houtlen : (A ++ inner).length = cur.length + inner.length := by
            rw [List.length_append, hAlen]
          have hinlen : R2.length ≤ inner.length := S.len
          have hposL : ∀ j, j < cur.length →
              (A ++ inner).getD j default = A.getD j default := by
            intro j hj
            exact getD_append_left _ _ _ j (by omega)
          have hposR : ∀ j, cur.length ≤ j →
              (A ++ inner).getD j default = inner.getD (j - cur.length) default := by
            intro j hj
            rw [getD_append_right _ _ _ j (by omega), hAlen]
          have hAid : ∀ j, j < cur.length →
              (A.getD j default).match_id = (cur.getD j default).match_id := by
            intro j hj
            exact ((q2 j hj).1).symm
          have hidsA : idsOf A = idsOf cur := idsOf_eq_of_sameCore A cur q1 q2
          have hinnerGen : ∀ j, j < inner.length →
              isGenId rnum ((inner.getD j default).match_id) := by
            intro j hj
            by_cases hjr : j < R2.length
            · have : (inner.getD j default).match_id = (R2.getD j default).match_id :=
                ((S.core j hjr).1).symm
              rw [this]
              exact hR2gen _ (mem_idsOf_getD R2 j hjr)
            · exact isGenId_mono rnum (rnum + 1) _ (by omega) (S.newGen j (by omega) hj)
          have hinnerGenMem : ∀ id ∈ idsOf inner, isGenId rnum id := by
            intro id hid
            obtain ⟨n, hn, rfl⟩ := List.mem_map.mp hid
            obtain ⟨j, hj, rfl⟩ := mem_getD inner n hn
            exact hinnerGen j hj
          have hArefs : ∀ j, j < cur.length → ∀ t,
              referencesId (A.getD j default) t = referencesId (cur.getD j default) t := by
            intro j hj t
            exact referencesId_sameCore (q2 j hj) t
          refine {
            len := by omega
            core := ?_
            nextSet := ?_
            nextFwd := ?_
            newGen := ?_
            nodup := ?_
            refFwd := ?_
            terminalIff := ?_
            finalMem := ?_
            bronzeMem := ?_ }
          · intro j hj
            rw [hposL j hj]
            exact q2 j hj
          · intro j hj
            rw [hposL j hj, q3' j hj]
            simp
          · intro i hi id hnext
            rw [houtlen] at hi
            by_cases hi4 : i < cur.length
            · rw [hposL i hi4, q3' i hi4] at hnext
              have hideq : id = mkId rnum (1 + i / 2) := (Option.some.inj hnext).symm
              subst hideq
              refine ⟨isGenId_mkId_ge rnum rnum _ (le_refl rnum), ?_⟩
              intro j hj hjid
              rw [houtlen] at hj
              by_cases hj4 : j < cur.length
              · exfalso
                rw [hposL j hj4, hAid j hj4] at hjid
                exact pre.notGen _ (hjid ▸ mem_idsOf_getD cur j (by omega))
                  (isGenId_mkId_ge rnum rnum _ (le_refl rnum))
              · omega
            · rw [hposR i (by omega)] at hnext
              obtain ⟨hgen, hfwd⟩ := S.nextFwd (i - cur.length) (by omega) id hnext
              refine ⟨isGenId_mono rnum (rnum + 1) id (by omega) hgen, ?_⟩
              intro j hj hjid
              rw [houtlen] at hj
              by_cases hj4 : j < cur.length
              · exfalso
                rw [hposL j hj4, hAid j hj4] at hjid
                exact pre.notGen _ (hjid ▸ mem_idsOf_getD cur j (by omega))
                  (isGenId_mono rnum (rnum + 1) id (by omega) hgen)
              · rw [hposR j (by omega)] at hjid
                have := hfwd (j - cur.length) (by omega) hjid
                omega
          · intro j hj4 hjlt
            rw [houtlen] at hjlt
            rw [hposR j hj4]
            exact hinnerGen (j - cur.length) (by omega)
          · show (idsOf (A ++ inner)).Nodup
            have : idsOf (A ++ inner) = idsOf cur ++ idsOf inner := by
              show (A ++ inner).map BNode.match_id = _
              rw [List.map_append]
              show idsOf A ++ idsOf inner = _
              rw [hidsA]
            rw [this, List.nodup_append]
            refine ⟨pre.nodup, S.nodup, ?_⟩
            intro s hs hs'
            exact pre.notGen s hs (hinnerGenMem s hs')
          · intro j hj t ht i hi hid
            rw [houtlen] at hj hi
            by_cases hj4 : j < cur.length
            · exfalso
              rw [hposL j hj4, hArefs j hj4 t] at ht
              obtain ⟨hnotin, hnotgen⟩ := pre.refSafe j (by omega) t ht
              by_cases hi4 : i < cur.length
              · rw [hposL i hi4, hAid i hi4] at hid
                exact hnotin (hid ▸ mem_idsOf_getD cur i (by omega))
              · rw [hposR i (by omega)] at hid
                exact hnotgen (hid ▸ hinnerGen (i - cur.length) (by omega))
            · by_cases hi4 : i < cur.length
              · omega
              · rw [hposR j (by omega)] at ht
                rw [hposR i (by omega)] at hid
                have := S.refFwd (j - cur.length) (by omega) t ht
                  (i - cur.length) (by omega) hid
                omega
          · intro n hn
            rcases List.mem_append.mp hn with hmA | hmI
            · obtain ⟨j, hj, rfl⟩ := mem_getD A n hmA
              have hj' : j < cur.length := by omega
              constructor
              · rintro ⟨hnone, -⟩
                exfalso
                rw [q3' j hj'] at hnone
                exact Option.noConfusion hnone
              · rintro (hF | ⟨-, hB⟩) <;> exfalso
                · rw [hAid j hj'] at hF
                  exact pre.notGen _ (hF ▸ mem_idsOf_getD cur j (by omega))
                    (isGenId_special rnum _ (by simp [specialIds]))
                · rw [hAid j hj'] at hB
                  exact pre.notGen _ (hB ▸ mem_idsOf_getD cur j (by omega))
                    (isGenId_special rnum _ (by simp [specialIds]))
            · have hgenn : isGenId rnum n.match_id := by
                obtain ⟨j, hj, rfl⟩ := mem_getD inner n hmI
                exact hinnerGen j hj
              have hArefsnone : ∀ m ∈ A, referencesId m n.match_id = false := by
                intro m hm
                rw [← Bool.not_eq_true]
                intro hc
                obtain ⟨j, hj, rfl⟩ := mem_getD A m hm
                have hj' : j < cur.length := by omega
                rw [hArefs j hj' _] at hc
                exact (pre.refSafe j (by omega) _ hc).2 hgenn
              have hiff := S.terminalIff n hmI
              constructor
              · rintro ⟨h1, h2⟩
                exact hiff.mp ⟨h1, fun m hm => h2 m (List.mem_append_right A hm)⟩
              · intro hR
                obtain ⟨h1, h2⟩ := hiff.mpr hR
                refine ⟨h1, ?_⟩
                intro m hm
                rcases List.mem_append.mp hm with hmA2 | hmI2
                · exact hArefsnone m hmA2
                · exact h2 m hmI2
          · show "Final-M1" ∈ idsOf (A ++ inner)
            show "Final-M1" ∈ (A ++ inner).map BNode.match_id
            rw [List.map_append]
            exact List.mem_append_right _ S.finalMem
          · intro hip
            show "Bronze-M1" ∈ (A ++ inner).map BNode.match_id
            rw [List.map_append]
            exact List.mem_append_right _ (S.bronzeMem hip)

end ShuttleSquads

namespace ShuttleSquads

/-! ## Assembling the knockout-graph invariants -/

/-- One step of the reference graph on list positions: `i` feeds into `j`
when node `i`'s `next_match_id` is node `j`'s id, or node `j`'s participants
name node `i` via "Winner of"/"Loser of". -/
def graphEdge (nodes : List BNode) (i j : ℕ) : Prop :=
  i < nodes.length ∧ j < nodes.length ∧
    ((nodes.getD i default).next_match_id = some ((nodes.getD j default).match_id) ∨
      referencesId (nodes.getD j default) ((nodes.getD i default).match_id) = true)

theorem bool_eq_of_iff {a b : Bool} (h : a = true ↔ b = true) : a = b := by
  cases a <;> cases b <;> simp_all

theorem roundsLoop_short (b : Bool) (cur : List BNode) (r : ℕ) (h : cur.length ≤ 1) :
    roundsLoop b cur r = cur := by
  unfold roundsLoop
  exact roundsLoopF_short b _ cur r h

theorem gkg_unfold (T : ℕ) (style : String) :
    generate_knockout_graph T style =
      (round2Loop (((List.range T).map fun i => "Seed " ++ Nat.repr (i + 1)).take
            (nextPow2 T - T))
          (round1Nodes (((List.range T).map fun i => "Seed " ++ Nat.repr (i + 1)).drop
              (nextPow2 T - T))
            ((T - (nextPow2 T - T)) / 2)) 0 (nextPow2 T / 4)).1 ++
        roundsLoop (style == "ipl")
          (round2Loop (((List.range T).map fun i => "Seed " ++ Nat.repr (i + 1)).take
              (nextPow2 T - T))
            (round1Nodes (((List.range T).map fun i => "Seed " ++ Nat.repr (i + 1)).drop
                (nextPow2 T - T))
              ((T - (nextPow2 T - T)) / 2)) 0 (nextPow2 T / 4)).2 3 := rfl

theorem c4_general (T : ℕ) (style : String) (hT : 5 ≤ T) :
    (∀ i j, graphEdge (generate_knockout_graph T style) i j → i < j) ∧
    ((generate_knockout_graph T style).countP
        (isTerminal (generate_knockout_graph T style)) =
      if style = "ipl" then 1 else 2) ∧
    (∃ n ∈ generate_knockout_graph T style,
      isTerminal (generate_knockout_graph T style) n = true ∧
        n.match_id = "Final-M1") := by
  obtain ⟨k0, hbrk, hTle, hmin0⟩ := nextPow2_spec T (by omega)
  have hk3 : 3 ≤ k0 := by
    by_contra hc
    push_neg at hc
    have : (2 : ℕ) ^ k0 ≤ 4 := by interval_cases k0 <;> norm_num
    omega
  obtain ⟨e, rfl⟩ : ∃ e, k0 = e + 2 := ⟨k0 - 2, by omega⟩
  have he1 : 1 ≤ e := by omega
  have hp2 : (2 : ℕ) ^ (e + 2) = 4 * 2 ^ e := by ring
  have hp1 : (2 : ℕ) ^ (e + 1) = 2 * 2 ^ e := by ring
  have hpe : 1 ≤ (2 : ℕ) ^ e := Nat.one_le_two_pow
  have hmin : 2 ^ (e + 1) < T := by
    have := hmin0 (by omega)
    simpa using this
  rw [gkg_unfold T style]
  set seeds := (List.range T).map (fun i => "Seed " ++ Nat.repr (i + 1)) with hseedsdef
  set byes := nextPow2 T - T with hbyesdef
  set cnt := (T - byes) / 2 with hcntdef
  set q := nextPow2 T / 4 with hqdef
  have hbyesval : byes = 2 ^ (e + 2) - T := by rw [hbyesdef, hbrk]
  have hcntval : cnt = T - 2 ^ (e + 1) := by
    rw [hcntdef, hbyesval]
    omega
  have hqval : q = 2 ^ e := by
    rw [hqdef, hbrk]
    omega
  have hseedslen : seeds.length = T := by simp [hseedsdef]
  have htake : (seeds.take byes).length = byes := by
    rw [List.length_take, hseedslen]
    omega
  have hbyeStr : ∀ s ∈ seeds.take byes, ∀ t,
      s ≠ "Winner of " ++ t ∧ s ≠ "Loser of " ++ t := by
    intro s hs t
    have hs' : s ∈ seeds := List.take_subset _ _ hs
    rw [hseedsdef] at hs'
    obtain ⟨i, -, rfl⟩ := List.mem_map.mp hs'
    exact seed_str_not_ref (i + 1) t
  have hplayStr : ∀ s ∈ seeds.drop byes, ∀ t,
      s ≠ "Winner of " ++ t ∧ s ≠ "Loser of " ++ t := by
    intro s hs t
    have hs' : s ∈ seeds := List.drop_subset _ _ hs
    rw [hseedsdef] at hs'
    obtain ⟨i, -, rfl⟩ := List.mem_map.mp hs'
    exact seed_str_not_ref (i + 1) t
  set r1 := round1Nodes (seeds.drop byes) cnt with hr1def
  have hr1len : r1.length = cnt := round1Nodes_length _ _
  have hcntpos : 1 ≤ cnt := by omega
  have hD : 0 + q ≤ (seeds.take byes).length + r1.length := by
    rw [htake, hr1len]
    omega
  have R2S := round2Loop_spec (seeds.take byes) hbyeStr q 0 r1 hD
  set pre1 := (round2Loop (seeds.take byes) r1 0 q).1 with hpre1def
  set cur := (round2Loop (seeds.take byes) r1 0 q).2 with hcurdef
  have hcurlen : cur.length = 2 ^ e := R2S.len2.trans hqval
  have hcurids : idsOf cur = (List.range q).map (fun m => mkId 2 (m + 1)) := by
    have h := R2S.ids2
    rw [h]
    apply List.map_congr_left
    intro m hm
    show mkId 2 (0 + m + 1) = mkId 2 (m + 1)
    rw [Nat.zero_add]
  have hpre : LoopPre 3 cur := by
    refine ⟨?_, ?_, R2S.next2, ?_⟩
    · rw [hcurids]
      refine List.Nodup.map ?_ (List.nodup_range _)
      intro a b hab
      have := mkId_inj 2 (a + 1) 2 (b + 1) hab
      omega
    · intro id hid
      rw [hcurids] at hid
      obtain ⟨m, -, rfl⟩ := List.mem_map.mp hid
      exact not_isGenId_mkId 3 2 _ (by omega)
    · intro j hj t ht
      have htid : t ∈ idsOf r1 := R2S.refs2 _ (getD_mem cur j default hj) t ht
      rw [hr1def, round1Nodes_ids] at htid
      obtain ⟨m, -, rfl⟩ := List.mem_map.mp htid
      constructor
      · intro hmem
        rw [hcurids] at hmem
        obtain ⟨m', -, he'⟩ := List.mem_map.mp hmem
        exact absurd (mkId_inj 2 (m' + 1) 1 (m + 1) he').1 (by omega)
      · exact not_isGenId_mkId 3 1 _ (by omega)
  have LS := roundsLoopF_spec (style == "ipl") e cur.length cur 3 he1 hcurlen (le_refl _) hpre
  have hrl : roundsLoop (style == "ipl") cur 3 =
      roundsLoopF (style == "ipl") cur.length cur 3 := rfl
  rw [hrl]
  set out := roundsLoopF (style == "ipl") cur.length cur 3 with houtdef
  have hpre1len : pre1.length = cnt := R2S.len1.trans hr1len
  have hpre1id : ∀ j, j < cnt → (pre1.getD j default).match_id = mkId 1 (j + 1) := by
    intro j hj
    have h1 : (pre1.getD j default).match_id = (r1.getD j default).match_id :=
      ((R2S.core j (by omega)).1).symm
    rw [h1, hr1def, round1Nodes_getD _ _ j hj]
  have hpre1next : ∀ j, j < cnt → ∃ kk, 1 ≤ kk ∧ kk ≤ q ∧
      (pre1.getD j default).next_match_id = some (mkId 2 kk) := by
    intro j hj
    by_cases hjq : cnt ≤ j + q
    · obtain ⟨kk, k1, k2, k3⟩ := R2S.coverBack (cnt - 1 - j) (by omega)
        (by omega) (by omega)
      rw [hr1len] at k3
      have he2 : cnt - 1 - (cnt - 1 - j) = j := by omega
      rw [he2] at k3
      exact ⟨kk, by omega, by omega, k3⟩
    · obtain ⟨kk, k1, k2, k3⟩ := R2S.coverFront (j + (seeds.take byes).length)
        (by omega) (by rw [htake]; omega) (by omega)
      have he2 : j + (seeds.take byes).length - (seeds.take byes).length = j := by omega
      rw [he2] at k3
      exact ⟨kk, by omega, by omega, k3⟩
  have hpre1refs : ∀ j, j < cnt → ∀ t, referencesId (pre1.getD j default) t = false := by
    intro j hj t
    rw [referencesId_sameCore (R2S.core j (by omega)) t]
    have hmem : r1.getD j default ∈ round1Nodes (seeds.drop byes) cnt := by
      rw [← hr1def]
      exact getD_mem r1 j default (by omega)
    exact round1Nodes_refs _ _ hplayStr _ hmem t
  have hGlen : (pre1 ++ out).length = cnt + out.length := by
    rw [List.length_append, hpre1len]
  have hGL : ∀ j, j < cnt → (pre1 ++ out).getD j default = pre1.getD j default := by
    intro j hj
    exact getD_append_left _ _ _ j (by omega)
  have hGR : ∀ j, cnt ≤ j → (pre1 ++ out).getD j default = out.getD (j - cnt) default := by
    intro j hj
    rw [getD_append_right _ _ _ j (by omega), hpre1len]
  have edgeFwd : ∀ i j, graphEdge (pre1 ++ out) i j → i < j := by
    rintro i j ⟨hi, hj, hedge⟩
    rw [hGlen] at hi hj
    by_cases hic : i < cnt
    · by_cases hjc : j < cnt
      · exfalso
        rcases hedge with hnx | hrf
        · rw [hGL i hic, hGL j hjc, hpre1id j hjc] at hnx
          obtain ⟨kk, -, -, k3⟩ := hpre1next i hic
          rw [k3] at hnx
          exact absurd (mkId_inj 2 kk 1 (j + 1) (Option.some.inj hnx)).1 (by omega)
        · rw [hGL j hjc, hGL i hic] at hrf
          rw [hpre1refs j hjc _] at hrf
          exact Bool.noConfusion hrf
      · omega
    · by_cases hjc : j < cnt
      · exfalso
        rcases hedge with hnx | hrf
        · rw [hGR i (by omega), hGL j hjc, hpre1id j hjc] at hnx
          have hg := (LS.nextFwd (i - cnt) (by omega) _ hnx).1
          exact not_isGenId_mkId 3 1 _ (by omega) hg
        · rw [hGL j hjc, hGR i (by omega)] at hrf
          rw [hpre1refs j hjc _] at hrf
          exact Bool.noConfusion hrf
      · rcases hedge with hnx | hrf
        · rw [hGR i (by omega), hGR j (by omega)] at hnx
          have := (LS.nextFwd (i - cnt) (by omega) _ hnx).2 (j - cnt) (by omega) rfl
          omega
        · rw [hGR i (by omega), hGR j (by omega)] at hrf
          have := LS.refFwd (j - cnt) (by omega) _ hrf (i - cnt) (by omega) rfl
          omega
  have hanypre : ∀ s, pre1.any (fun m => referencesId m s) = false := by
    intro s
    rw [List.any_eq_false]
    intro m hm
    obtain ⟨j, hj, rfl⟩ := mem_getD pre1 m hm
    rw [hpre1refs j (by omega) s]
    simp
  have hbridge : ∀ n ∈ out, (isTerminal (pre1 ++ out) n = true ↔
      (n.next_match_id = none ∧ ∀ m ∈ out, referencesId m n.match_id = false)) := by
    intro n hn
    unfold isTerminal
    rw [List.any_append, hanypre n.match_id, Bool.false_or]
    rw [Bool.and_eq_true, Bool.not_eq_true', List.any_eq_false, Option.isNone_iff_eq_none]
    constructor
    · rintro ⟨h1, h2⟩
      exact ⟨h1, fun m hm => by
        have := h2 m hm
        simpa using this⟩
    · rintro ⟨h1, h2⟩
      exact ⟨h1, fun m hm => by
        rw [h2 m hm]
        simp⟩
  have hterm : ∀ n ∈ out, (isTerminal (pre1 ++ out) n = true ↔
      (n.match_id = "Final-M1" ∨
        ((style == "ipl") = false ∧ n.match_id = "Bronze-M1"))) := by
    intro n hn
    rw [hbridge n hn]
    exact LS.terminalIff n hn
  refine ⟨edgeFwd, ?_, ?_⟩
  · rw [List.countP_append]
    have hpre0 : pre1.countP (isTerminal (pre1 ++ out)) = 0 := by
      rw [List.countP_eq_zero]
      intro n hn
      obtain ⟨j, hj, rfl⟩ := mem_getD pre1 n hn
      obtain ⟨kk, -, -, k3⟩ := hpre1next j (by omega)
      intro hc
      unfold isTerminal at hc
      rw [k3] at hc
      simp at hc
    rw [hpre0, Nat.zero_add]
    by_cases hsty : style = "ipl"
    · subst hsty
      rw [if_pos rfl]
      have hcongr : out.countP (isTerminal (pre1 ++ out)) =
          out.countP (fun n => n.match_id == "Final-M1") := by
        apply List.countP_congr
        intro n hn
        rw [hterm n hn]
        simp
      rw [hcongr]
      have hmapc : out.countP (fun n => n.match_id == "Final-M1") =
          (idsOf out).count "Final-M1" := by
        show _ = (out.map BNode.match_id).countP (fun x => x == "Final-M1")
        rw [List.countP_map]
        rfl
      rw [hmapc]
      exact List.count_eq_one_of_mem LS.nodup LS.finalMem
    · rw [if_neg hsty]
      have hbf : (style == "ipl") = false := by
        rw [beq_eq_false_iff_ne]
        exact hsty
      have hcongr : out.countP (isTerminal (pre1 ++ out)) =
          out.countP (fun n => n.match_id == "Final-M1" || n.match_id == "Bronze-M1") := by
        apply List.countP_congr
        intro n hn
        rw [hterm n hn, hbf]
        simp
      rw [hcongr]
      have hmapc : out.countP
            (fun n => n.match_id == "Final-M1" || n.match_id == "Bronze-M1") =
          (idsOf out).countP (fun x => x == "Final-M1" || x == "Bronze-M1") := by
        show _ = (out.map BNode.match_id).countP
          (fun x => x == "Final-M1" || x == "Bronze-M1")
        rw [List.countP_map]
        rfl
      rw [hmapc, countP_pair _ _ _ (by decide)]
      rw [List.count_eq_one_of_mem LS.nodup LS.finalMem,
        List.count_eq_one_of_mem LS.nodup (LS.bronzeMem hbf)]
  · obtain ⟨n, hn, hnid⟩ := List.mem_map.mp LS.finalMem
    refine ⟨n, List.mem_append_right pre1 hn, ?_, hnid⟩
    rw [hterm n hn]
    exact Or.inl hnid

end ShuttleSquads

namespace ShuttleSquads

/-- C4 (amended).  For every configuration with `total_advancing ≥ 2` the
knockout graph is acyclic: every reference (a node's `next_match_id`, or a
"Winner of"/"Loser of" participant string naming an earlier match) points from
an earlier list position to a strictly later one, so the feeding relation has
no cycles.  The number of terminal nodes (no `next_match_id` and not
referenced by any participant string) is 1 for the IPL style or when
`total_advancing ≤ 4`, and 2 for the standard style with
`total_advancing ≥ 5` (the final plus the third-place match); whenever
`total_advancing ≥ 5` the championship final "Final-M1" is terminal. -/
theorem c4_amended (T : ℕ) (style : String) (hT : 2 ≤ T) :
    (∀ i j, graphEdge (generate_knockout_graph T style) i j → i < j) ∧
    (∀ i, ¬ Relation.TransGen (graphEdge (generate_knockout_graph T style)) i i) ∧
    ((generate_knockout_graph T style).countP
        (isTerminal (generate_knockout_graph T style)) =
      if style = "ipl" ∨ T ≤ 4 then 1 else 2) ∧
    (5 ≤ T → ∃ n ∈ generate_knockout_graph T style,
      isTerminal (generate_knockout_graph T style) n = true ∧
        n.match_id = "Final-M1") := by
  have main : (∀ i j, graphEdge (generate_knockout_graph T style) i j → i < j) ∧
      ((generate_knockout_graph T style).countP
          (isTerminal (generate_knockout_graph T style)) =
        if style = "ipl" ∨ T ≤ 4 then 1 else 2) ∧
      (5 ≤ T → ∃ n ∈ generate_knockout_graph T style,
        isTerminal (generate_knockout_graph T style) n = true ∧
          n.match_id = "Final-M1") := by
    by_cases h5 : 5 ≤ T
    · obtain ⟨h1, h2, h3⟩ := c4_general T style h5
      refine ⟨h1, ?_, fun _ => h3⟩
      rw [h2]
      by_cases hsty : style = "ipl"
      · rw [if_pos (Or.inl hsty), if_pos hsty]
      · rw [if_neg hsty, if_neg ?_]
        rintro (h | h)
        · exact hsty h
        · omega
    · have hcond : (if style = "ipl" ∨ T ≤ 4 then 1 else 2) = 1 :=
        if_pos (Or.inr (by omega))
      have hsm : T = 2 ∨ T = 3 ∨ T = 4 := by omega
      rcases hsm with rfl | rfl | rfl
      · have hGv : generate_knockout_graph 2 style =
            [⟨"R1-M1", "Knockouts", "Round 1 (Wildcard)", "Seed 1", "Seed 2", none⟩] := by
          rw [gkg_unfold 2 style, roundsLoop_short _ _ _ (by decide)]
          decide
        rw [hGv, hcond]
        refine ⟨?_, by decide, by omega⟩
        rintro i j ⟨hi, hj, h⟩
        simp only [List.length_cons, List.length_nil] at hi hj
        interval_cases i
        interval_cases j
        exact absurd h (by decide)
      · have hGv : generate_knockout_graph 3 style =
            [⟨"R1-M1", "Knockouts", "Round 1 (Wildcard)", "Seed 2", "Seed 3",
              some "R2-M1"⟩,
             ⟨"R2-M1", "Knockouts", "Round 2", "Seed 1", "Winner of R1-M1", none⟩] := by
          rw [gkg_unfold 3 style, roundsLoop_short _ _ _ (by decide)]
          decide
        rw [hGv, hcond]
        refine ⟨?_, by decide, by omega⟩
        rintro i j ⟨hi, hj, h⟩
        simp only [List.length_cons, List.length_nil] at hi hj
        interval_cases i <;> interval_cases j <;>
          first | omega | exact absurd h (by decide)
      · have hGv : generate_knockout_graph 4 style =
            [⟨"R1-M1", "Knockouts", "Round 1 (Wildcard)", "Seed 1", "Seed 4",
              some "R2-M1"⟩,
             ⟨"R1-M2", "Knockouts", "Round 1 (Wildcard)", "Seed 2", "Seed 3",
              some "R2-M1"⟩,
             ⟨"R2-M1", "Knockouts", "Round 2", "Winner of R1-M1", "Winner of R1-M2",
              none⟩] := by
          rw [gkg_unfold 4 style, roundsLoop_short _ _ _ (by decide)]
          decide
        rw [hGv, hcond]
        refine ⟨?_, by decide, by omega⟩
        rintro i j ⟨hi, hj, h⟩
        simp only [List.length_cons, List.length_nil] at hi hj
        interval_cases i <;> interval_cases j <;>
          first | omega | exact absurd h (by decide)
  exact ⟨main.1, fun i => transGen_irrefl_of_forward main.1 i, main.2.1, main.2.2⟩

/-- C4 (amended, witness): the 8-team standard knockout graph has exactly two
terminal nodes. -/
theorem c4_amended_witness :
    (generate_knockout_graph 8 "standard").countP
      (isTerminal (generate_knockout_graph 8 "standard")) = 2 := by
  have h := (c4_amended 8 "standard" (by norm_num)).2.2.1
  rw [if_neg (by decide)] at h
  exact h

end ShuttleSquads
